import Mathlib

/-!
# Verification of the plan→diagram compiler

Shallow embedding of the deterministic core of the repository:

* `src/agent.py`:  `normalize_plan`  (plan sanitisation),
* `src/plan_to_drawio.py`:  `plan_to_mxgraph` (layout + document synthesis),
* `src/validate.py`:  `validate_xml` (local validator),
* `src/render.py`:  `drawio_xml_to_svg` (standalone SVG renderer).

Modelling conventions, used consistently below:

* Python strings are Lean `String`s; all string primitives (slicing, `lower`,
  substring test, `split`) are re-implemented over `String.data` so that they
  are kernel-computable.  `str.lower` is modelled character-wise (ASCII); the
  keyword sets involved are all ASCII.
* Python floats are modelled as exact rationals (`ℚ`).  Every number produced
  by the layout engine is a small dyadic rational, for which Python float
  arithmetic is exact, and `repr`/`float()` round-trip exactly, so modelling
  the serialise/parse cycle of numeric XML attributes as the identity is
  faithful.  A numeric XML attribute is a `GeoVal`: either a number or a
  value `float()` rejects (which makes the Python code raise `ValueError`).
* The mxGraphModel XML document is modelled as its parsed form: the root tag
  plus the flat list of `mxCell` records it contains (`plan_to_mxgraph` emits
  exactly such a flat document; XML serialisation plus `ElementTree` parsing,
  including `html.escape`/unescaping of attribute values, is the identity on
  this data).  Functions that receive an arbitrary *string* and first parse
  it (`validate_xml`, `drawio_xml_to_svg`) take an `XmlInput`: the outcome of
  that parse, either failure (with message) or a parsed document.
* Fallible Python code returns `Except PyErr`; an uncaught Python exception
  is `Except.error`.
* `normalize_plan` is embedded three times, at three levels of abstraction,
  each a line-by-line transliteration of the same source:
  - `Arch.normalize_plan` over a typed plan record (for claims that
    quantify over well-formed plans),
  - `PyV.normalize_plan_v` over an untyped Python value tree (for claims
    about structurally odd input),
  - `PyH.normalize_plan_h` over an explicit heap with Python reference
    semantics (for the claim about mutation of the caller's plan object).
-/

namespace Arch

/-- ASCII character lowercase, modelling Python `str.lower` character-wise. -/
def charLower (c : Char) : Char :=
  if 'A' ≤ c && c ≤ 'Z' then Char.ofNat (c.toNat + 32) else c

/-- Python `s.lower()` (ASCII model, applied character-wise). -/
def strLower (s : String) : String := ⟨s.data.map charLower⟩

/-- Does `hay` start with `needle` (on character lists)? -/
def startsWithL : List Char → List Char → Bool
  | [], _ => true
  | _ :: _, [] => false
  | a :: as, b :: bs => a == b && startsWithL as bs

/-- Substring occurrence on character lists: Python `needle in hay` for str. -/
def subStr (needle : List Char) : List Char → Bool
  | [] => needle.isEmpty
  | c :: t => startsWithL needle (c :: t) || subStr needle t

/-- Python `needle in hay` on strings. -/
def strContains (hay needle : String) : Bool := subStr needle.data hay.data

/-- Python slicing `s[:n]`. -/
def strTake (s : String) (n : Nat) : String := ⟨s.data.take n⟩

/-- Python `len(s)` (count of code points). -/
def strLen (s : String) : Nat := s.data.length

/-- Stable insertion of `x` into a sorted list: `x` goes in front of the first
element it is `le`-below-or-tied-with, so an earlier original element stays in
front of later ties. -/
def insortStable (le : α → α → Bool) (x : α) : List α → List α
  | [] => [x]
  | y :: ys => if le x y then x :: y :: ys else y :: insortStable le x ys

/-- Stable sort by a total boolean relation.  This models Python's stable
`sorted`/`list.sort`: every stable sorting algorithm computes the same list,
so embedding CPython's timsort as stable insertion sort is extensionally
faithful. -/
def stableSort (le : α → α → Bool) : List α → List α
  | [] => []
  | x :: xs => insortStable le x (stableSort le xs)

/-- Truthiness of an optional string, as Python truthiness of a value that is
either absent/None or a string (`None` and `""` are falsy). -/
def truthyStr : Option String → Bool
  | none => false
  | some s => s ≠ ""

/-- A plan node.  Mirrors the keys of a node dict that the core reads:
`id`, `name`, `type`, `lane`, `group`, `scope`.  A missing key and an
explicit `None` value are both modelled as `none` (the code only accesses
these keys through `dict.get`, for which the two coincide; dict equality,
used by `list.remove`, then identifies them, which is harmless because
`remove` is only ever applied to elements taken from the list itself).
The claims quantifying over canonical plans presuppose nodes carry ids,
so `id` is a plain `String`. -/
structure PNode where
  id : String
  name : Option String
  ntype : Option String
  lane : Option String
  group : Option String
  scope : Option String
  deriving DecidableEq

/-- A plan edge: keys `from`, `to`, `label` (named `src`/`dst` here because
`from` is reserved in Lean). -/
structure PEdge where
  src : Option String
  dst : Option String
  label : Option String
  deriving DecidableEq

/-- A plan group: keys `id`, `name`, `lane`, `style`. -/
structure PGroup where
  id : Option String
  name : Option String
  lane : Option String
  style : Option String
  deriving DecidableEq

/-- A typed plan (the canonical-plan data model).  `lanes` is `none` when the
key is absent; `legend` likewise. -/
structure Plan where
  title : Option String
  lanes : Option (List String)
  legend : Option Bool
  nodes : List PNode
  edges : List PEdge
  groups : List PGroup
  deriving DecidableEq

/-- First-match association lookup.  Used for the untyped dict models, whose
lists always carry unique keys when they arise from Python dicts (writes go
through a replace-first `dSet`); on junk lists with duplicate keys the
first-match convention is applied consistently. -/
def assocFind {β : Type} (k : String) : List (String × β) → Option β
  | [] => none
  | (k', v) :: t => if k' == k then some v else assocFind k t

/-- agent.py CONTAINER_KEYWORDS (lines 253-256). -/
def CONTAINER_KEYWORDS : List String :=
  ["vpc", "subnet", "cluster", "network", "region", "zone",
   "namespace", "environment", "boundary", "perimeter"]

/-- agent.py line 291. -/
def MAX_NODES : Nat := 8

/-- agent.py lines 261-265: a node is an infrastructure container when its
lower-cased name or id contains a container keyword. -/
def isContainer (n : PNode) : Bool :=
  CONTAINER_KEYWORDS.any (fun kw =>
    strContains (strLower (n.name.getD "")) kw || strContains (strLower n.id) kw)

/-- agent.py lines 269-272: the group record a demoted container node turns
into (only the keys `id` and `name` are set). -/
def mkDemotedGroup (n : PNode) : PGroup :=
  { id := some n.id, name := some (n.name.getD n.id), lane := none, style := none }

/-- agent.py lines 259-277: walk the nodes in order; each container node is
appended to the group list unless a group with its id already exists. -/
def demoteGroups (gs : List PGroup) : List PNode → List PGroup
  | [] => gs
  | n :: ns =>
    if isContainer n then
      let gs' := if (gs.map (·.id)).contains (some n.id) then gs
                 else gs ++ [mkDemotedGroup n]
      demoteGroups gs' ns
    else demoteGroups gs ns

/-- agent.py lines 280-281: `for node in nodes_to_remove: g["nodes"].remove(node)`.
`list.remove` deletes the first `==`-equal element; in `normalize_plan` the
removed list is exactly the sub-multiset of container nodes, so an element is
always found (the `ValueError` branch of `remove` is unreachable and `List.erase`
is a faithful model). -/
def removeNodes (nodes toRemove : List PNode) : List PNode :=
  toRemove.foldl (fun acc n => acc.erase n) nodes

/-- Python `o in ids` where `ids` is a set of node-id strings and `o` is
`e.get("from")`/`e.get("to")` (possibly `None`, which is never a member). -/
def optMem (o : Option String) (ids : List String) : Bool :=
  match o with
  | none => false
  | some s => ids.contains s

/-- agent.py lines 284-288 and 305-309: drop edges whose endpoints are not
both ids of surviving nodes. -/
def pruneEdges (nodes : List PNode) (edges : List PEdge) : List PEdge :=
  let ids := nodes.map (·.id)
  edges.filter (fun e => optMem e.src ids && optMem e.dst ids)

/-- agent.py lines 294-298: incident-edge count of a node id (each edge
occurrence counts once, self-loops once).  The source stores these counts in
a dict keyed by id; the stored value is a function of the id alone, so a
direct function is an equivalent model. -/
def connCount (edges : List PEdge) (nid : String) : Nat :=
  (edges.filter (fun e => e.src == some nid || e.dst == some nid)).length

/-- agent.py lines 312-315: truncate a node display name over 20 characters
to its first 17 plus an ellipsis; when the `name` key is missing the id is
measured, and `name` is only written in the truncating case. -/
def truncNodeName (n : PNode) : PNode :=
  let name := n.name.getD n.id
  if strLen name > 20 then { n with name := some (strTake name 17 ++ "...") } else n

/-- agent.py lines 317-325: keep the first edge for each `(from, to)` pair. -/
def dedupEdges : List PEdge → List (Option String × Option String) → List PEdge
  | [], _ => []
  | e :: es, seen =>
    if seen.contains (e.src, e.dst) then dedupEdges es seen
    else e :: dedupEdges es ((e.src, e.dst) :: seen)

/-- agent.py lines 327-331: truncate an edge label over 15 characters to its
first 12 plus an ellipsis (label written only in the truncating case). -/
def truncEdgeLabel (e : PEdge) : PEdge :=
  let label := e.label.getD ""
  if strLen label > 15 then { e with label := some (strTake label 12 ++ "...") } else e

/-- agent.py line 245: the default title derived from the goal text. -/
def defaultTitle (user_goal : String) : String :=
  strTake user_goal 50 ++ (if strLen user_goal > 50 then "..." else "")

/-- agent.py lines 232-333, `normalize_plan`, over the typed plan model.
In this typed model the list-coercion step (lines 247-250) is the identity:
`nodes`/`edges`/`groups` are lists by construction (the untyped behaviour is
settled separately over the `PyV`/`PyH` models).  All remaining steps are
transliterated in source order: title defaulting, container demotion, edge
pruning, the 8-node cap with stable descending connectivity sort followed by
re-pruning, name truncation, edge deduplication, label truncation. -/
def normalize_plan (user_goal : String) (p : Plan) : Plan :=
  let title := if truthyStr p.title then p.title else some (defaultTitle user_goal)
  let toRemove := p.nodes.filter isContainer
  let groups1 := demoteGroups p.groups p.nodes
  let nodes1 := removeNodes p.nodes toRemove
  let edges1 := pruneEdges nodes1 p.edges
  let nodes2 :=
    if nodes1.length > MAX_NODES then
      (stableSort (fun a b => decide (connCount edges1 b.id ≤ connCount edges1 a.id)) nodes1).take MAX_NODES
    else nodes1
  let edges2 := if nodes1.length > MAX_NODES then pruneEdges nodes2 edges1 else edges1
  let nodes3 := nodes2.map truncNodeName
  let edges3 := dedupEdges edges2 []
  let edges4 := edges3.map truncEdgeLabel
  { p with title := title, nodes := nodes3, edges := edges4, groups := groups1 }

/-! ## plan_to_drawio.py: layout engine and document synthesiser -/

/-- plan_to_drawio.py lines 25-31. -/
def DEFAULT_LANES : List String :=
  ["Experience", "Application", "Integration", "Data", "Platform & Security"]

/-- Exact rational scalar for the Python float values of the compiler.  All
numbers the embedded code computes are small dyadic rationals, on which
Python binary floating point is exact, so exact rational arithmetic is a
faithful model.  Mathlib's `ℚ` normalises through `Nat.gcd`, which the
kernel cannot evaluate, so this unnormalised fraction type (numerator,
positive denominator — every operation below preserves positivity, and the
embedded code divides only by nonzero values) carries the arithmetic; `Q.val`
interprets it in `ℚ` for symbolic reasoning. -/
structure Q where
  n : Int
  d : Int
  deriving DecidableEq

instance : OfNat Q m := ⟨⟨(m : Int), 1⟩⟩

instance : NatCast Q := ⟨fun m => ⟨(m : Int), 1⟩⟩

instance : IntCast Q := ⟨fun m => ⟨m, 1⟩⟩

instance : Add Q := ⟨fun a b => ⟨a.n * b.d + b.n * a.d, a.d * b.d⟩⟩

instance : Sub Q := ⟨fun a b => ⟨a.n * b.d - b.n * a.d, a.d * b.d⟩⟩

instance : Neg Q := ⟨fun a => ⟨-a.n, a.d⟩⟩

instance : Mul Q := ⟨fun a b => ⟨a.n * b.n, a.d * b.d⟩⟩

instance : Div Q := ⟨fun a b =>
  if 0 ≤ b.n then ⟨a.n * b.d, a.d * b.n⟩ else ⟨-(a.n * b.d), a.d * (-b.n)⟩⟩

instance : Pow Q Nat := ⟨fun q m => ⟨q.n ^ m, q.d ^ m⟩⟩

instance : LE Q := ⟨fun a b => a.n * b.d ≤ b.n * a.d⟩

instance : LT Q := ⟨fun a b => a.n * b.d < b.n * a.d⟩

instance (a b : Q) : Decidable (a ≤ b) :=
  inferInstanceAs (Decidable (a.n * b.d ≤ b.n * a.d))

instance (a b : Q) : Decidable (a < b) :=
  inferInstanceAs (Decidable (a.n * b.d < b.n * a.d))

/-- Python `max(a, b)`: the second argument only when strictly greater. -/
def qmax (a b : Q) : Q := if a < b then b else a

/-- Python `min(a, b)`: the second argument only when strictly smaller. -/
def qmin (a b : Q) : Q := if b < a then b else a

/-- Value of the fraction in `ℚ` (for symbolic reasoning only). -/
def Q.val (q : Q) : ℚ := (q.n : ℚ) / (q.d : ℚ)

/-- Positive denominator invariant (holds for everything the embedding
builds). -/
def Q.pos (q : Q) : Prop := 0 < q.d

/-- Colour scheme of a lane (plan_to_drawio.py lines 34-71). -/
structure LaneColors where
  fill : String
  stroke : String
  bg : String
  text : String
  deriving DecidableEq

/-- plan_to_drawio.py LANE_COLORS table. -/
def LANE_COLORS : List (String × LaneColors) :=
  [("Experience", ⟨"#0a6ed1", "#0858a8", "#e8f4fd", "#ffffff"⟩),
   ("Application", ⟨"#1a9898", "#147a7a", "#e6f5f5", "#ffffff"⟩),
   ("Integration", ⟨"#f39c12", "#c77d0e", "#fef5e6", "#ffffff"⟩),
   ("Data", ⟨"#6c5ce7", "#5649b9", "#f0eef9", "#ffffff"⟩),
   ("Platform & Security", ⟨"#2c3e50", "#1a252f", "#ebeff2", "#ffffff"⟩),
   ("External", ⟨"#95a5a6", "#7f8c8d", "#f4f6f6", "#ffffff"⟩)]

/-- plan_to_drawio.py `_get_lane_colors`: table lookup, External as default. -/
def get_lane_colors (lane : String) : LaneColors :=
  (LANE_COLORS.lookup lane).getD ⟨"#95a5a6", "#7f8c8d", "#f4f6f6", "#ffffff"⟩

/-- Layout constants, plan_to_drawio.py lines 74-81 (`NODE_SPACING_Y` is unused
by the code and omitted). -/
def LANE_HEIGHT : Q := 130

/-- plan_to_drawio.py line 75. -/
def LANE_PADDING : Q := 20

/-- plan_to_drawio.py line 76. -/
def NODE_WIDTH : Q := 160

/-- plan_to_drawio.py line 77. -/
def NODE_HEIGHT : Q := 60

/-- plan_to_drawio.py line 78. -/
def NODE_SPACING_X : Q := 200

/-- plan_to_drawio.py line 80. -/
def GROUP_PADDING : Q := 30

/-- plan_to_drawio.py line 81. -/
def DIAGRAM_MARGIN : Q := 40

/-- Value of a hexadecimal digit. -/
def hexVal (c : Char) : Option Nat :=
  if '0' ≤ c && c ≤ '9' then some (c.toNat - 48)
  else if 'a' ≤ c && c ≤ 'f' then some (c.toNat - 87)
  else if 'A' ≤ c && c ≤ 'F' then some (c.toNat - 55)
  else none

/-- Is `c` one of `[0-9a-fA-F]`? -/
def isHexCh (c : Char) : Bool := (hexVal c).isSome

/-- Python `int(ab, 16)` for a two-hex-digit string given as two chars. -/
def hexByte (a b : Char) : Nat := (hexVal a).getD 0 * 16 + (hexVal b).getD 0

/-- Relative luminance `0.2126*r + 0.7152*g + 0.0722*b` of 0-255 channels
normalised to 0-1.  Python computes this in binary floating point; the claims
never compare within float rounding distance of a threshold, so exact
rational arithmetic is a faithful model. -/
def luminance (r g b : Nat) : Q :=
  (2126 / 10000 : Q) * ((r : Q) / 255) + (7152 / 10000 : Q) * ((g : Q) / 255)
    + (722 / 10000 : Q) * ((b : Q) / 255)

/-- plan_to_drawio.py `_is_dark` (lines 89-100): empty input falls back to
"#000000", a missing "#" is prepended, the regex `^#[0-9a-fA-F]{6}$` gate is
the shape-and-hex-digit test below, and the luminance threshold is 0.5. -/
def is_dark_plan (hex_color : String) : Bool :=
  let c0 := if hex_color = "" then "#000000" else hex_color
  let c := if startsWithL ['#'] c0.data then c0 else "#" ++ c0
  match c.data with
  | ['#', a, b, c1, d, e, f] =>
    if isHexCh a && isHexCh b && isHexCh c1 && isHexCh d && isHexCh e && isHexCh f then
      decide (luminance (hexByte a b) (hexByte c1 d) (hexByte e f) < 1 / 2)
    else false
  | _ => false

/-- Font colour the synthesiser picks for a fill (plan_to_drawio.py line 127). -/
def node_font_color (fill : String) : String :=
  if is_dark_plan fill then "#ffffff" else "#1a1a1a"

/-- Effective lane of a node: `node.get("lane", "Application")`. -/
def effLane (n : PNode) : String := n.lane.getD "Application"

/-- plan_to_drawio.py `_node_style` (lines 103-129). -/
def node_style (n : PNode) : String :=
  let colors := get_lane_colors (effLane n)
  let node_type := n.ntype.getD "app"
  let scope := strLower (n.scope.getD "")
  let ext := node_type == "external" || scope == "external"
  let fill := if ext then (get_lane_colors "External").fill else colors.fill
  let stroke := if ext then (get_lane_colors "External").stroke else colors.stroke
  let shape :=
    if node_type == "data" then
      "shape=cylinder3;whiteSpace=wrap;html=1;boundedLbl=1;backgroundOutline=1;size=15"
    else if node_type == "security" then
      "shape=hexagon;perimeter=hexagonPerimeter2;whiteSpace=wrap;html=1;fixedSize=1;size=20"
    else "rounded=1;whiteSpace=wrap;html=1;arcSize=20"
  shape ++ ";fillColor=" ++ fill ++ ";strokeColor=" ++ stroke ++
    ";strokeWidth=2;fontColor=" ++ node_font_color fill ++
    ";fontSize=12;fontStyle=1;shadow=1;"

/-- Lookup in a Python dict built by repeated assignment, modelled as an
association list in write order: the most recent write wins. -/
def dictLookupLast {β : Type} (k : String) : List (String × β) → Option β
  | [] => none
  | (k', v) :: t =>
    match dictLookupLast k t with
    | some r => some r
    | none => if k' = k then some v else none

/-- plan_to_drawio.py `_lane_positions` (lines 132-139), unrolled from the
starting y `DIAGRAM_MARGIN + 40`. -/
def lanePosFrom (y : Q) : List String → List (String × Q)
  | [] => []
  | l :: ls => (l, y) :: lanePosFrom (y + (LANE_HEIGHT + LANE_PADDING)) ls

/-- plan_to_drawio.py `_lane_positions`. -/
def lane_positions (lanes : List String) : List (String × Q) :=
  lanePosFrom (DIAGRAM_MARGIN + 40) lanes

/-- Python `lane_y.get(lane, 120)`. -/
def laneYLookup (lane_y : List (String × Q)) (lane : String) : Q :=
  (dictLookupLast lane lane_y).getD 120

/-- Key order of the in-lane sort (plan_to_drawio.py line 157):
`(node.get("group") or "zzz", node.get("id", ""))`. -/
def groupZ (n : PNode) : String :=
  match n.group with
  | some s => if s = "" then "zzz" else s
  | none => "zzz"

/-- Lexicographic code-point comparison of character lists (Python `str <`). -/
def strLtL : List Char → List Char → Bool
  | [], [] => false
  | [], _ :: _ => true
  | _ :: _, [] => false
  | a :: as, b :: bs => decide (a < b) || (a == b && strLtL as bs)

/-- Python tuple comparison on the sort key `(group or "zzz", id)`. -/
def laneSortLE (a b : PNode) : Bool :=
  strLtL (groupZ a).data (groupZ b).data ||
    (groupZ a == groupZ b &&
      (strLtL a.id.data b.id.data || a.id == b.id))

/-- First-occurrence key order of a Python dict populated by `setdefault`
(plan_to_drawio.py lines 148-150). -/
def firstOccAux : List String → List String → List String
  | [], _ => []
  | k :: ks, seen =>
    if seen.contains k then firstOccAux ks seen else k :: firstOccAux ks (k :: seen)

/-- Positions assigned inside one lane (plan_to_drawio.py lines 153-163):
sort by `(group or "zzz", id)`, then place left to right from
`DIAGRAM_MARGIN + 180` at `NODE_SPACING_X` spacing, at the lane's y + 35. -/
def layoutLane (lane_y : List (String × Q)) (lane : String) (nodes : List PNode) :
    List (String × Q × Q) :=
  let y := laneYLookup lane_y lane + 35
  ((stableSort laneSortLE nodes).enum).map
    (fun e => (e.2.id, (DIAGRAM_MARGIN + 180 + NODE_SPACING_X * (e.1 : Q), y)))

/-- plan_to_drawio.py `_layout_nodes_in_lanes` (lines 142-164).  The
`nodes_by_lane` dict groups nodes by effective lane in first-occurrence key
order; the per-node position values do not depend on that order, but it is
preserved so the positions dict has the same write order as the source. -/
def layout_nodes_in_lanes (p : Plan) (lane_y : List (String × Q)) :
    List (String × Q × Q) :=
  let laneKeys := firstOccAux (p.nodes.map effLane) []
  (laneKeys.map (fun lane =>
    layoutLane lane_y lane (p.nodes.filter (fun n => effLane n == lane)))).flatten

/-- Python `positions.get(nid)` / `nid in positions`. -/
def posLookup (positions : List (String × Q × Q)) (nid : String) : Option (Q × Q) :=
  dictLookupLast nid positions

/-- Maximum of a nonempty rational list (Python `max`); 0 for `[]`, which the
source never evaluates. -/
def listMaxQ : List Q → Q
  | [] => 0
  | x :: xs => xs.foldl qmax x

/-- Minimum of a nonempty rational list (Python `min`); 0 for `[]`. -/
def listMinQ : List Q → Q
  | [] => 0
  | x :: xs => xs.foldl qmin x

/-- plan_to_drawio.py `_calculate_diagram_size` (lines 167-175).  All values
are integral, so Python's `int(...)` is the identity here. -/
def calc_diagram_size (positions : List (String × Q × Q)) (lane_count : Nat) :
    Q × Q :=
  match positions with
  | [] => (1000, 600)
  | _ =>
    let max_x := listMaxQ (positions.map (fun e => e.2.1)) + NODE_WIDTH + DIAGRAM_MARGIN
    let height := DIAGRAM_MARGIN * 2 + 40 + (LANE_HEIGHT + LANE_PADDING) * (lane_count : Q)
    (qmax 1200 max_x, height)

/-- Numeric XML attribute as read back by `float(value or 0)`: either a
number (exact round-trip for the dyadic rationals this code emits) or a
truthy string `float()` rejects with `ValueError`. -/
inductive GeoVal where
  | num (q : Q)
  | bad (s : String)
  deriving DecidableEq

/-- An `mxGeometry` child element: its `x`/`y`/`width`/`height` attributes
(`none` = attribute absent). -/
structure MxGeo where
  x : Option GeoVal
  y : Option GeoVal
  w : Option GeoVal
  h : Option GeoVal
  deriving DecidableEq

/-- An `mxCell` element: the attributes the core reads, each `none` when
absent.  `value` holds the un-escaped text (`html.escape` on emission and
XML entity decoding on parse cancel out). -/
structure MxCell where
  id : Option String
  value : Option String
  style : Option String
  vertexAttr : Option String
  edgeAttr : Option String
  parent : Option String
  source : Option String
  target : Option String
  geom : Option MxGeo
  deriving DecidableEq

/-- A parsed mxGraphModel-like document: root tag and the flat list of
`mxCell` elements in document order (the layout of plan_to_mxgraph output). -/
structure XmlDoc where
  tag : String
  cells : List MxCell
  deriving DecidableEq

/-- Geometry with all four numeric attributes. -/
def mkGeo (x y w h : Q) : MxGeo :=
  ⟨some (.num x), some (.num y), some (.num w), some (.num h)⟩

/-- A vertex `mxCell` as plan_to_mxgraph emits it. -/
def mkVertex (id value style parent : String) (x y w h : Q) : MxCell :=
  { id := some id, value := some value, style := some style,
    vertexAttr := some "1", edgeAttr := none, parent := some parent,
    source := none, target := none, geom := some (mkGeo x y w h) }

/-- plan_to_drawio.py lines 198-199: the two placeholder root cells. -/
def placeholderCells : List MxCell :=
  [{ id := some "0", value := none, style := none, vertexAttr := none,
     edgeAttr := none, parent := none, source := none, target := none, geom := none },
   { id := some "1", value := none, style := none, vertexAttr := none,
     edgeAttr := none, parent := some "0", source := none, target := none, geom := none }]

/-- plan_to_drawio.py lines 206-210: diagram title cell (cell id 100). -/
def titleCell (p : Plan) : MxCell :=
  mkVertex "100" (p.title.getD "Architecture Diagram")
    "text;html=1;strokeColor=none;fillColor=none;align=left;verticalAlign=middle;fontStyle=1;fontSize=18;fontColor=#1a1a1a;"
    "1" DIAGRAM_MARGIN DIAGRAM_MARGIN 400 30

/-- plan_to_drawio.py lines 217-231: per-lane background stripe and header
label; the integer cell-id counter continues from 101, two per lane. -/
def laneCellsAux (lane_y : List (String × Q)) (lane_width : Q) (cid : Nat) :
    List String → List MxCell
  | [] => []
  | lane :: rest =>
    let y := laneYLookup lane_y lane - 10
    let colors := get_lane_colors lane
    mkVertex (toString cid) ""
        ("rounded=0;whiteSpace=wrap;html=1;strokeColor=#e0e0e0;fillColor=" ++
          colors.bg ++ ";opacity=50;")
        "1" DIAGRAM_MARGIN y lane_width LANE_HEIGHT ::
      mkVertex (toString (cid + 1)) lane
        ("text;html=1;strokeColor=none;fillColor=none;fontStyle=1;fontColor=" ++
          colors.fill ++ ";align=left;verticalAlign=top;fontSize=13;spacingLeft=4;")
        "1" (DIAGRAM_MARGIN + 8) (y + 6) 160 24 ::
      laneCellsAux lane_y lane_width (cid + 2) rest

/-- Geometry of one group container (plan_to_drawio.py lines 245-263). -/
def groupGeom (p : Plan) (positions : List (String × Q × Q))
    (lane_y : List (String × Q)) (g : PGroup) (gid : String) : Q × Q × Q × Q :=
  let lane := g.lane.getD "Platform & Security"
  let y := laneYLookup lane_y lane - 5
  let group_nodes := p.nodes.filter (fun n => n.group == some gid)
  let xs := (group_nodes.filter (fun n => (posLookup positions n.id).isSome)).map
    (fun n => ((posLookup positions n.id).getD (0, 0)).1)
  let xw : Q × Q :=
    if group_nodes.isEmpty then (DIAGRAM_MARGIN + 160, 400)
    else if xs.isEmpty then (DIAGRAM_MARGIN + 160, 400)
    else (listMinQ xs - GROUP_PADDING,
          listMaxQ xs - listMinQ xs + NODE_WIDTH + GROUP_PADDING * 2)
  (xw.1, y, xw.2, LANE_HEIGHT - 10)

/-- Style string of a group container (plan_to_drawio.py lines 264-266). -/
def groupStyleStr (g : PGroup) : String :=
  let dash := if g.style.getD "dashed" == "dashed" then "1" else "0"
  "rounded=1;whiteSpace=wrap;html=1;fillColor=#ffffff;fillOpacity=60;strokeColor=#666666;strokeWidth=2;dashed=" ++
    dash ++ ";dashPattern=8 4;verticalAlign=top;fontStyle=1;fontSize=11;fontColor=#666666;spacingTop=4;"

/-- plan_to_drawio.py lines 236-272: group container cells; `seen` is the
`seen_groups` set and doubles as the `group_cells` key list (every non-skipped
group emits exactly one cell).  Groups with missing or empty id are skipped. -/
def groupCellsAux (p : Plan) (positions : List (String × Q × Q))
    (lane_y : List (String × Q)) :
    List PGroup → List String → List MxCell × List String
  | [], seen => ([], seen)
  | g :: gs, seen =>
    match g.id with
    | none => groupCellsAux p positions lane_y gs seen
    | some gid =>
      if gid = "" || seen.contains gid then groupCellsAux p positions lane_y gs seen
      else
        let geo := groupGeom p positions lane_y g gid
        let cell := mkVertex ("g_" ++ gid) (g.name.getD gid) (groupStyleStr g) "1"
          geo.1 geo.2.1 geo.2.2.1 geo.2.2.2
        let rest := groupCellsAux p positions lane_y gs (seen ++ [gid])
        (cell :: rest.1, rest.2)

/-- plan_to_drawio.py lines 290-293: a node's parent cell is its group's
container when that group was emitted, the root cell otherwise. -/
def nodeParent (n : PNode) (group_gids : List String) : String :=
  match n.group with
  | some g => if g ≠ "" && group_gids.contains g then "g_" ++ g else "1"
  | none => "1"

/-- plan_to_drawio.py lines 277-300: node cells, deduplicated by id, skipping
falsy ids and ids without a layout position. -/
def nodeCellsAux (positions : List (String × Q × Q)) (group_gids : List String) :
    List PNode → List String → List MxCell
  | [], _ => []
  | n :: ns, seen =>
    if n.id = "" || seen.contains n.id then nodeCellsAux positions group_gids ns seen
    else
      match posLookup positions n.id with
      | none => nodeCellsAux positions group_gids ns seen
      | some (x, y) =>
        mkVertex ("n_" ++ n.id) (n.name.getD n.id) (node_style n) (nodeParent n group_gids)
            x y NODE_WIDTH NODE_HEIGHT ::
          nodeCellsAux positions group_gids ns (seen ++ [n.id])

/-- plan_to_drawio.py line 323: the fixed edge style. -/
def EDGE_STYLE : String :=
  "edgeStyle=orthogonalEdgeStyle;rounded=1;orthogonalLoop=1;jettySize=auto;html=1;strokeColor=#333333;strokeWidth=2;endArrow=blockThin;endFill=1;endSize=8;"

/-- plan_to_drawio.py line 338: the fixed edge-label style. -/
def EDGE_LABEL_STYLE : String :=
  "text;html=1;strokeColor=none;fillColor=#ffffff;align=center;verticalAlign=middle;whiteSpace=wrap;rounded=1;fontSize=10;fontColor=#333333;spacing=2;labelBackgroundColor=#ffffff;"

/-- An edge `mxCell` (plan_to_drawio.py lines 325-327); its geometry element
is present but carries no numeric attributes (`relative="1"`). -/
def mkEdgeCell (src tgt src_cell tgt_cell : String) : MxCell :=
  { id := some ("e_" ++ src ++ "_" ++ tgt), value := none, style := some EDGE_STYLE,
    vertexAttr := none, edgeAttr := some "1", parent := some "1",
    source := some src_cell, target := some tgt_cell,
    geom := some ⟨none, none, none, none⟩ }

/-- plan_to_drawio.py lines 305-340: edge cells plus midpoint label cells,
deduplicated by the `(from, to)` pair; `node_ids` lists the node ids that got
a node cell (the keys of `node_cells`, whose value for `nid` is `"n_" ++ nid`). -/
def edgeCellsAux (positions : List (String × Q × Q)) (node_ids : List String) :
    List PEdge → List (String × String) → List MxCell
  | [], _ => []
  | e :: es, seen =>
    let src := e.src.getD ""
    let tgt := e.dst.getD ""
    if src = "" || tgt = "" then edgeCellsAux positions node_ids es seen
    else if seen.contains (src, tgt) then edgeCellsAux positions node_ids es seen
    else
      let src_cell := if node_ids.contains src then "n_" ++ src else src
      let tgt_cell := if node_ids.contains tgt then "n_" ++ tgt else tgt
      let label := e.label.getD ""
      let labelCells : List MxCell :=
        if label = "" then []
        else
          let sp := (posLookup positions src).getD (0, 0)
          let tp := (posLookup positions tgt).getD (0, 0)
          let lx := (sp.1 + tp.1) / 2 + NODE_WIDTH / 2
          let ly := (sp.2 + tp.2) / 2 - 15
          [mkVertex ("l_" ++ src ++ "_" ++ tgt) label EDGE_LABEL_STYLE "1"
            (lx - 50) ly 100 20]
      (mkEdgeCell src tgt src_cell tgt_cell :: labelCells) ++
        edgeCellsAux positions node_ids es (seen ++ [(src, tgt)])

/-- plan_to_drawio.py lines 353-364: one colour swatch and one label per lane
shown in the legend, stacked at a 22-pixel pitch. -/
def legendRowsAux (legend_x : Q) (ly : Q) : List String → List MxCell
  | [] => []
  | lane :: rest =>
    let colors := get_lane_colors lane
    mkVertex ("leg_" ++ lane) ""
        ("rounded=1;whiteSpace=wrap;html=1;fillColor=" ++ colors.fill ++
          ";strokeColor=" ++ colors.stroke ++ ";")
        "1" legend_x ly 16 16 ::
      mkVertex ("legl_" ++ lane) lane
        "text;html=1;strokeColor=none;fillColor=none;align=left;verticalAlign=middle;fontSize=9;fontColor=#666666;"
        "1" (legend_x + 22) ly 100 16 ::
      legendRowsAux legend_x (ly + 22) rest

/-- plan_to_drawio.py lines 345-364: the legend block (first 4 lanes). -/
def legendCells (lanes : List String) (width : Q) : List MxCell :=
  let legend_x := width - 200
  let legend_y := DIAGRAM_MARGIN
  mkVertex "legend" "Legend"
      "text;html=1;strokeColor=none;fillColor=none;align=left;verticalAlign=top;fontStyle=1;fontSize=11;fontColor=#666666;"
      "1" legend_x legend_y 80 20 ::
    legendRowsAux legend_x (legend_y + 25) (lanes.take 4)

/-- Effective lane list: `plan.get("lanes") or DEFAULT_LANES`. -/
def lanesOf (p : Plan) : List String :=
  match p.lanes with
  | some (l :: ls) => l :: ls
  | _ => DEFAULT_LANES

/-- Emitted node cells of a plan (the node section of `plan_to_mxgraph`). -/
def nodeCellsOf (p : Plan) : List MxCell :=
  let lanes := lanesOf p
  let lane_y := lane_positions lanes
  let positions := layout_nodes_in_lanes p lane_y
  let groupRes := groupCellsAux p positions lane_y p.groups []
  nodeCellsAux positions groupRes.2 p.nodes []

/-- Emitted group cells of a plan (the group section of `plan_to_mxgraph`). -/
def groupCellsOf (p : Plan) : List MxCell :=
  let lanes := lanesOf p
  let lane_y := lane_positions lanes
  let positions := layout_nodes_in_lanes p lane_y
  (groupCellsAux p positions lane_y p.groups []).1

/-- Emitted node ids (keys of the `node_cells` dict). -/
def emittedNodeIds : List PNode → List String → List String
  | [], seen => seen
  | n :: ns, seen =>
    if n.id = "" || seen.contains n.id then emittedNodeIds ns seen
    else emittedNodeIds ns (seen ++ [n.id])

/-- plan_to_drawio.py `plan_to_mxgraph` (lines 178-370): the synthesised
document, as the parsed form of the emitted XML: root tag `mxGraphModel` and
the cells in emission order (placeholders, title, lane stripes and labels,
groups, nodes, edges with labels, legend).  The root-tag attributes
(`dx`/`dy`/page size…) are not read by the validator or renderer and are not
modelled. -/
def plan_to_mxgraph (p : Plan) : XmlDoc :=
  let lanes := lanesOf p
  let lane_y := lane_positions lanes
  let positions := layout_nodes_in_lanes p lane_y
  let size := calc_diagram_size positions lanes.length
  let width := size.1
  let lane_width := width - DIAGRAM_MARGIN * 2
  let groupRes := groupCellsAux p positions lane_y p.groups []
  let node_ids := emittedNodeIds p.nodes []
  { tag := "mxGraphModel",
    cells :=
      placeholderCells ++ [titleCell p] ++ laneCellsAux lane_y lane_width 101 lanes ++
        groupRes.1 ++ nodeCellsAux positions groupRes.2 p.nodes [] ++
        edgeCellsAux positions node_ids p.edges [] ++
        (if p.legend.getD true then legendCells lanes width else []) }

/-! ## validate.py: the local validator -/

/-- An uncaught Python exception. -/
inductive PyErr where
  | typeErr (msg : String)
  | valueErr (msg : String)
  | attrErr (msg : String)
  deriving DecidableEq

/-- Split a character list at every occurrence of a separator character
(Python `s.split(sep)` for a one-character separator). -/
def splitOnCh (sep : Char) : List Char → List (List Char)
  | [] => [[]]
  | c :: t =>
    let rest := splitOnCh sep t
    if c == sep then [] :: rest
    else match rest with
      | [] => [[c]]
      | r :: rs => (c :: r) :: rs

/-- Python `part.split('=', 1)`: chop at the first `=`, if any. -/
def splitFirstEq : List Char → Option (List Char × List Char)
  | [] => none
  | c :: t =>
    if c == '=' then some ([], t)
    else match splitFirstEq t with
      | some (k, v) => some (c :: k, v)
      | none => none

/-- Python `s.strip()` (whitespace model: the characters Lean's
`Char.isWhitespace` covers; the style strings involved contain none). -/
def pyStrip (l : List Char) : String :=
  ⟨(l.dropWhile Char.isWhitespace).reverse.dropWhile Char.isWhitespace |>.reverse⟩

/-- validate.py `_parse_style` (lines 8-18): semicolon-separated entries,
`k=v` split at the first `=`, bare flags mapped to "1", empty parts skipped.
The resulting dict is an association list in write order (lookup prefers the
most recent entry, matching dict overwrite). -/
def parse_style_entries : List (List Char) → List (String × String)
  | [] => []
  | part :: rest =>
    if part.isEmpty then parse_style_entries rest
    else match splitFirstEq part with
      | some (k, v) => (pyStrip k, pyStrip v) :: parse_style_entries rest
      | none => (pyStrip part, "1") :: parse_style_entries rest

/-- validate.py `_parse_style` applied to an optional style attribute
(`cell.get('style') or ''`). -/
def parse_style (style : String) : List (String × String) :=
  parse_style_entries (splitOnCh ';' style.data)

/-- Python `st.get(k)` on a parsed style dict. -/
def styleGet (st : List (String × String)) (k : String) : Option String :=
  dictLookupLast k st

/-- Axis-aligned box `(x, y, x+w, y+h)` as validate.py `_bbox` returns it. -/
structure BBox where
  x0 : Q
  y0 : Q
  x1 : Q
  y1 : Q
  deriving DecidableEq

/-- Python `float(attr or 0)` on a numeric XML attribute: absent (or empty,
hence falsy) attributes give 0, a non-numeric string raises `ValueError`. -/
def geoFloat : Option GeoVal → Except PyErr Q
  | none => Except.ok 0
  | some (.num q) => Except.ok q
  | some (.bad s) => Except.error (.valueErr ("could not convert string to float: " ++ s))

/-- validate.py `_bbox` (lines 21-26); attribute parse failures propagate in
source order x, y, width, height. -/
def bboxOf (g : MxGeo) : Except PyErr BBox := do
  let x ← geoFloat g.x
  let y ← geoFloat g.y
  let w ← geoFloat g.w
  let h ← geoFloat g.h
  return ⟨x, y, x + w, y + h⟩

/-- validate.py `_overlap` (lines 29-31): strict axis-aligned intersection
(touching edges do not overlap). -/
def overlapB (a b : BBox) : Bool :=
  !(decide (a.x1 ≤ b.x0) || decide (b.x1 ≤ a.x0) ||
    decide (a.y1 ≤ b.y0) || decide (b.y1 ≤ a.y0))

/-- Node-bucket record of the validator (validate.py line 55). -/
structure VNode where
  id : Option String
  bbox : BBox
  style : List (String × String)
  value : String
  deriving DecidableEq

/-- Text-bucket record of the validator (validate.py line 53); note the
source stores no `value` key for texts, so later `n.get('value')` reads on
texts always yield `None`. -/
structure VText where
  id : Option String
  bbox : BBox
  deriving DecidableEq

/-- Edge-bucket record of the validator (validate.py line 57). -/
structure VEdge where
  id : Option String
  style : List (String × String)
  deriving DecidableEq

/-- validate.py lines 47-57: walk mxCell elements in document order, sorting
vertices-with-geometry into the text or node bucket and collecting edges.
A `ValueError` from `_bbox` aborts at the first offending cell. -/
def collectCells : List MxCell → Except PyErr (List VNode × List VText × List VEdge)
  | [] => Except.ok ([], [], [])
  | c :: cs =>
    let style := parse_style (c.style.getD "")
    let nt : Except PyErr (List VNode × List VText) :=
      if c.vertexAttr == some "1" then
        match c.geom with
        | some geo =>
          match bboxOf geo with
          | Except.error e => Except.error e
          | Except.ok bb =>
            if truthyStr (styleGet style "text") || styleGet style "shape" == some "text"
                || (truthyStr c.value && styleGet style "strokeColor" == some "none") then
              Except.ok ([], [⟨c.id, bb⟩])
            else Except.ok ([⟨c.id, bb, style, c.value.getD ""⟩], [])
        | none => Except.ok ([], [])
      else Except.ok ([], [])
    let ed : List VEdge := if c.edgeAttr == some "1" then [⟨c.id, style⟩] else []
    match nt with
    | Except.error e => Except.error e
    | Except.ok (ns, ts) =>
      match collectCells cs with
      | Except.error e => Except.error e
      | Except.ok rest => Except.ok (ns ++ rest.1, ts ++ rest.2.1, ed ++ rest.2.2)

/-- Rendering of a possibly-`None` id inside an f-string. -/
def pyOptStr (o : Option String) : String := o.getD "None"

/-- validate.py lines 64-67: recognised arrowhead terminators. -/
def endArrowOk (o : Option String) : Bool :=
  o == some "block" || o == some "classic" || o == some "open"

/-- validate.py lines 70-73: pairwise overlap scan over the node bucket,
issues in loop order (i before j). -/
def overlapIssues : List VNode → List String
  | [] => []
  | n :: ns =>
    (ns.filter (fun m => overlapB n.bbox m.bbox)).map
        (fun m => "Overlap: " ++ pyOptStr n.id ++ " with " ++ pyOptStr m.id) ++
      overlapIssues ns

/-- validate.py lines 83-92, the validator's own `_is_dark`: prepend a
missing `#`, gate on `^#[0-9a-fA-F]{6}$`, threshold 0.45 (unlike the 0.5 of
the synthesiser and renderer). -/
def is_dark_validate (color : String) : Bool :=
  let c := if startsWithL ['#'] color.data then color else "#" ++ color
  match c.data with
  | ['#', a, b, c1, d, e, f] =>
    if isHexCh a && isHexCh b && isHexCh c1 && isHexCh d && isHexCh e && isHexCh f then
      decide (luminance (hexByte a b) (hexByte c1 d) (hexByte e f) < 45 / 100)
    else false
  | _ => false

/-- validate.py lines 76-96: per-node fill presence and contrast issues. -/
def colorIssues (n : VNode) : List String :=
  let st := n.style
  let missing :=
    if (styleGet st "fillColor").isNone then
      ["Node " ++ pyOptStr n.id ++ " missing fillColor"]
    else []
  let fc := (styleGet st "fillColor").getD "#ffffff"
  let font := (styleGet st "fontColor").getD "#111111"
  let dark :=
    if is_dark_validate fc &&
        (font == "" || strLower font == "#000" || strLower font == "#000000" ||
          strLower font == "#333" || strLower font == "#222") then
      ["Low contrast text on " ++ pyOptStr n.id ++ " (dark fill + dark font)"]
    else []
  let light :=
    if !is_dark_validate fc &&
        (strLower font == "#fff" || strLower font == "#ffffff") then
      ["Low contrast text on " ++ pyOptStr n.id ++ " (light fill + light font)"]
    else []
  missing ++ dark ++ light

/-- Validation report: `{"ok": bool, "issues": [str]}`. -/
structure VResult where
  ok : Bool
  issues : List String
  deriving DecidableEq

/-- Outcome of `ET.fromstring` on the input text: parse failure (any caught
exception, rendered into the issue message) or a parsed document. -/
inductive XmlParse where
  | failed (msg : String)
  | parsed (doc : XmlDoc)
  deriving DecidableEq

/-- validate.py `validate_xml` (lines 33-113) over the parsed form of its
input.  Parse failure returns ok=false with the single parse issue; a
non-numeric geometry attribute makes the embedded code raise (`Except.error`),
as `float()` does in the source; otherwise the issue list is assembled in
source order: root tag, node/edge presence, arrowheads, node overlaps,
colour and contrast, goal keywords. -/
def validate_xml (inp : XmlParse) (user_goal : String) : Except PyErr VResult :=
  match inp with
  | .failed msg => Except.ok ⟨false, ["XML parse error: " ++ msg]⟩
  | .parsed root =>
    let issues0 := if root.tag ≠ "mxGraphModel" then ["Root is not mxGraphModel"] else []
    match collectCells root.cells with
    | Except.error e => Except.error e
    | Except.ok (nodes, texts, edges) =>
      let basic :=
        (if nodes.isEmpty then ["No nodes found"] else []) ++
        (if edges.isEmpty then ["No edges found"]
         else (edges.filter (fun e => !endArrowOk (styleGet e.style "endArrow"))).map
            (fun e => "Edge " ++ pyOptStr e.id ++ " missing endArrow"))
      let ov := overlapIssues nodes
      let colors := (nodes.map colorIssues).flatten
      let goal := strLower user_goal
      let vals := nodes.map (fun n => n.value) ++ texts.map (fun _ => "")
      let kw : String → String → String → List String := fun trigger needle msg =>
        if strContains goal trigger then
          (if vals.any (fun v => strContains (strLower v) needle) then [] else [msg])
        else []
      let kws := kw "event" "event" "Missing Events label or node" ++
                 kw "api" "api" "Missing API label or node" ++
                 kw "monitor" "monitor" "Missing Monitoring node/label" ++
                 kw "security" "secur" "Missing Security boundary/label"
      let issues := issues0 ++ basic ++ ov ++ colors ++ kws
      Except.ok ⟨issues.isEmpty, issues⟩

/-! ## render.py: the standalone SVG renderer -/

/-- The double-quote character (written by code point to keep literals
uniform). -/
def quoteCh : Char := Char.ofNat 34

/-- The apostrophe character. -/
def aposCh : Char := Char.ofNat 39

/-- Python `html.escape` with default quoting: `&`, `<`, `>`, double quote
and apostrophe; the sequential `str.replace` chain of the stdlib equals this
character-wise map. -/
def htmlEscapeCh (c : Char) : List Char :=
  if c == '&' then "&amp;".data
  else if c == '<' then "&lt;".data
  else if c == '>' then "&gt;".data
  else if c == quoteCh then "&quot;".data
  else if c == aposCh then "&#x27;".data
  else [c]

/-- Python `html.escape`. -/
def htmlEscape (s : String) : String := ⟨(s.data.map htmlEscapeCh).flatten⟩

/-- render.py lines 90-95: the named-colour table of `_normalize_color`. -/
def COLOR_MAP : List (String × String) :=
  [("white", "#ffffff"), ("black", "#000000"), ("red", "#ff0000"),
   ("green", "#00ff00"), ("blue", "#0000ff"), ("gray", "#888888"),
   ("none", "none")]

/-- Exactly six hexadecimal digits (`^[0-9a-fA-F]{6}$`). -/
def isHex6 : List Char → Bool
  | [a, b, c, d, e, f] =>
    isHexCh a && isHexCh b && isHexCh c && isHexCh d && isHexCh e && isHexCh f
  | _ => false

/-- Value of a nonempty all-hex character list. -/
def hexListVal : List Char → Option Nat
  | [] => none
  | [c] => hexVal c
  | c :: rest =>
    match hexVal c, hexListVal rest with
    | some d, some r => some (d * 16 ^ rest.length + r)
    | _, _ => none

/-- Python `int(s, 16)` for the two-character slices `_is_dark` takes:
optional surrounding whitespace and sign, then hex digits.  (The stdlib also
accepts an `0x` prefix and underscores; neither fits in two characters
together with a digit, except `0x`/`+_`-style strings that it rejects too.) -/
def pyIntHex (l : List Char) : Option Int :=
  let w := (l.dropWhile Char.isWhitespace).reverse.dropWhile Char.isWhitespace |>.reverse
  match w with
  | '+' :: rest => (hexListVal rest).map Int.ofNat
  | '-' :: rest => (hexListVal rest).map (fun n => -(n : Int))
  | _ => (hexListVal w).map Int.ofNat

/-- Luminance on possibly-signed channel values (render.py lines 106-109). -/
def luminanceI (r g b : Int) : Q :=
  (2126 / 10000 : Q) * ((r : Q) / 255) + (7152 / 10000 : Q) * ((g : Q) / 255)
    + (722 / 10000 : Q) * ((b : Q) / 255)

/-- render.py `_is_dark` (lines 98-112): no `#` is prepended here; the input
must start with `#`, be 7 characters long, and have parseable channel pairs;
threshold 0.5. -/
def is_dark_render (c : String) : Bool :=
  if c == "" || c == "none" || !startsWithL ['#'] c.data then false
  else if c.data.length ≠ 7 then false
  else
    match c.data with
    | [_, a, b, c1, d, e, f] =>
      match pyIntHex [a, b], pyIntHex [c1, d], pyIntHex [e, f] with
      | some r, some g, some bl => decide (luminanceI r g bl < 1 / 2)
      | _, _, _ => false
    | _ => false

/-- render.py `_text_color_for_bg` (lines 115-117). -/
def text_color_for_bg (bg : String) : String :=
  if is_dark_render bg then "#ffffff" else "#1a1a1a"

/-- render.py `_normalize_color` (lines 80-95): empty value falls back to the
default, `#`-prefixed values pass through, bare 6-hex values get a `#`, then
the named-colour table, then the default. -/
def normalize_color (v dflt : String) : String :=
  if v == "" then dflt
  else
    let w := pyStrip v.data
    if startsWithL ['#'] w.data then w
    else if isHex6 w.data then "#" ++ w
    else (COLOR_MAP.lookup (strLower w)).getD dflt

/-- Value of a nonempty all-decimal-digit character list. -/
def decDigitsVal : List Char → Option Nat
  | [] => none
  | [c] => if c.isDigit then some (c.toNat - 48) else none
  | c :: rest =>
    match (if c.isDigit then some (c.toNat - 48) else none), decDigitsVal rest with
    | some d, some r => some (d * 10 ^ rest.length + r)
    | _, _ => none

/-- Unsigned decimal literal: digits, optionally a point and more digits
(at least one digit overall). -/
def pyFloatCore (l : List Char) : Option Q :=
  match l.span Char.isDigit with
  | (ds, []) => (decDigitsVal ds).map (fun n => (n : Q))
  | (ds, c :: fs) =>
    if c == '.' && fs.all Char.isDigit then
      if ds.isEmpty && fs.isEmpty then none
      else
        let ip : Q := ((decDigitsVal ds).getD 0 : Q)
        let fp : Q :=
          if fs.isEmpty then 0 else ((decDigitsVal fs).getD 0 : Q) / ((10 : Q) ^ fs.length)
        some (ip + fp)
    else none

/-- Python `float(s)` on a string: surrounding whitespace, an optional sign,
then a decimal literal (exponent notation and inf/nan are not modelled; no
caller in the embedded code produces them). -/
def pyFloat (s : String) : Option Q :=
  let w := (s.data.dropWhile Char.isWhitespace).reverse.dropWhile Char.isWhitespace |>.reverse
  match w with
  | '+' :: rest => pyFloatCore rest
  | '-' :: rest => (pyFloatCore rest).map Neg.neg
  | _ => pyFloatCore w

/-- Python `float(s)`, raising `ValueError` on failure. -/
def pyFloatE (s : String) : Except PyErr Q :=
  match pyFloat s with
  | some q => Except.ok q
  | none => Except.error (.valueErr ("could not convert string to float: " ++ s))

/-- Python `int(q)`: truncation toward zero (identity on the integral values
this code produces). -/
def pyInt (q : Q) : Q := ⟨q.n.tdiv q.d, 1⟩

/-- Decimal rendering of an integral rational (Python `str` of an int). -/
def fmtInt (q : Q) : String := toString q.n

/-- Approximation of Python `f-string` `:.1f` formatting (round to one
decimal place).  Only the SVG text output depends on it; no claim does. -/
def fmt1 (q : Q) : String :=
  let n : Int := (10 * q + 1 / 2).n.fdiv (10 * q + 1 / 2).d
  let sign := if n < 0 then "-" else ""
  let m := n.natAbs
  sign ++ toString (m / 10) ++ "." ++ toString (m % 10)

/-- Approximation of Python `str(float)` for the opacity values interpolated
into the SVG (exact for the integral and half values that occur). -/
def fmtQ (q : Q) : String :=
  if q.n.tdiv q.d * q.d == q.n then toString (q.n.tdiv q.d) ++ ".0"
  else
    let scaled : Int := (q * 10000 + 1 / 2).n.fdiv (q * 10000 + 1 / 2).d
    let sign := if scaled < 0 then "-" else ""
    let m := scaled.natAbs
    let frac := toString (m % 10000)
    let frac4 := String.mk (List.replicate (4 - frac.data.length) '0') ++ frac
    sign ++ toString (m / 10000) ++ "." ++ ⟨frac4.data.reverse.dropWhile (· == '0') |>.reverse⟩

/-- Outcome of the renderer's input handling (strip code fences, sanitise the
root tag, repair bare ampersands, `ET.fromstring`): failure with a message,
or a parsed element: its tag, its `mxCell` descendants, and — for the
`mxfile` wrapper — the recursive parse outcome of the first `diagram` child's
text, when that child exists and its text is truthy. -/
inductive RXml where
  | parseFail (msg : String)
  | parsed (tag : String) (cells : List MxCell) (diagram : Option RXml)

/-- Vertex record of the renderer (render.py lines 159-170); floats already
parsed (defaults 0, 0, 120, 60). -/
structure RVert where
  id : String
  x : Q
  y : Q
  w : Q
  h : Q
  value : String
  style : List (String × String)
  parent : String
  deriving DecidableEq

/-- Edge record of the renderer (render.py lines 171-177). -/
structure REdge where
  id : String
  source : Option String
  target : Option String
  style : List (String × String)
  deriving DecidableEq

/-- Python `float(attr or default)` in the renderer's vertex loop. -/
def geoFloatD (v : Option GeoVal) (dflt : Q) : Except PyErr Q :=
  match v with
  | none => Except.ok dflt
  | some (.num q) => Except.ok q
  | some (.bad s) =>
    Except.error (.valueErr ("could not convert string to float: " ++ s))

/-- render.py lines 151-177: collect vertices (as the insertion-ordered
`vertices` dict, later same-id cells overwriting earlier values) and edges. -/
def collectRender : List MxCell → Except PyErr (List (String × RVert) × List REdge)
  | [] => Except.ok ([], [])
  | c :: cs => do
    let cid := c.id.getD ""
    let style := parse_style (c.style.getD "")
    let value := c.value.getD ""
    let step : Except PyErr (List (String × RVert) × List REdge) :=
      if c.vertexAttr == some "1" && c.geom.isSome then do
        let geo := c.geom.getD ⟨none, none, none, none⟩
        let x ← geoFloatD geo.x 0
        let y ← geoFloatD geo.y 0
        let w ← geoFloatD geo.w 120
        let h ← geoFloatD geo.h 60
        pure ([(cid, ⟨cid, x, y, w, h, value, style, c.parent.getD "1"⟩)], [])
      else if c.edgeAttr == some "1" then
        pure ([], [⟨cid, c.source, c.target, style⟩])
      else pure ([], [])
    let s ← step
    let rest ← collectRender cs
    return (s.1 ++ rest.1, s.2 ++ rest.2)

/-- First-occurrence key order of a Python dict given as its write log. -/
def pyDictKeysAux {β : Type} : List (String × β) → List String → List String
  | [], _ => []
  | (k, _) :: t, seen =>
    if seen.contains k then pyDictKeysAux t seen else k :: pyDictKeysAux t (k :: seen)

/-- Values of a Python dict in insertion order (first occurrence position,
most recent value). -/
def pyDictValues {β : Type} (l : List (String × β)) : List β :=
  (pyDictKeysAux l []).filterMap (fun k => dictLookupLast k l)

/-- render.py lines 222-230, `vertex_order`: z-order class from style. -/
def vertex_order (v : RVert) : Nat :=
  if truthyStr (styleGet v.style "opacity") || truthyStr (styleGet v.style "fillOpacity") then 0
  else if truthyStr (styleGet v.style "dashed") then 1
  else if (styleGet v.style "text").isSome || styleGet v.style "strokeColor" == some "none" then 2
  else 3

/-- render.py lines 205-219: the SVG header (literal braces of the embedded
CSS written as code points). -/
def svgHeader (width height : Q) : String :=
  "<svg xmlns='http://www.w3.org/2000/svg' width='" ++ fmtInt width ++ "' height='" ++
    fmtInt height ++ "' viewBox='0 0 " ++ fmtInt width ++ " " ++ fmtInt height ++ "'>\n" ++
  "  <defs>\n    <style>\n      .node-text \x7b font-family: -apple-system, BlinkMacSystemFont, 'Segoe UI', Roboto, sans-serif; font-weight: 600; \x7d\n" ++
  "      .label-text \x7b font-family: -apple-system, BlinkMacSystemFont, 'Segoe UI', Roboto, sans-serif; font-size: 10px; \x7d\n" ++
  "      .lane-text \x7b font-family: -apple-system, BlinkMacSystemFont, 'Segoe UI', Roboto, sans-serif; font-weight: 700; \x7d\n" ++
  "    </style>\n" ++
  "    <marker id=\"arrow\" markerWidth=\"12\" markerHeight=\"8\" refX=\"10\" refY=\"4\" orient=\"auto\" markerUnits=\"strokeWidth\">\n" ++
  "      <path d=\"M0,0 L12,4 L0,8 L3,4 Z\" fill=\"#333\" />\n    </marker>\n" ++
  "    <filter id=\"shadow\" x=\"-20%\" y=\"-20%\" width=\"140%\" height=\"140%\">\n" ++
  "      <feDropShadow dx=\"2\" dy=\"2\" stdDeviation=\"2\" flood-opacity=\"0.15\"/>\n    </filter>\n  </defs>\n" ++
  "  <rect width=\"" ++ fmtInt width ++ "\" height=\"" ++ fmtInt height ++ "\" fill=\"#ffffff\"/>"

/-- render.py lines 234-250: straight connector lines between vertex centres
with the arrow marker, skipping edges with unknown endpoints. -/
def edgeLines (vl : List (String × RVert)) (tx ty : Q → Q) (edges : List REdge) :
    List String :=
  edges.filterMap (fun e =>
    match dictLookupLast (e.source.getD "") vl, dictLookupLast (e.target.getD "") vl with
    | some src, some tgt =>
      let sx := tx src.x + src.w / 2
      let sy := ty src.y + src.h / 2
      let txe := tx tgt.x + tgt.w / 2
      let tye := ty tgt.y + tgt.h / 2
      let stroke := normalize_color ((styleGet e.style "strokeColor").getD "#333") "#333"
      let sw := (styleGet e.style "strokeWidth").getD "2"
      some ("  <line x1='" ++ fmt1 sx ++ "' y1='" ++ fmt1 sy ++ "' x2='" ++ fmt1 txe ++
        "' y2='" ++ fmt1 tye ++ "' stroke='" ++ stroke ++ "' stroke-width='" ++ sw ++
        "' marker-end='url(#arrow)'/>")
    | _, _ => none)

/-- render.py lines 253-357: render one vertex (text element, cylinder,
hexagon or rectangle, plus centred label); `float()` on style-carried sizes
can raise, exactly where the source would. -/
def renderVert (tx ty : Q → Q) (v : RVert) : Except PyErr (List String) := do
  let x := tx v.x
  let y := ty v.y
  let w := v.w
  let h := v.h
  let st := v.style
  let fill := normalize_color ((styleGet st "fillColor").getD "#f5f5f5") "#f5f5f5"
  let stroke := normalize_color ((styleGet st "strokeColor").getD "#333") "#333"
  let opacity := (styleGet st "opacity").getD "100"
  let fill_opacity := (styleGet st "fillOpacity").getD "100"
  if (styleGet st "text").isSome || styleGet st "strokeColor" == some "none" then do
    let font_size := (styleGet st "fontSize").getD "12"
    let font_color := normalize_color ((styleGet st "fontColor").getD "#333") "#333"
    let font_weight := if styleGet st "fontStyle" == some "1" then "700" else "400"
    let fs ← pyFloatE font_size
    let text_x := x + 4
    let text_y := y + fs + 4
    if v.value ≠ "" then
      return ["  <text x='" ++ fmt1 text_x ++ "' y='" ++ fmt1 text_y ++ "' fill='" ++
        font_color ++ "' font-size='" ++ font_size ++ "' font-weight='" ++ font_weight ++
        "' class='lane-text'>" ++ htmlEscape v.value ++ "</text>"]
    else return []
  else
    let ops : Q × Q :=
      match pyFloat opacity, pyFloat fill_opacity with
      | some o, some fo => (o / 100, fo / 100)
      | _, _ => (1, 1)
    let op := ops.1
    let fill_op := ops.2
    let rounded := styleGet st "rounded" == some "1"
    let rx : Q := if rounded then 8 else 3
    let shape := (styleGet st "shape").getD ""
    let shapeParts : List String :=
      if strContains shape "cylinder" then
        ["  <rect x='" ++ fmt1 x ++ "' y='" ++ fmt1 (y + 10) ++ "' width='" ++ fmt1 w ++
           "' height='" ++ fmt1 (h - 10) ++ "' fill='" ++ fill ++ "' stroke='" ++ stroke ++
           "' stroke-width='2' rx='3' opacity='" ++ fmtQ op ++ "' fill-opacity='" ++
           fmtQ fill_op ++ "'/>",
         "  <ellipse cx='" ++ fmt1 (x + w / 2) ++ "' cy='" ++ fmt1 (y + 12) ++ "' rx='" ++
           fmt1 (w / 2) ++ "' ry='10' fill='" ++ fill ++ "' stroke='" ++ stroke ++
           "' stroke-width='2' opacity='" ++ fmtQ op ++ "' fill-opacity='" ++ fmtQ fill_op ++ "'/>"]
      else if strContains shape "hexagon" then
        let pts := [(x + w * (1/4), y), (x + w * (3/4), y), (x + w, y + h / 2),
                    (x + w * (3/4), y + h), (x + w * (1/4), y + h), (x, y + h / 2)]
        let pts_str := String.intercalate " " (pts.map (fun p => fmt1 p.1 ++ "," ++ fmt1 p.2))
        ["  <polygon points='" ++ pts_str ++ "' fill='" ++ fill ++ "' stroke='" ++ stroke ++
           "' stroke-width='2' opacity='" ++ fmtQ op ++ "' fill-opacity='" ++ fmtQ fill_op ++ "'/>"]
      else
        let dashed := styleGet st "dashed" == some "1"
        let dash_attr := if dashed then "stroke-dasharray='8 4' " else ""
        let filter_attr := if op < (8/10 : Q) then "" else "filter='url(#shadow)'"
        ["  <rect x='" ++ fmt1 x ++ "' y='" ++ fmt1 y ++ "' width='" ++ fmt1 w ++
           "' height='" ++ fmt1 h ++ "' rx='" ++ fmtInt rx ++ "' ry='" ++ fmtInt rx ++
           "' fill='" ++ fill ++ "' stroke='" ++ stroke ++ "' stroke-width='2' opacity='" ++
           fmtQ op ++ "' fill-opacity='" ++ fmtQ fill_op ++ "' " ++ dash_attr ++ filter_attr ++ "/>"]
    let labelParts ←
      if v.value ≠ "" && decide ((3/10 : Q) < fill_op) then do
        let font_color :=
          match styleGet st "fontColor" with
          | none => text_color_for_bg fill
          | some fc => if fc = "" then text_color_for_bg fill else normalize_color fc "#333"
        let font_size := (styleGet st "fontSize").getD "12"
        let fs ← pyFloatE font_size
        let text_x := x + w / 2
        let text_y := y + h / 2 + fs / 3
        let display := if v.value.data.length ≤ 25 then v.value
                       else String.mk (v.value.data.take 22) ++ "..."
        pure ["  <text x='" ++ fmt1 text_x ++ "' y='" ++ fmt1 text_y ++ "' fill='" ++
          font_color ++ "' font-size='" ++ font_size ++
          "' text-anchor='middle' class='node-text'>" ++ htmlEscape display ++ "</text>"]
      else pure []
    return shapeParts ++ labelParts

/-- Concatenation of renderVert over the z-ordered vertices, first raise
aborts (as the Python loop would). -/
def renderVerts (tx ty : Q → Q) : List RVert → Except PyErr (List String)
  | [] => Except.ok []
  | v :: vs => do
    let p ← renderVert tx ty v
    let rest ← renderVerts tx ty vs
    return p ++ rest

/-- render.py lines 145-360: the body of `drawio_xml_to_svg` once the root
is an `mxGraphModel`: collect cells, recompute the bounding box, emit header,
edges (first), then vertices in z-order. -/
def svgBody (cells : List MxCell) : Except PyErr String := do
  let cr ← collectRender cells
  let vl := cr.1
  let edges := cr.2
  let verts := pyDictValues vl
  if verts.isEmpty then
    return "<svg xmlns='http://www.w3.org/2000/svg' width='400' height='200'><text x='20' y='100' fill='#666'>No diagram elements</text></svg>"
  else
    let min_x := listMinQ (verts.map (fun v => v.x))
    let min_y := listMinQ (verts.map (fun v => v.y))
    let max_x := listMaxQ (verts.map (fun v => v.x + v.w))
    let max_y := listMaxQ (verts.map (fun v => v.y + v.h))
    let margin : Q := 30
    let width := pyInt (qmax 400 (max_x - min_x + 2 * margin))
    let height := pyInt (qmax 300 (max_y - min_y + 2 * margin))
    let tx : Q → Q := fun x => x - min_x + margin
    let ty : Q → Q := fun y => y - min_y + margin
    let sortedVerts := stableSort (fun a b => decide (vertex_order a ≤ vertex_order b)) verts
    let vparts ← renderVerts tx ty sortedVerts
    return String.intercalate "\n"
      ([svgHeader width height] ++ edgeLines vl tx ty edges ++ vparts ++ ["</svg>"])

/-- render.py `drawio_xml_to_svg` (lines 120-143), over the parse outcome of
its (sanitised) input text: a parse failure yields the minimal error SVG; an
`mxGraphModel` root is rendered; an `mxfile` root recurses into its first
diagram child's text when that is present and truthy; any other root raises
`ValueError("Unsupported XML root tag")` — as does an `mxfile` without such
a child. -/
def drawio_xml_to_svg : RXml → Except PyErr String
  | .parseFail msg =>
    Except.ok ("<svg xmlns='http://www.w3.org/2000/svg' width='400' height='100'><text x='20' y='50' fill='red'>XML Parse Error: " ++
      htmlEscape msg ++ "</text></svg>")
  | .parsed tag cells diagram =>
    if tag == "mxGraphModel" then svgBody cells
    else if tag == "mxfile" then
      match diagram with
      | some inner => drawio_xml_to_svg inner
      | none => Except.error (.valueErr "Unsupported XML root tag")
    else Except.error (.valueErr "Unsupported XML root tag")

end Arch

namespace PyV

/-! ## Untyped value model of agent.py normalize_plan

Claims about structurally-odd plans need Python's dynamic typing.  `PyVal`
is an (immutable) Python value tree; `normalize_plan_v` transliterates
agent.py lines 232-333 over it, with `Except.error` at exactly the points
the source would raise.  In-place mutation is invisible at this level (the
result value is the same); the heap model below captures it. -/

open Arch (strLower strContains strTake strLen assocFind defaultTitle
  CONTAINER_KEYWORDS MAX_NODES PyErr stableSort)

/-- A Python value: None, bool, int, str, list, dict (string keys suffice:
the plans in question are parsed JSON objects).  Python `True == 1` is
honoured by `pyEqB` below. -/
inductive PyVal where
  | pynone
  | pybool (b : Bool)
  | pyint (n : Int)
  | pystr (s : String)
  | pylist (l : List PyVal)
  | pydict (d : List (String × PyVal))

/-- Python truthiness. -/
def truthy : PyVal → Bool
  | .pynone => false
  | .pybool b => b
  | .pyint n => n ≠ 0
  | .pystr s => s ≠ ""
  | .pylist l => !l.isEmpty
  | .pydict d => !d.isEmpty

/-- Python `==` on these values (`True == 1`, `False == 0`; containers
compare pointwise; distinct kinds are unequal). -/
def pyEqB : PyVal → PyVal → Bool
  | .pynone, .pynone => true
  | .pybool a, .pybool b => a == b
  | .pybool a, .pyint n => (if a then (1 : Int) else 0) == n
  | .pyint n, .pybool a => (if a then (1 : Int) else 0) == n
  | .pyint a, .pyint b => a == b
  | .pystr a, .pystr b => a == b
  | .pylist a, .pylist b => pyEqList a b
  | .pydict a, .pydict b => pyEqDict a b (a.length == b.length)
  | _, _ => false
where
  /-- Pointwise list equality. -/
  pyEqList : List PyVal → List PyVal → Bool
    | [], [] => true
    | a :: as, b :: bs => pyEqB a b && pyEqList as bs
    | _, _ => false
  /-- Dict equality: same size and every key of the first maps to an equal
  value in the second (keys are strings, so key lookup is plain). -/
  pyEqDict : List (String × PyVal) → List (String × PyVal) → Bool → Bool
    | _, _, false => false
    | [], _, true => true
    | (k, v) :: t, b, true =>
      (match assocFind k b with
       | some w => pyEqB v w
       | none => false) && pyEqDict t b true

/-- Write a key in a dict: replace in place when present, append when new
(Python dict assignment, preserving insertion order). -/
def dSet : List (String × PyVal) → String → PyVal → List (String × PyVal)
  | [], k, v => [(k, v)]
  | (k', v') :: t, k, v => if k' == k then (k, v) :: t else (k', v') :: dSet t k v

/-- Python `x.get(k, dflt)`: AttributeError unless `x` is a dict. -/
def pyGet (v : PyVal) (k : String) (dflt : PyVal) : Except PyErr PyVal :=
  match v with
  | .pydict d => Except.ok ((assocFind k d).getD dflt)
  | _ => Except.error (.attrErr "object has no attribute get")

/-- Python `s.lower()`: AttributeError unless a string. -/
def pyLower : PyVal → Except PyErr String
  | .pystr s => Except.ok (strLower s)
  | _ => Except.error (.attrErr "object has no attribute lower")

/-- Python iteration `for x in v`: lists yield elements, strings their
characters (as 1-char strings), dicts their keys; None/bool/int raise
TypeError. -/
def pyIter : PyVal → Except PyErr (List PyVal)
  | .pylist l => Except.ok l
  | .pystr s => Except.ok (s.data.map (fun c => .pystr (String.mk [c])))
  | .pydict d => Except.ok (d.map (fun kv => .pystr kv.1))
  | _ => Except.error (.typeErr "object is not iterable")

/-- Python `len(v)`: strings, lists and dicts; TypeError otherwise. -/
def pyLen : PyVal → Except PyErr Nat
  | .pystr s => Except.ok s.data.length
  | .pylist l => Except.ok l.length
  | .pydict d => Except.ok d.length
  | _ => Except.error (.typeErr "object has no len")

/-- Is a value hashable (usable as a set member / dict key)? -/
def hashable : PyVal → Bool
  | .pylist _ => false
  | .pydict _ => false
  | _ => true

/-- Set membership `v in s` (the set kept as a list of its members):
TypeError on an unhashable probe, as in Python. -/
def pySetMem (v : PyVal) (s : List PyVal) : Except PyErr Bool :=
  if hashable v then Except.ok (s.any (pyEqB v)) else Except.error (.typeErr "unhashable type")

/-- Python `list.remove`-by-equality (first `==`-equal element).  In
`normalize_plan` the removed elements are collected from the list itself, so
the not-found `ValueError` branch is unreachable and dropped-if-absent is a
faithful model. -/
def pyEraseFirst (l : List PyVal) (v : PyVal) : List PyVal :=
  match l with
  | [] => []
  | x :: t => if pyEqB v x then t else x :: pyEraseFirst t v

/-- agent.py lines 259-277 over values: one demotion step per node, threading
the group list and the removal list. -/
def demoteLoop (groups toRemove : List PyVal) :
    List PyVal → Except PyErr (List PyVal × List PyVal)
  | [] => Except.ok (groups, toRemove)
  | node :: rest => do
    let nameV ← pyGet node "name" (.pystr "")
    let nameLower ← pyLower nameV
    let idV ← pyGet node "id" (.pystr "")
    let idLower ← pyLower idV
    let isCont := CONTAINER_KEYWORDS.any (fun kw =>
      strContains nameLower kw || strContains idLower kw)
    if isCont then do
      let gid ← pyGet node "id" .pynone
      let idDflt ← pyGet node "id" .pynone
      let gname ← pyGet node "name" idDflt
      let newGroup := PyVal.pydict [("id", gid), ("name", gname)]
      let existing ← groups.mapM (fun grp => pyGet grp "id" .pynone)
      if existing.all hashable then do
        let mem ← pySetMem gid existing
        demoteLoop (if mem then groups else groups ++ [newGroup]) (toRemove ++ [node]) rest
      else Except.error (.typeErr "unhashable type")
    else demoteLoop groups toRemove rest

/-- Node-id set construction `{n.get("id") for n in nodes}` (each member must
be hashable). -/
def buildIds : List PyVal → Except PyErr (List PyVal)
  | [] => Except.ok []
  | n :: rest => do
    let v ← pyGet n "id" .pynone
    if hashable v then do
      let r ← buildIds rest
      return v :: r
    else Except.error (.typeErr "unhashable type")

/-- Edge filter `e.get("from") in ids and e.get("to") in ids`, with Python's
left-to-right short-circuit evaluation. -/
def pruneLoop (ids : List PyVal) : List PyVal → Except PyErr (List PyVal)
  | [] => Except.ok []
  | e :: rest => do
    let f ← pyGet e "from" .pynone
    let keep ← do
      let m1 ← pySetMem f ids
      if m1 then do
        let t ← pyGet e "to" .pynone
        pySetMem t ids
      else pure false
    let r ← pruneLoop ids rest
    return (if keep then e :: r else r)

/-- Incident count of one node id over the edge list (`==` is Python
equality). -/
def countFor (edges : List PyVal) (nid : PyVal) : Except PyErr Nat := do
  let flags ← edges.mapM (fun e => do
    let f ← pyGet e "from" .pynone
    if pyEqB f nid then pure true
    else do
      let t ← pyGet e "to" .pynone
      pure (pyEqB t nid))
  return (flags.filter id).length

/-- agent.py lines 292-302: pair each node with its connection count. -/
def withCounts (edges : List PyVal) : List PyVal → Except PyErr (List (PyVal × Nat))
  | [] => Except.ok []
  | n :: rest => do
    let nid ← pyGet n "id" .pynone
    let c ← countFor edges nid
    let r ← withCounts edges rest
    return (n, c) :: r

/-- agent.py lines 311-315: node-name truncation over values (a non-string
name longer than 20 would make the source raise at the concatenation). -/
def truncNodeV (node : PyVal) : Except PyErr PyVal := do
  let idDflt ← pyGet node "id" (.pystr "")
  let nameV ← pyGet node "name" idDflt
  let len ← pyLen nameV
  if len > 20 then
    match nameV, node with
    | .pystr s, .pydict d =>
      return .pydict (dSet d "name" (.pystr (strTake s 17 ++ "...")))
    | _, _ => Except.error (.typeErr "can only concatenate str to str")
  else return node

/-- agent.py lines 317-325: edge dedup by the `(from, to)` pair (tuple
membership in a set needs both components hashable). -/
def dedupLoop (seen : List (PyVal × PyVal)) : List PyVal → Except PyErr (List PyVal)
  | [] => Except.ok []
  | e :: rest => do
    let f ← pyGet e "from" .pynone
    let t ← pyGet e "to" .pynone
    if hashable f && hashable t then
      if seen.any (fun p => pyEqB p.1 f && pyEqB p.2 t) then dedupLoop seen rest
      else do
        let r ← dedupLoop ((f, t) :: seen) rest
        return e :: r
    else Except.error (.typeErr "unhashable type")

/-- agent.py lines 327-331: edge-label truncation over values. -/
def truncEdgeV (e : PyVal) : Except PyErr PyVal := do
  let label ← pyGet e "label" (.pystr "")
  let len ← pyLen label
  if len > 15 then
    match label, e with
    | .pystr s, .pydict d =>
      return .pydict (dSet d "label" (.pystr (strTake s 12 ++ "...")))
    | _, _ => Except.error (.typeErr "can only concatenate str to str")
  else return e

/-- agent.py `normalize_plan` (lines 232-333) over untyped values.  The final
dict applies each key's last written value at the key position of its first
write (title, nodes, edges, groups — matching the source's write order). -/
def normalize_plan_v (user_goal : String) (plan : PyVal) : Except PyErr PyVal := do
  let g0 ← match plan with
    | .pydict d => Except.ok d
    | _ => Except.error (.attrErr "object has no attribute copy")
  let titleV := (assocFind "title" g0).getD .pynone
  let nodesV0 := (assocFind "nodes" g0).getD .pynone
  let edgesV0 := (assocFind "edges" g0).getD .pynone
  let groupsV0 := (assocFind "groups" g0).getD .pynone
  let nodesV := if truthy nodesV0 then nodesV0 else .pylist []
  let edgesV := if truthy edgesV0 then edgesV0 else .pylist []
  let groupsL ← pyIter (if truthy groupsV0 then groupsV0 else .pylist [])
  let nodesL ← pyIter nodesV
  let dem ← demoteLoop groupsL [] nodesL
  let groups1 := dem.1
  let nodes1 := dem.2.foldl pyEraseFirst nodesL
  let ids1 ← buildIds nodes1
  let edgesL ← pyIter edgesV
  let edges1 ← pruneLoop ids1 edgesL
  let capped ←
    if nodes1.length > MAX_NODES then do
      let pairs ← withCounts edges1 nodes1
      let kept := ((stableSort (fun a b => decide (b.2 ≤ a.2)) pairs).take MAX_NODES).map
        Prod.fst
      let ids2 ← buildIds kept
      let edges2 ← pruneLoop ids2 edges1
      pure (kept, edges2)
    else pure (nodes1, edges1)
  let nodes3 ← capped.1.mapM truncNodeV
  let edges3 ← dedupLoop [] capped.2
  let edges4 ← edges3.mapM truncEdgeV
  let g1 := if truthy titleV then g0 else dSet g0 "title" (.pystr (defaultTitle user_goal))
  let g2 := dSet g1 "nodes" (.pylist nodes3)
  let g3 := dSet g2 "edges" (.pylist edges4)
  let g4 := dSet g3 "groups" (.pylist groups1)
  return .pydict g4

end PyV

namespace PyH

/-! ## Heap model of agent.py normalize_plan

The source takes a *shallow* copy of the plan (`g = plan.copy()`), so the
nodes/edges lists and the nested node/edge dicts stay shared with the
caller, and `g["nodes"].remove(...)`, `node["name"] = ...` and
`edge["label"] = ...` mutate the caller's objects.  This model makes those
references explicit: values are primitives or addresses, objects (dicts and
lists) live in an address-indexed heap, and `normalize_plan_h` transliterates
agent.py lines 232-333 as a state-and-error computation.  It is evaluated
on concrete inputs only. -/

open Arch (strLower strContains strTake defaultTitle CONTAINER_KEYWORDS MAX_NODES
  PyErr stableSort assocFind)

/-- A primitive Python value or a reference into the heap. -/
inductive PyW where
  | wnone
  | wbool (b : Bool)
  | wint (n : Int)
  | wstr (s : String)
  | wref (addr : Nat)
  deriving DecidableEq

/-- A heap object: a dict (insertion-ordered) or a list. -/
inductive HObj where
  | hdict (d : List (String × PyW))
  | hlist (l : List PyW)
  deriving DecidableEq

/-- The heap: address-indexed store; allocation appends. -/
structure Heap where
  objs : List HObj
  deriving DecidableEq

/-- State-and-error monad of the heap semantics. -/
abbrev HM (α : Type) := StateT Heap (Except PyErr) α

/-- Raise a Python exception. -/
def raise (e : PyErr) : HM α := fun _ => Except.error e

/-- Allocate a fresh object, returning its address. -/
def alloc (o : HObj) : HM Nat := fun h => Except.ok (h.objs.length, ⟨h.objs ++ [o]⟩)

/-- Read the object at an address (dangling addresses cannot arise from the
embedded code; they map to an internal error). -/
def readObj (r : Nat) : HM HObj := fun h =>
  match h.objs[r]? with
  | some o => Except.ok (o, h)
  | none => Except.error (.typeErr "dangling reference")

/-- Overwrite the object at an address. -/
def writeObj (r : Nat) (o : HObj) : HM PUnit := fun h =>
  Except.ok (PUnit.unit, ⟨h.objs.set r o⟩)

/-- Dict write (replace in place or append), on association lists. -/
def dSetW : List (String × PyW) → String → PyW → List (String × PyW)
  | [], k, v => [(k, v)]
  | (k', v') :: t, k, v => if k' == k then (k, v) :: t else (k', v') :: dSetW t k v

/-- Python `x.get(k, dflt)`: `x` must reference a dict. -/
def pyGetW (v : PyW) (k : String) (dflt : PyW) : HM PyW :=
  match v with
  | .wref r => do
    match ← readObj r with
    | .hdict d => pure ((assocFind k d).getD dflt)
    | _ => raise (.attrErr "object has no attribute get")
  | _ => raise (.attrErr "object has no attribute get")

/-- Python `x[k] = v` on a dict reference. -/
def dictSetAt (r : Nat) (k : String) (v : PyW) : HM PUnit := do
  match ← readObj r with
  | .hdict d => writeObj r (.hdict (dSetW d k v))
  | _ => raise (.typeErr "object does not support item assignment")

/-- Python truthiness (containers dereferenced). -/
def truthyW (v : PyW) : HM Bool :=
  match v with
  | .wnone => pure false
  | .wbool b => pure b
  | .wint n => pure (n ≠ 0)
  | .wstr s => pure (s ≠ "")
  | .wref r => do
    match ← readObj r with
    | .hdict d => pure (!d.isEmpty)
    | .hlist l => pure (!l.isEmpty)

/-- Python iteration: list elements, string characters, dict keys. -/
def iterW (v : PyW) : HM (List PyW) :=
  match v with
  | .wref r => do
    match ← readObj r with
    | .hlist l => pure l
    | .hdict d => pure (d.map (fun kv => PyW.wstr kv.1))
  | .wstr s => pure (s.data.map (fun c => PyW.wstr (String.mk [c])))
  | _ => raise (.typeErr "object is not iterable")

/-- Python `s.lower()`. -/
def lowerW (v : PyW) : HM String :=
  match v with
  | .wstr s => pure (strLower s)
  | _ => raise (.attrErr "object has no attribute lower")

/-- Python `len`. -/
def pyLenW (v : PyW) : HM Nat :=
  match v with
  | .wstr s => pure s.data.length
  | .wref r => do
    match ← readObj r with
    | .hlist l => pure l.length
    | .hdict d => pure d.length
  | _ => raise (.typeErr "object has no len")

/-- Resolve a value to its untyped value tree, with fuel (acyclic heaps of
the sizes used here resolve within `2*|heap|+2`; cyclic structures are
outside the modelled scope). -/
def resolve : Nat → Heap → PyW → Option PyV.PyVal
  | 0, _, _ => none
  | Nat.succ fuel, h, v =>
    match v with
    | .wnone => some .pynone
    | .wbool b => some (.pybool b)
    | .wint n => some (.pyint n)
    | .wstr s => some (.pystr s)
    | .wref r =>
      match h.objs[r]? with
      | some (.hlist l) => (l.mapM (resolve fuel h)).map PyV.PyVal.pylist
      | some (.hdict d) =>
        (d.mapM (fun kv => (resolve fuel h kv.2).map (fun w => (kv.1, w)))).map
          PyV.PyVal.pydict
      | none => none

/-- Python `==`: deep structural comparison through references. -/
def eqW (a b : PyW) : HM Bool := fun h =>
  match resolve (2 * h.objs.length + 2) h a, resolve (2 * h.objs.length + 2) h b with
  | some x, some y => Except.ok (PyV.pyEqB x y, h)
  | _, _ => Except.error (.typeErr "cyclic structure in comparison")

/-- Is a value hashable (references point to lists/dicts, which are not)? -/
def hashableW : PyW → Bool
  | .wref _ => false
  | _ => true

/-- Monadic any. -/
def anyM (p : α → HM Bool) : List α → HM Bool
  | [] => pure false
  | x :: t => do
    let b ← p x
    if b then pure true else anyM p t

/-- Set membership with Python's unhashable-probe TypeError. -/
def setMemH (v : PyW) (s : List PyW) : HM Bool :=
  if hashableW v then anyM (eqW v) s else raise (.typeErr "unhashable type")

/-- Remove the first `==`-equal element, or report not-found. -/
def removeFrom (v : PyW) : List PyW → HM (Option (List PyW))
  | [] => pure none
  | x :: t => do
    let h ← eqW v x
    if h then pure (some t)
    else do
      let r ← removeFrom v t
      pure (r.map (x :: ·))

/-- Python `lst.remove(v)` on a list reference. -/
def removeAtW (r : Nat) (v : PyW) : HM PUnit := do
  match ← readObj r with
  | .hlist l => do
    match ← removeFrom v l with
    | some l' => writeObj r (.hlist l')
    | none => raise (.valueErr "list.remove(x): x not in list")
  | _ => raise (.attrErr "object has no attribute remove")

/-- Python `lst.append(v)` on a list reference. -/
def appendAtW (r : Nat) (v : PyW) : HM PUnit := do
  match ← readObj r with
  | .hlist l => writeObj r (.hlist (l ++ [v]))
  | _ => raise (.attrErr "object has no attribute append")

/-- Node-id set construction (members must be hashable). -/
def buildIdsH : List PyW → HM (List PyW)
  | [] => pure []
  | x :: rest => do
    let v ← pyGetW x "id" .wnone
    if hashableW v then do
      let r ← buildIdsH rest
      pure (v :: r)
    else raise (.typeErr "unhashable type")

/-- agent.py lines 259-277 on the heap; returns the `nodes_to_remove` list. -/
def demoteLoopH (groupsRef : Nat) (toRemove : List PyW) :
    List PyW → HM (List PyW)
  | [] => pure toRemove
  | node :: rest => do
    let nameV ← pyGetW node "name" (.wstr "")
    let nameL ← lowerW nameV
    let idV ← pyGetW node "id" (.wstr "")
    let idL ← lowerW idV
    let isCont := CONTAINER_KEYWORDS.any (fun kw =>
      strContains nameL kw || strContains idL kw)
    if isCont then do
      let gid ← pyGetW node "id" .wnone
      let idD ← pyGetW node "id" .wnone
      let gname ← pyGetW node "name" idD
      let ng ← alloc (.hdict [("id", gid), ("name", gname)])
      let groupsL ←
        (do match ← readObj groupsRef with
            | .hlist l => pure l
            | _ => raise (.typeErr "not a list"))
      let existing ← buildIdsH groupsL
      let mem ← setMemH gid existing
      if !mem then appendAtW groupsRef (.wref ng) else pure PUnit.unit
      demoteLoopH groupsRef (toRemove ++ [node]) rest
    else demoteLoopH groupsRef toRemove rest

/-- Edge pruning with left-to-right short-circuit membership tests. -/
def pruneLoopH (ids : List PyW) : List PyW → HM (List PyW)
  | [] => pure []
  | e :: rest => do
    let f ← pyGetW e "from" .wnone
    let m1 ← setMemH f ids
    let keep ←
      if m1 then do
        let t ← pyGetW e "to" .wnone
        setMemH t ids
      else pure false
    let r ← pruneLoopH ids rest
    pure (if keep then e :: r else r)

/-- Incident count of one id with short-circuit `or`. -/
def countForH (edges : List PyW) (nid : PyW) : HM Nat :=
  match edges with
  | [] => pure 0
  | e :: rest => do
    let f ← pyGetW e "from" .wnone
    let h1 ← eqW f nid
    let hit ←
      if h1 then pure true
      else do
        let t ← pyGetW e "to" .wnone
        eqW t nid
    let r ← countForH rest nid
    pure (if hit then r + 1 else r)

/-- Pair each node with its connection count (agent.py lines 294-298). -/
def withCountsH (edges : List PyW) : List PyW → HM (List (PyW × Nat))
  | [] => pure []
  | n :: rest => do
    let nid ← pyGetW n "id" .wnone
    let c ← countForH edges nid
    let r ← withCountsH edges rest
    pure ((n, c) :: r)

/-- Name truncation, mutating the shared node dicts (agent.py 312-315). -/
def truncLoopH : List PyW → HM PUnit
  | [] => pure PUnit.unit
  | node :: rest => do
    let idD ← pyGetW node "id" (.wstr "")
    let nameV ← pyGetW node "name" idD
    let len ← pyLenW nameV
    if len > 20 then
      match nameV, node with
      | .wstr s, .wref r => do
        dictSetAt r "name" (.wstr (strTake s 17 ++ "..."))
        truncLoopH rest
      | .wstr _, _ => raise (.typeErr "object does not support item assignment")
      | _, _ => raise (.typeErr "can only concatenate str to str")
    else truncLoopH rest

/-- Edge dedup by the `(from, to)` value pair (agent.py 317-325). -/
def dedupLoopH (seen : List (PyW × PyW)) : List PyW → HM (List PyW)
  | [] => pure []
  | e :: rest => do
    let f ← pyGetW e "from" .wnone
    let t ← pyGetW e "to" .wnone
    if hashableW f && hashableW t then do
      let mem ← anyM (fun p : PyW × PyW => do
        let a ← eqW p.1 f
        if a then eqW p.2 t else pure false) seen
      if mem then dedupLoopH seen rest
      else do
        let r ← dedupLoopH ((f, t) :: seen) rest
        pure (e :: r)
    else raise (.typeErr "unhashable type")

/-- Label truncation, mutating the shared edge dicts (agent.py 327-331). -/
def labelLoopH : List PyW → HM PUnit
  | [] => pure PUnit.unit
  | e :: rest => do
    let label ← pyGetW e "label" (.wstr "")
    let len ← pyLenW label
    if len > 15 then
      match label, e with
      | .wstr s, .wref r => do
        dictSetAt r "label" (.wstr (strTake s 12 ++ "..."))
        labelLoopH rest
      | .wstr _, _ => raise (.typeErr "object does not support item assignment")
      | _, _ => raise (.typeErr "can only concatenate str to str")
    else labelLoopH rest

/-- agent.py `normalize_plan` (lines 232-333) with reference semantics:
takes the address of the plan dict, returns the address of the shallow
copy `g`; the shared nodes list, node dicts and edge dicts are mutated in
the heap exactly where the source mutates them. -/
def normalize_plan_h (user_goal : String) (planRef : Nat) : HM Nat := do
  let d ←
    (do match ← readObj planRef with
        | .hdict dd => pure dd
        | _ => raise (.attrErr "object has no attribute copy"))
  let g ← alloc (.hdict d)
  let tv ← pyGetW (.wref g) "title" .wnone
  let tb ← truthyW tv
  if !tb then dictSetAt g "title" (.wstr (defaultTitle user_goal)) else pure PUnit.unit
  let nv ← pyGetW (.wref g) "nodes" .wnone
  let nb ← truthyW nv
  let nodesW ←
    if nb then pure nv
    else do
      let r ← alloc (.hlist [])
      pure (PyW.wref r)
  dictSetAt g "nodes" nodesW
  let ev ← pyGetW (.wref g) "edges" .wnone
  let eb ← truthyW ev
  let edgesW ←
    if eb then pure ev
    else do
      let r ← alloc (.hlist [])
      pure (PyW.wref r)
  dictSetAt g "edges" edgesW
  let gv ← pyGetW (.wref g) "groups" .wnone
  let gb ← truthyW gv
  let groupElems ← if gb then iterW gv else pure []
  let groupsRef ← alloc (.hlist groupElems)
  dictSetAt g "groups" (.wref groupsRef)
  let nodesSnapshot ← iterW nodesW
  let toRemove ← demoteLoopH groupsRef [] nodesSnapshot
  (if toRemove.isEmpty then pure PUnit.unit
   else match nodesW with
     | .wref nr => toRemove.foldlM (fun _ v => removeAtW nr v) PUnit.unit
     | _ => raise (.attrErr "object has no attribute remove"))
  let nodesCur ← iterW nodesW
  let ids1 ← buildIdsH nodesCur
  let edgeL ← iterW edgesW
  let pruned ← pruneLoopH ids1 edgeL
  let e1 ← alloc (.hlist pruned)
  dictSetAt g "edges" (.wref e1)
  let nodesCur2 ← iterW nodesW
  (if nodesCur2.length > MAX_NODES then do
    let prunedL ←
      (do match ← readObj e1 with
          | .hlist l => pure l
          | _ => raise (.typeErr "not a list"))
    let pairs ← withCountsH prunedL nodesCur2
    let kept := ((stableSort (fun a b => decide (b.2 ≤ a.2)) pairs).take MAX_NODES).map
      Prod.fst
    let nr ← alloc (.hlist kept)
    dictSetAt g "nodes" (.wref nr)
    let ids2 ← buildIdsH kept
    let keptEdges ← pruneLoopH ids2 prunedL
    let er ← alloc (.hlist keptEdges)
    dictSetAt g "edges" (.wref er)
  else pure PUnit.unit)
  let nodesW2 ← pyGetW (.wref g) "nodes" .wnone
  let nodesL2 ← iterW nodesW2
  truncLoopH nodesL2
  let edgesW2 ← pyGetW (.wref g) "edges" .wnone
  let edgesL2 ← iterW edgesW2
  let unique ← dedupLoopH [] edgesL2
  let ur ← alloc (.hlist unique)
  dictSetAt g "edges" (.wref ur)
  let edgesL3 ←
    (do match ← readObj ur with
        | .hlist l => pure l
        | _ => raise (.typeErr "not a list"))
  labelLoopH edgesL3
  pure g

end PyH

/-! ## Concrete inputs and support definitions for the claims -/

/-- Heap for the mutation scenario: a caller-owned plan dict (address 2)
whose nodes list (address 1) holds one node record (address 0) with a
22-character name. -/
def c10heapA : PyH.Heap :=
  ⟨[.hdict [("id", .wstr "n1"), ("name", .wstr "Authentication Service")],
    .hlist [.wref 0],
    .hdict [("nodes", .wref 1)]]⟩

/-- Heap for the demotion scenario: the single node is container-named. -/
def c10heapB : PyH.Heap :=
  ⟨[.hdict [("id", .wstr "vpc1"), ("name", .wstr "VPC")],
    .hlist [.wref 0],
    .hdict [("nodes", .wref 1)]]⟩

/-- Document whose single vertex cell has a geometry x attribute that
`float()` rejects. -/
def c5doc : Arch.XmlDoc :=
  { tag := "mxGraphModel",
    cells := [{ id := some "v1", value := some "X", style := some "fillColor=#ffffff;",
                vertexAttr := some "1", edgeAttr := none, parent := some "1",
                source := none, target := none,
                geom := some ⟨some (.bad "abc"), none, some (.num 10), some (.num 10)⟩ }] }

/-- Does an optional geometry attribute avoid the `float()` ValueError? -/
def goodGeoVal : Option Arch.GeoVal → Bool
  | some (.bad _) => false
  | _ => true

/-- Are all geometry attributes of a (vertex) cell parseable?  Only vertex
cells with a geometry element are bbox-parsed by the validator. -/
def cellGoodGeom (c : Arch.MxCell) : Bool :=
  if c.vertexAttr == some "1" then
    match c.geom with
    | some g => goodGeoVal g.x && goodGeoVal g.y && goodGeoVal g.w && goodGeoVal g.h
    | none => true
  else true

/-- Parse outcomes on which the validator cannot raise: parse failures, and
documents whose vertex geometries are numeric-or-absent. -/
def goodParse : Arch.XmlParse → Bool
  | .failed _ => true
  | .parsed doc => doc.cells.all cellGoodGeom

/-- Concrete well-geometried document for the C5 witness. -/
def c5good : Arch.XmlDoc :=
  { tag := "mxGraphModel",
    cells := [{ id := some "v1", value := some "X", style := some "fillColor=#ffffff;",
                vertexAttr := some "1", edgeAttr := none, parent := some "1",
                source := none, target := none,
                geom := some (Arch.mkGeo 0 0 10 10) }] }

/-- The concrete plan of the scenario claim: two nodes and one labelled
edge. -/
def c1plan : Arch.Plan :=
  { title := none, lanes := none, legend := none,
    nodes := [⟨"a", some "API Gateway", some "integration", none, none, none⟩,
              ⟨"b", some "DB", some "data", none, none, none⟩],
    edges := [⟨some "a", some "b", some "SQL"⟩],
    groups := [] }

/-- A goal text containing none of the validator trigger words
(event, api, monitor, security). -/
def c1goal : String := "simple web stack"

/-- Canonical plan for the group-containment claim: one group, one member
node in the group's (default) lane. -/
def c9plan : Arch.Plan :=
  { title := some "t", lanes := none, legend := none,
    nodes := [⟨"n1", some "N", none, some "Platform & Security", some "g1", none⟩],
    edges := [], groups := [⟨some "g1", some "G", none, none⟩] }

/-- The member node of c9plan. -/
def c9node : Arch.PNode := ⟨"n1", some "N", none, some "Platform & Security", some "g1", none⟩

/-- The group cell plan_to_mxgraph emits for c9plan. -/
def c9cell : Arch.MxCell :=
  Arch.mkVertex "g_g1" "G" (Arch.groupStyleStr ⟨some "g1", some "G", none, none⟩) "1"
    190 675 220 120

/-- Does the first rectangle contain the second expanded by `pad` on all four
sides (the claim's containment notion)? -/
def rectContainsPad (gx gy gw gh nx ny nw nh pad : Arch.Q) : Prop :=
  gx ≤ nx - pad ∧ gy ≤ ny - pad ∧ nx + nw + pad ≤ gx + gw ∧ ny + nh + pad ≤ gy + gh

/-- Canonical plan (unique ids, no edges, hence no dangling edges) with two
nodes in two distinct lanes that are not in the configured lane list. -/
def c2plan : Arch.Plan :=
  { title := some "t", lanes := none, legend := none,
    nodes := [⟨"a", some "A", none, some "misc1", none, none⟩,
              ⟨"b", some "B", none, some "misc2", none, none⟩],
    edges := [], groups := [] }

/-- Spec-modelled ranking (from the claim's words, for the refinement
comparison): an enumerated node outranks another when its incident-edge
count is strictly higher; equal counts are resolved in favour of the earlier
original position. -/
def specRankLE (edges : List Arch.PEdge) (a b : Nat × Arch.PNode) : Bool :=
  decide (Arch.connCount edges b.2.id < Arch.connCount edges a.2.id) ||
    (decide (Arch.connCount edges a.2.id = Arch.connCount edges b.2.id) &&
      decide (a.1 ≤ b.1))

/-- Spec-modelled top-8 selection (from the claim's words): the 8 nodes with
the highest incident-edge counts, ties resolved by earlier original
position.  The comparison is a total order on enumerated positions, so any
sort realises the unique ranking. -/
def specTop8 (edges : List Arch.PEdge) (nodes : List Arch.PNode) : List Arch.PNode :=
  ((Arch.stableSort (specRankLE edges) nodes.enum).take Arch.MAX_NODES).map Prod.snd

/-- A 50-node plan whose every node is an infrastructure container (name and
id contain the keyword vpc). -/
def c3plan : Arch.Plan :=
  { title := some "t", lanes := none, legend := none,
    nodes := (List.range 50).map (fun i =>
      ⟨"vpc" ++ toString i, some "n", none, none, none, none⟩),
    edges := [], groups := [] }

/-- A container-free 50-node plan with one edge. -/
def c3good : Arch.Plan :=
  { title := some "t", lanes := none, legend := none,
    nodes := (List.range 50).map (fun i =>
      ⟨"s" ++ toString i, some "svc", none, none, none, none⟩),
    edges := [⟨some "s3", some "s7", none⟩], groups := [] }

/-- Canonical two-node plan with one labelled edge, for the idempotence
witness. -/
def c7plan : Arch.Plan :=
  { title := none, lanes := none, legend := none,
    nodes := [⟨"a", some "A", none, none, none, none⟩,
              ⟨"b", some "B", none, none, none, none⟩],
    edges := [⟨some "a", some "b", some "L"⟩], groups := [] }

/-- Canonical plan with two nodes in the default (configured) lane. -/
def c2good : Arch.Plan :=
  { title := some "t", lanes := none, legend := none,
    nodes := [⟨"a", some "A", none, none, none, none⟩,
              ⟨"b", some "B", none, none, none, none⟩],
    edges := [], groups := [] }

/-! Top-level names for the intermediate let-bindings of `normalize_plan`
(agent.py lines 258-309), used to state idempotence facts pass by pass. -/

/-- `normalize_plan`'s nodes after container demotion (agent.py line 280). -/
def nodes1F (p : Arch.Plan) : List Arch.PNode :=
  Arch.removeNodes p.nodes (p.nodes.filter Arch.isContainer)

/-- `normalize_plan`'s edges after the first pruning (agent.py lines 284-288). -/
def edges1F (p : Arch.Plan) : List Arch.PEdge :=
  Arch.pruneEdges (nodes1F p) p.edges

/-- The capping sort order (agent.py line 301): connectivity descending. -/
def capLE (p : Arch.Plan) (a b : Arch.PNode) : Bool :=
  decide (Arch.connCount (edges1F p) b.id ≤ Arch.connCount (edges1F p) a.id)

/-- `normalize_plan`'s nodes after the cardinality cap (agent.py lines 300-303). -/
def nodes2F (p : Arch.Plan) : List Arch.PNode :=
  if (nodes1F p).length > Arch.MAX_NODES then
    (Arch.stableSort (capLE p) (nodes1F p)).take Arch.MAX_NODES
  else nodes1F p

/-- `normalize_plan`'s edges after the post-cap re-pruning (agent.py lines 305-309). -/
def edges2F (p : Arch.Plan) : List Arch.PEdge :=
  if (nodes1F p).length > Arch.MAX_NODES then Arch.pruneEdges (nodes2F p) (edges1F p)
  else edges1F p

/-! ## Supporting lemmas for the claims -/

/-! Unfolding lemmas for the fraction scalar. -/

theorem Q.add_def (a b : Arch.Q) : a + b = ⟨a.n * b.d + b.n * a.d, a.d * b.d⟩ := rfl

theorem Q.sub_def (a b : Arch.Q) : a - b = ⟨a.n * b.d - b.n * a.d, a.d * b.d⟩ := rfl

theorem Q.mul_def (a b : Arch.Q) : a * b = ⟨a.n * b.n, a.d * b.d⟩ := rfl

theorem Q.natCast_def (m : Nat) : (m : Arch.Q) = ⟨(m : Int), 1⟩ := rfl

theorem Q.ofNat_def (m : Nat) : (OfNat.ofNat m : Arch.Q) = ⟨(OfNat.ofNat m : Int), 1⟩ := rfl

theorem Q.le_def (a b : Arch.Q) : (a ≤ b) ↔ a.n * b.d ≤ b.n * a.d := Iff.rfl

theorem Q.lt_def (a b : Arch.Q) : (a < b) ↔ a.n * b.d < b.n * a.d := Iff.rfl

/-! Stable sort facts. -/

theorem insortStable_perm (le : α → α → Bool) (x : α) (l : List α) :
    (Arch.insortStable le x l).Perm (x :: l) := by
  induction l with
  | nil => exact List.Perm.refl _
  | cons y ys ih =>
    unfold Arch.insortStable
    by_cases h : le x y = true
    · simp [h]
    · simp only [h, if_false]
      exact (ih.cons y).trans (List.Perm.swap x y ys)

theorem stableSort_perm (le : α → α → Bool) (l : List α) :
    (Arch.stableSort le l).Perm l := by
  induction l with
  | nil => exact List.Perm.refl _
  | cons x xs ih => exact (insortStable_perm le x _).trans (ih.cons x)

theorem mem_stableSort {le : α → α → Bool} {l : List α} {a : α} :
    a ∈ Arch.stableSort le l ↔ a ∈ l :=
  (stableSort_perm le l).mem_iff

/-! Write-log dict lookup facts. -/

theorem dictLookupLast_mem {β : Type} {k : String} {l : List (String × β)} {v : β}
    (h : Arch.dictLookupLast k l = some v) : (k, v) ∈ l := by
  induction l with
  | nil => simp [Arch.dictLookupLast] at h
  | cons kv t ih =>
    rw [Arch.dictLookupLast] at h
    cases ht : Arch.dictLookupLast k t with
    | some r =>
      rw [ht] at h
      cases h
      exact List.mem_cons_of_mem _ (ih ht)
    | none =>
      rw [ht] at h
      by_cases hk : kv.1 = k
      · rw [if_pos hk] at h
        cases h
        obtain ⟨k1, v1⟩ := kv
        cases hk
        exact List.mem_cons_self _ _
      · rw [if_neg hk] at h
        cases h

theorem mem_dictLookupLast_isSome {β : Type} {k : String} {l : List (String × β)} {v : β}
    (h : (k, v) ∈ l) : (Arch.dictLookupLast k l).isSome := by
  induction l with
  | nil => simp at h
  | cons kv t ih =>
    rw [Arch.dictLookupLast]
    cases ht : Arch.dictLookupLast k t with
    | some r => simp
    | none =>
      rcases List.mem_cons.mp h with h1 | h2
      · rw [← h1]
        simp
      · have := ih h2
        rw [ht] at this
        simp at this

/-! Lane banding: characterisation of the y positions `_lane_positions`
assigns, and their 150-unit separation for distinct lane names. -/

theorem lanePosFrom_lookup_none {lane : String} :
    ∀ (ls : List String) (y : Arch.Q),
      Arch.dictLookupLast lane (Arch.lanePosFrom y ls) = none → lane ∉ ls := by
  intro ls
  induction ls with
  | nil => intro y _; simp
  | cons l t ih =>
    intro y h
    rw [Arch.lanePosFrom, Arch.dictLookupLast] at h
    cases ht : Arch.dictLookupLast lane (Arch.lanePosFrom (y + (Arch.LANE_HEIGHT + Arch.LANE_PADDING)) t) with
    | some r => rw [ht] at h; cases h
    | none =>
      rw [ht] at h
      by_cases hl : l = lane
      · rw [if_pos hl] at h; cases h
      · rw [if_neg hl] at h
        intro hm
        rcases List.mem_cons.mp hm with h1 | h2
        · exact hl h1.symm
        · exact ih _ ht h2

theorem lanePosFrom_char (lane : String) :
    ∀ (ls : List String) (y : Arch.Q), y.d = 1 →
      ∀ v, Arch.dictLookupLast lane (Arch.lanePosFrom y ls) = some v →
        ∃ i, i < ls.length ∧ ls[i]? = some lane ∧ v.d = 1 ∧ v.n = y.n + 150 * i := by
  intro ls
  induction ls with
  | nil => intro y _ v h; simp [Arch.lanePosFrom, Arch.dictLookupLast] at h
  | cons l t ih =>
    intro y hy v h
    rw [Arch.lanePosFrom, Arch.dictLookupLast] at h
    have hy' : (y + (Arch.LANE_HEIGHT + Arch.LANE_PADDING)).d = 1 := by
      simp [Q.add_def, Arch.LANE_HEIGHT, Arch.LANE_PADDING, Q.ofNat_def, hy]
    have hn' : (y + (Arch.LANE_HEIGHT + Arch.LANE_PADDING)).n = y.n + 150 := by
      simp [Q.add_def, Arch.LANE_HEIGHT, Arch.LANE_PADDING, Q.ofNat_def, hy]
    cases ht : Arch.dictLookupLast lane (Arch.lanePosFrom (y + (Arch.LANE_HEIGHT + Arch.LANE_PADDING)) t) with
    | some r =>
      rw [ht] at h
      cases h
      obtain ⟨i, hi, hget, hd, hn⟩ := ih _ hy' _ ht
      refine ⟨i + 1, by simpa using hi, by simpa using hget, hd, ?_⟩
      rw [hn, hn']
      push_cast
      ring
    | none =>
      rw [ht] at h
      by_cases hl : l = lane
      · rw [if_pos hl] at h
        cases h
        exact ⟨0, by simp, by simpa using hl, hy, by simp⟩
      · rw [if_neg hl] at h
        cases h

theorem lanePosFrom_lookup_isSome {lane : String} {ls : List String} {y : Arch.Q}
    (h : lane ∈ ls) :
    ∃ v, Arch.dictLookupLast lane (Arch.lanePosFrom y ls) = some v := by
  cases hl : Arch.dictLookupLast lane (Arch.lanePosFrom y ls) with
  | some v => exact ⟨v, rfl⟩
  | none => exact absurd h (lanePosFrom_lookup_none ls y hl)

theorem lane_positions_start_d : (Arch.DIAGRAM_MARGIN + 40 : Arch.Q).d = 1 := rfl

theorem lane_positions_start_n : (Arch.DIAGRAM_MARGIN + 40 : Arch.Q).n = 80 := rfl

theorem xExpr_d (k : Nat) :
    (Arch.DIAGRAM_MARGIN + 180 + Arch.NODE_SPACING_X * (k : Arch.Q)).d = 1 := rfl

theorem xExpr_n (k : Nat) :
    (Arch.DIAGRAM_MARGIN + 180 + Arch.NODE_SPACING_X * (k : Arch.Q)).n = 220 + 200 * (k : Int) := by
  simp [Arch.DIAGRAM_MARGIN, Arch.NODE_SPACING_X, Q.add_def, Q.mul_def, Q.natCast_def,
    Q.ofNat_def]

/-- Where a looked-up layout position comes from: some node `m` with this id
sits at slot `k` of its lane's sorted node list, at x = 220 + 200k and
y = laneY + 35. -/
theorem layout_entry_char {p : Arch.Plan} {lane_y : List (String × Arch.Q)}
    {nid : String} {xy : Arch.Q × Arch.Q}
    (h : (nid, xy) ∈ Arch.layout_nodes_in_lanes p lane_y) :
    ∃ (lane : String) (k : Nat) (m : Arch.PNode),
      (Arch.stableSort Arch.laneSortLE (p.nodes.filter (fun n => Arch.effLane n == lane)))[k]? =
        some m ∧
      m.id = nid ∧ m ∈ p.nodes ∧ Arch.effLane m = lane ∧
      xy.1.d = 1 ∧ xy.1.n = 220 + 200 * (k : Int) ∧
      xy.2 = Arch.laneYLookup lane_y lane + 35 := by
  simp only [Arch.layout_nodes_in_lanes, List.mem_flatten, List.mem_map] at h
  obtain ⟨inner, ⟨lane, hlane, hinner⟩, hmem⟩ := h
  rw [← hinner] at hmem
  simp only [Arch.layoutLane, List.mem_map] at hmem
  obtain ⟨e, he, heq⟩ := hmem
  obtain ⟨k, m⟩ := e
  obtain ⟨hkl, hm⟩ := List.mem_enum he
  have hid : m.id = nid := congrArg Prod.fst heq
  have hxy : (Arch.DIAGRAM_MARGIN + 180 + Arch.NODE_SPACING_X * (k : Arch.Q),
      Arch.laneYLookup lane_y lane + 35) = xy := congrArg Prod.snd heq
  have hmemf : m ∈ p.nodes.filter (fun n => Arch.effLane n == lane) := by
    have : m ∈ Arch.stableSort Arch.laneSortLE (p.nodes.filter (fun n => Arch.effLane n == lane)) := by
      rw [hm]
      exact List.getElem_mem _
    exact mem_stableSort.mp this
  have hmp := List.mem_filter.mp hmemf
  have h1 : xy.1 = Arch.DIAGRAM_MARGIN + 180 + Arch.NODE_SPACING_X * (k : Arch.Q) :=
    (congrArg Prod.fst hxy).symm
  have h2 : xy.2 = Arch.laneYLookup lane_y lane + 35 := (congrArg Prod.snd hxy).symm
  refine ⟨lane, k, m, List.getElem?_eq_some.mpr ⟨hkl, hm.symm⟩, hid, hmp.1,
    by simpa using hmp.2, ?_, ?_, h2⟩
  · rw [h1]
    exact xExpr_d k
  · rw [h1]
    exact xExpr_n k
theorem laneY_separation {lanes : List String} {la lb : String} (hne : la ≠ lb)
    {va vb : Arch.Q}
    (ha : Arch.dictLookupLast la (Arch.lane_positions lanes) = some va)
    (hb : Arch.dictLookupLast lb (Arch.lane_positions lanes) = some vb) :
    va.d = 1 ∧ vb.d = 1 ∧ (va.n + 150 ≤ vb.n ∨ vb.n + 150 ≤ va.n) := by
  rw [Arch.lane_positions] at ha hb
  obtain ⟨ia, hia, hgeta, hda, hna⟩ := lanePosFrom_char la lanes _ lane_positions_start_d _ ha
  obtain ⟨ib, hib, hgetb, hdb, hnb⟩ := lanePosFrom_char lb lanes _ lane_positions_start_d _ hb
  refine ⟨hda, hdb, ?_⟩
  have hne' : ia ≠ ib := by
    intro hh
    rw [hh, hgetb] at hgeta
    have hla : lb = la := by injection hgeta
    exact hne hla.symm
  rw [hna, hnb, lane_positions_start_n]
  omega

/-- Writing a key then reading it back gives the written value. -/
theorem assocFind_dSet_self (d : List (String × PyV.PyVal)) (k : String) (v : PyV.PyVal) :
    Arch.assocFind k (PyV.dSet d k v) = some v := by
  induction d with
  | nil => simp [PyV.dSet, Arch.assocFind]
  | cons kv t ih =>
    obtain ⟨k', v'⟩ := kv
    by_cases h : k' = k
    · subst h; simp [PyV.dSet, Arch.assocFind]
    · simp [PyV.dSet, Arch.assocFind, h, ih]

/-- Writing one key leaves lookups of other keys unchanged. -/
theorem assocFind_dSet_ne (d : List (String × PyV.PyVal)) (k k' : String) (v : PyV.PyVal)
    (h : k ≠ k') : Arch.assocFind k (PyV.dSet d k' v) = Arch.assocFind k d := by
  induction d with
  | nil => simp [PyV.dSet, Arch.assocFind, show ¬ k' = k from fun hh => h hh.symm]
  | cons kv t ih =>
    obtain ⟨k0, v0⟩ := kv
    by_cases h0 : k0 = k'
    · subst h0
      simp [PyV.dSet, Arch.assocFind, show ¬ k0 = k from fun hh => h hh.symm]
    · simp [PyV.dSet, Arch.assocFind, h0, ih]

/-! Fold bounds for Python min/max over denominator-1 fractions. -/

theorem foldl_qmin_den1 (xs : List Arch.Q) (x : Arch.Q) (hx : x.d = 1)
    (hxs : ∀ a ∈ xs, a.d = 1) :
    (xs.foldl Arch.qmin x).d = 1 ∧ (xs.foldl Arch.qmin x).n ≤ x.n ∧
      ∀ a ∈ xs, (xs.foldl Arch.qmin x).n ≤ a.n := by
  induction xs generalizing x with
  | nil => exact ⟨hx, le_refl _, by simp⟩
  | cons y ys ih =>
    have hy : y.d = 1 := hxs y (List.mem_cons_self _ _)
    have hq : (Arch.qmin x y).d = 1 ∧ (Arch.qmin x y).n ≤ x.n ∧ (Arch.qmin x y).n ≤ y.n := by
      rw [Arch.qmin]
      by_cases hlt : y < x
      · rw [if_pos hlt]
        rw [Q.lt_def, hx, hy] at hlt
        omega
      · rw [if_neg hlt]
        rw [Q.lt_def, hx, hy] at hlt
        omega
    have hys : ∀ a ∈ ys, a.d = 1 := fun a ha => hxs a (List.mem_cons_of_mem _ ha)
    obtain ⟨hd, hle, hall⟩ := ih (Arch.qmin x y) hq.1 hys
    exact ⟨hd, le_trans hle hq.2.1,
      fun a ha => by
        rcases List.mem_cons.mp ha with h1 | h2
        · rw [h1]; exact le_trans hle hq.2.2
        · exact hall a h2⟩

theorem foldl_qmax_den1 (xs : List Arch.Q) (x : Arch.Q) (hx : x.d = 1)
    (hxs : ∀ a ∈ xs, a.d = 1) :
    (xs.foldl Arch.qmax x).d = 1 ∧ x.n ≤ (xs.foldl Arch.qmax x).n ∧
      ∀ a ∈ xs, a.n ≤ (xs.foldl Arch.qmax x).n := by
  induction xs generalizing x with
  | nil => exact ⟨hx, le_refl _, by simp⟩
  | cons y ys ih =>
    have hy : y.d = 1 := hxs y (List.mem_cons_self _ _)
    have hq : (Arch.qmax x y).d = 1 ∧ x.n ≤ (Arch.qmax x y).n ∧ y.n ≤ (Arch.qmax x y).n := by
      rw [Arch.qmax]
      by_cases hlt : x < y
      · rw [if_pos hlt]
        rw [Q.lt_def, hx, hy] at hlt
        omega
      · rw [if_neg hlt]
        rw [Q.lt_def, hx, hy] at hlt
        omega
    have hys : ∀ a ∈ ys, a.d = 1 := fun a ha => hxs a (List.mem_cons_of_mem _ ha)
    obtain ⟨hd, hle, hall⟩ := ih (Arch.qmax x y) hq.1 hys
    exact ⟨hd, le_trans hq.2.1 hle,
      fun a ha => by
        rcases List.mem_cons.mp ha with h1 | h2
        · rw [h1]; exact le_trans hq.2.2 hle
        · exact hall a h2⟩

theorem listMinQ_den1 {xs : List Arch.Q} (hne : xs ≠ []) (hxs : ∀ a ∈ xs, a.d = 1) :
    (Arch.listMinQ xs).d = 1 ∧ ∀ a ∈ xs, (Arch.listMinQ xs).n ≤ a.n := by
  cases xs with
  | nil => exact absurd rfl hne
  | cons x t =>
    obtain ⟨hd, hle, hall⟩ := foldl_qmin_den1 t x (hxs x (List.mem_cons_self _ _))
      (fun a ha => hxs a (List.mem_cons_of_mem _ ha))
    exact ⟨hd, fun a ha => by
      rcases List.mem_cons.mp ha with h1 | h2
      · rw [h1]; exact hle
      · exact hall a h2⟩

theorem listMaxQ_den1 {xs : List Arch.Q} (hne : xs ≠ []) (hxs : ∀ a ∈ xs, a.d = 1) :
    (Arch.listMaxQ xs).d = 1 ∧ ∀ a ∈ xs, a.n ≤ (Arch.listMaxQ xs).n := by
  cases xs with
  | nil => exact absurd rfl hne
  | cons x t =>
    obtain ⟨hd, hle, hall⟩ := foldl_qmax_den1 t x (hxs x (List.mem_cons_self _ _))
      (fun a ha => hxs a (List.mem_cons_of_mem _ ha))
    exact ⟨hd, fun a ha => by
      rcases List.mem_cons.mp ha with h1 | h2
      · rw [h1]; exact hle
      · exact hall a h2⟩

/-! Further layout facts shared by the geometry claims. -/

theorem laneYLookup_den1 (lanes : List String) (lane : String) :
    (Arch.laneYLookup (Arch.lane_positions lanes) lane).d = 1 := by
  rw [Arch.laneYLookup]
  cases hl : Arch.dictLookupLast lane (Arch.lane_positions lanes) with
  | none => rfl
  | some v =>
    rw [Arch.lane_positions] at hl
    obtain ⟨i, _, _, hd, _⟩ := lanePosFrom_char lane lanes _ lane_positions_start_d _ hl
    simpa using hd

theorem string_append_left_cancel {pre a b : String} (h : pre ++ a = pre ++ b) : a = b := by
  have h2 := congrArg String.data h
  rw [String.data_append, String.data_append] at h2
  have h3 := List.append_cancel_left h2
  cases a
  cases b
  exact congrArg String.mk (by simpa using h3)

/-- Looked-up node position: its provenance in the lane layout. -/
theorem posLookup_char {p : Arch.Plan} {lane_y : List (String × Arch.Q)}
    {nid : String} {x y : Arch.Q}
    (h : Arch.posLookup (Arch.layout_nodes_in_lanes p lane_y) nid = some (x, y)) :
    ∃ (lane : String) (k : Nat) (m : Arch.PNode),
      (Arch.stableSort Arch.laneSortLE (p.nodes.filter (fun n => Arch.effLane n == lane)))[k]? =
        some m ∧
      m.id = nid ∧ m ∈ p.nodes ∧ Arch.effLane m = lane ∧
      x.d = 1 ∧ x.n = 220 + 200 * (k : Int) ∧
      y = Arch.laneYLookup lane_y lane + 35 :=
  layout_entry_char (dictLookupLast_mem h)

/-- Inversion of the group-cell emission loop: every emitted group cell comes
from the first group record with its (truthy) id, and carries exactly the
`groupGeom` rectangle. -/
theorem groupCellsAux_mem {p : Arch.Plan} {positions : List (String × Arch.Q × Arch.Q)}
    {lane_y : List (String × Arch.Q)} :
    ∀ (gs : List Arch.PGroup) (seen : List String) (c : Arch.MxCell),
      c ∈ (Arch.groupCellsAux p positions lane_y gs seen).1 →
      ∃ (g : Arch.PGroup) (gid : String), g ∈ gs ∧ g.id = some gid ∧ gid ≠ "" ∧
        c = Arch.mkVertex ("g_" ++ gid) (g.name.getD gid) (Arch.groupStyleStr g) "1"
          (Arch.groupGeom p positions lane_y g gid).1
          (Arch.groupGeom p positions lane_y g gid).2.1
          (Arch.groupGeom p positions lane_y g gid).2.2.1
          (Arch.groupGeom p positions lane_y g gid).2.2.2 := by
  intro gs
  induction gs with
  | nil => intro seen c h; simp [Arch.groupCellsAux] at h
  | cons g gs ih =>
    intro seen c h
    cases hid : g.id with
    | none =>
      simp only [Arch.groupCellsAux, hid] at h
      obtain ⟨g', gid, hg', rest⟩ := ih seen c h
      exact ⟨g', gid, List.mem_cons_of_mem _ hg', rest⟩
    | some gid =>
      simp only [Arch.groupCellsAux, hid] at h
      by_cases hskip : (decide (gid = "") || seen.contains gid) = true
      · rw [if_pos hskip] at h
        obtain ⟨g', gid', hg', rest⟩ := ih seen c h
        exact ⟨g', gid', List.mem_cons_of_mem _ hg', rest⟩
      · rw [if_neg hskip] at h
        have hne : gid ≠ "" := by
          intro hh
          exact hskip (by simp [hh])
        rcases List.mem_cons.mp h with h1 | h2
        · exact ⟨g, gid, List.mem_cons_self _ _, hid, hne, h1⟩
        · obtain ⟨g', gid', hg', rest⟩ := ih (seen ++ [gid]) c h2
          exact ⟨g', gid', List.mem_cons_of_mem _ hg', rest⟩

/-! Node-cell emission loop: inversion, distinctness and id listing. -/

theorem nodeCellsAux_mem {positions : List (String × Arch.Q × Arch.Q)}
    {gids : List String} :
    ∀ (ns : List Arch.PNode) (seen : List String) (c : Arch.MxCell),
      c ∈ Arch.nodeCellsAux positions gids ns seen →
      ∃ (n : Arch.PNode) (x y : Arch.Q), n ∈ ns ∧ n.id ≠ "" ∧ n.id ∉ seen ∧
        Arch.posLookup positions n.id = some (x, y) ∧
        c = Arch.mkVertex ("n_" ++ n.id) (n.name.getD n.id) (Arch.node_style n)
          (Arch.nodeParent n gids) x y Arch.NODE_WIDTH Arch.NODE_HEIGHT := by
  intro ns
  induction ns with
  | nil => intro seen c h; simp [Arch.nodeCellsAux] at h
  | cons n ns ih =>
    intro seen c h
    by_cases hskip : (decide (n.id = "") || seen.contains n.id) = true
    · simp only [Arch.nodeCellsAux, hskip, if_true] at h
      obtain ⟨m, x, y, hm, rest⟩ := ih seen c h
      exact ⟨m, x, y, List.mem_cons_of_mem _ hm, rest⟩
    · have hskip' : (decide (n.id = "") || seen.contains n.id) = false :=
        Bool.not_eq_true _ ▸ Bool.of_not_eq_true hskip
      have hne : n.id ≠ "" := by
        intro hh
        exact hskip (by simp [hh])
      have hns : n.id ∉ seen := by
        intro hh
        exact hskip (by simp [hh])
      cases hp : Arch.posLookup positions n.id with
      | none =>
        simp only [Arch.nodeCellsAux, hskip', Bool.false_eq_true, if_false, hp] at h
        obtain ⟨m, x, y, hm, rest⟩ := ih seen c h
        exact ⟨m, x, y, List.mem_cons_of_mem _ hm, rest⟩
      | some xy =>
        obtain ⟨x, y⟩ := xy
        simp only [Arch.nodeCellsAux, hskip', Bool.false_eq_true, if_false, hp] at h
        rcases List.mem_cons.mp h with h1 | h2
        · exact ⟨n, x, y, List.mem_cons_self _ _, hne, hns, hp, h1⟩
        · obtain ⟨m, x', y', hm, hmne, hmns, rest⟩ := ih (seen ++ [n.id]) c h2
          exact ⟨m, x', y', List.mem_cons_of_mem _ hm, hmne,
            fun hh => hmns (List.mem_append_left _ hh), rest⟩

theorem nodeCellsAux_pairwise_ne {positions : List (String × Arch.Q × Arch.Q)}
    {gids : List String} :
    ∀ (ns : List Arch.PNode) (seen : List String),
      (Arch.nodeCellsAux positions gids ns seen).Pairwise (fun a b => a.id ≠ b.id) := by
  intro ns
  induction ns with
  | nil => intro seen; simp [Arch.nodeCellsAux]
  | cons n ns ih =>
    intro seen
    by_cases hskip : (decide (n.id = "") || seen.contains n.id) = true
    · simp only [Arch.nodeCellsAux, hskip, if_true]
      exact ih seen
    · have hskip' : (decide (n.id = "") || seen.contains n.id) = false :=
        Bool.not_eq_true _ ▸ Bool.of_not_eq_true hskip
      cases hp : Arch.posLookup positions n.id with
      | none =>
        simp only [Arch.nodeCellsAux, hskip', Bool.false_eq_true, if_false, hp]
        exact ih seen
      | some xy =>
        obtain ⟨x, y⟩ := xy
        simp only [Arch.nodeCellsAux, hskip', Bool.false_eq_true, if_false, hp]
        refine List.Pairwise.cons ?_ (ih (seen ++ [n.id]))
        intro b hb hcontra
        obtain ⟨m, x', y', hm, hmne, hmns, hmp, hbcell⟩ :=
          nodeCellsAux_mem ns (seen ++ [n.id]) b hb
        rw [hbcell] at hcontra
        have hids : "n_" ++ n.id = "n_" ++ m.id := Option.some.inj hcontra
        exact hmns (List.mem_append_right _
          (by simp [← string_append_left_cancel hids]))

theorem firstOccAux_mem :
    ∀ (l seen : List String) (a : String), a ∈ l → a ∉ seen →
      a ∈ Arch.firstOccAux l seen := by
  intro l
  induction l with
  | nil => intro seen a ha _; simp at ha
  | cons k ks ih =>
    intro seen a ha hns
    rw [Arch.firstOccAux]
    by_cases hc : seen.contains k = true
    · rw [if_pos hc]
      rcases List.mem_cons.mp ha with h1 | h2
      · exact absurd (h1 ▸ (show k ∈ seen by simpa using hc)) hns
      · exact ih seen a h2 hns
    · rw [if_neg hc]
      rcases List.mem_cons.mp ha with h1 | h2
      · exact h1 ▸ List.mem_cons_self _ _
      · by_cases hak : a = k
        · exact hak ▸ List.mem_cons_self _ _
        · refine List.mem_cons_of_mem _ (ih (k :: seen) a h2 ?_)
          intro hmem
          rcases List.mem_cons.mp hmem with h3 | h4
          · exact hak h3
          · exact hns h4

/-- Every node of the plan gets a layout position (under its own id). -/
theorem layout_covers {p : Arch.Plan} {lane_y : List (String × Arch.Q)}
    {n : Arch.PNode} (hn : n ∈ p.nodes) :
    ∃ xy, (n.id, xy) ∈ Arch.layout_nodes_in_lanes p lane_y := by
  have hlane : Arch.effLane n ∈ Arch.firstOccAux (p.nodes.map Arch.effLane) [] :=
    firstOccAux_mem _ [] _ (List.mem_map_of_mem _ hn) (by simp)
  have hfil : n ∈ p.nodes.filter (fun m => Arch.effLane m == Arch.effLane n) :=
    List.mem_filter.mpr ⟨hn, by simp⟩
  have hsort : n ∈ Arch.stableSort Arch.laneSortLE
      (p.nodes.filter (fun m => Arch.effLane m == Arch.effLane n)) :=
    mem_stableSort.mpr hfil
  obtain ⟨k, hk, hget⟩ := List.getElem_of_mem hsort
  refine ⟨(Arch.DIAGRAM_MARGIN + 180 + Arch.NODE_SPACING_X * (k : Arch.Q),
    Arch.laneYLookup lane_y (Arch.effLane n) + 35), ?_⟩
  rw [Arch.layout_nodes_in_lanes]
  refine List.mem_flatten.mpr ⟨Arch.layoutLane lane_y (Arch.effLane n)
    (p.nodes.filter (fun m => Arch.effLane m == Arch.effLane n)),
    List.mem_map.mpr ⟨Arch.effLane n, hlane, rfl⟩, ?_⟩
  rw [Arch.layoutLane]
  exact List.mem_map.mpr ⟨(k, n),
    List.mem_enum_iff_getElem?.mpr (List.getElem?_eq_some.mpr ⟨hk, hget⟩), rfl⟩

theorem nodeCellsAux_ids {positions : List (String × Arch.Q × Arch.Q)}
    {gids : List String} :
    ∀ (ns : List Arch.PNode) (seen : List String),
      (∀ n ∈ ns, n.id ≠ "") →
      (∀ n ∈ ns, (Arch.posLookup positions n.id).isSome) →
      (ns.map (fun n => n.id)).Nodup →
      (∀ n ∈ ns, n.id ∉ seen) →
      (Arch.nodeCellsAux positions gids ns seen).map (fun c => c.id) =
        ns.map (fun n => some ("n_" ++ n.id)) := by
  intro ns
  induction ns with
  | nil => intro seen _ _ _ _; simp [Arch.nodeCellsAux]
  | cons n ns ih =>
    intro seen hne hpos hnodup hseen
    have h1 : n.id ≠ "" := hne n (List.mem_cons_self _ _)
    have h2 : n.id ∉ seen := hseen n (List.mem_cons_self _ _)
    have hskip : (decide (n.id = "") || seen.contains n.id) = false := by
      simp [h1, h2]
    obtain ⟨xy, hxy⟩ := Option.isSome_iff_exists.mp (hpos n (List.mem_cons_self _ _))
    obtain ⟨x, y⟩ := xy
    have hnodup' := List.nodup_cons.mp (by simpa using hnodup :
      (n.id :: ns.map (fun nd => nd.id)).Nodup)
    have hseen' : ∀ m ∈ ns, m.id ∉ seen ++ [n.id] := by
      intro m hm hmem
      rcases List.mem_append.mp hmem with h3 | h4
      · exact hseen m (List.mem_cons_of_mem _ hm) h3
      · have hmid : m.id = n.id := by simpa using h4
        exact hnodup'.1 (hmid ▸ List.mem_map_of_mem (fun nd => nd.id) hm)
    simp only [Arch.nodeCellsAux, hskip, Bool.false_eq_true, if_false, hxy, List.map_cons]
    rw [ih (seen ++ [n.id]) (fun m hm => hne m (List.mem_cons_of_mem _ hm))
      (fun m hm => hpos m (List.mem_cons_of_mem _ hm)) hnodup'.2 hseen']
    rfl

/-- validate.py `_bbox` on the geometry `plan_to_mxgraph` emits. -/
theorem bboxOf_mkGeo (x y w h : Arch.Q) :
    Arch.bboxOf (Arch.mkGeo x y w h) = Except.ok ⟨x, y, x + w, y + h⟩ := rfl

/-- The fifth segment of a seven-segment concatenation is an infix. -/
theorem infix_chain7 {α : Type} (A B C D m F G : List α) :
    m <:+: A ++ B ++ C ++ D ++ m ++ F ++ G :=
  ⟨A ++ B ++ C ++ D, F ++ G, by simp [List.append_assoc]⟩

/-! Normalisation-cap machinery: the source sorts the node list with Python
`sorted(key=count, reverse=True)` (embedded as the stable insertion sort
`Arch.stableSort` on the count ordering); the lemmas below relate that to the
spec-modelled ranking of enumerated nodes. -/

theorem removeNodes_nil (ns : List Arch.PNode) : Arch.removeNodes ns [] = ns := rfl

theorem rank_agree (ca cb i j : Nat) (hij : i ≤ j) :
    decide (cb ≤ ca) = (decide (cb < ca) || (decide (ca = cb) && decide (i ≤ j))) := by
  by_cases h1 : cb ≤ ca
  · by_cases h2 : cb < ca
    · simp [h1, h2]
    · have h3 : ca = cb := by omega
      simp [h1, h3, hij]
  · have h2 : ¬ cb < ca := by omega
    have h3 : ¬ ca = cb := by omega
    simp [h1, h2, h3]

theorem insort_map_agree {α β : Type} (le1 : β → β → Bool) (le2 : α → α → Bool)
    (f : α → β) (x : α) :
    ∀ s : List α, (∀ y ∈ s, le1 (f x) (f y) = le2 x y) →
      Arch.insortStable le1 (f x) (s.map f) = (Arch.insortStable le2 x s).map f := by
  intro s
  induction s with
  | nil => intro _; rfl
  | cons y ys ih =>
    intro hagree
    rw [List.map_cons, Arch.insortStable, Arch.insortStable,
      hagree y (List.mem_cons_self _ _)]
    by_cases h2 : le2 x y = true
    · rw [if_pos h2, if_pos h2]
      rfl
    · rw [if_neg h2, if_neg h2, ih (fun z hz => hagree z (List.mem_cons_of_mem _ hz))]
      rfl

theorem stableSort_map_agree {α β : Type} (le1 : β → β → Bool) (le2 : α → α → Bool)
    (f : α → β) :
    ∀ l : List α, l.Pairwise (fun a b => le1 (f a) (f b) = le2 a b) →
      Arch.stableSort le1 (l.map f) = (Arch.stableSort le2 l).map f := by
  intro l
  induction l with
  | nil => intro _; rfl
  | cons x t ih =>
    intro hp
    obtain ⟨hx, ht⟩ := List.pairwise_cons.mp hp
    rw [List.map_cons, Arch.stableSort, Arch.stableSort, ih ht]
    exact insort_map_agree le1 le2 f x (Arch.stableSort le2 t)
      (fun y hy => hx y (mem_stableSort.mp hy))

theorem pairwise_fst_lt_enumFrom {α : Type} :
    ∀ (l : List α) (m : Nat),
      (List.enumFrom m l).Pairwise (fun a b => a.1 < b.1) := by
  intro l
  induction l with
  | nil => intro m; simp
  | cons x t ih =>
    intro m
    refine List.Pairwise.cons ?_ (ih (m + 1))
    intro b hb
    obtain ⟨i, z⟩ := b
    have h1 := (List.mem_enumFrom hb).1
    show m < i
    omega

theorem dedupEdges_mem :
    ∀ (l : List Arch.PEdge) (seen : List (Option String × Option String))
      (e : Arch.PEdge), e ∈ Arch.dedupEdges l seen → e ∈ l := by
  intro l
  induction l with
  | nil => intro seen e h; simp [Arch.dedupEdges] at h
  | cons a t ih =>
    intro seen e h
    rw [Arch.dedupEdges] at h
    by_cases hc : seen.contains (a.src, a.dst) = true
    · rw [if_pos hc] at h
      exact List.mem_cons_of_mem _ (ih _ _ h)
    · rw [if_neg hc] at h
      rcases List.mem_cons.mp h with h1 | h2
      · exact h1 ▸ List.mem_cons_self _ _
      · exact List.mem_cons_of_mem _ (ih _ _ h2)

theorem truncEdgeLabel_src (e : Arch.PEdge) : (Arch.truncEdgeLabel e).src = e.src := by
  simp only [Arch.truncEdgeLabel]
  split <;> rfl

theorem truncEdgeLabel_dst (e : Arch.PEdge) : (Arch.truncEdgeLabel e).dst = e.dst := by
  simp only [Arch.truncEdgeLabel]
  split <;> rfl

theorem truncNodeName_id (n : Arch.PNode) : (Arch.truncNodeName n).id = n.id := by
  simp only [Arch.truncNodeName]
  split <;> rfl

theorem pruneEdges_mem {nodes : List Arch.PNode} {edges : List Arch.PEdge}
    {e : Arch.PEdge} (h : e ∈ Arch.pruneEdges nodes edges) :
    Arch.optMem e.src (nodes.map (fun n => n.id)) = true ∧
    Arch.optMem e.dst (nodes.map (fun n => n.id)) = true := by
  have h2 := (List.mem_filter.mp h).2
  simpa using h2

/-! Idempotence machinery: structural facts about each normalisation pass. -/

theorem foldl_erase_cons (n : Arch.PNode) :
    ∀ (ts : List Arch.PNode) (l : List Arch.PNode), (∀ x ∈ ts, x ≠ n) →
      ts.foldl (fun acc x => acc.erase x) (n :: l) =
        n :: ts.foldl (fun acc x => acc.erase x) l := by
  intro ts
  induction ts with
  | nil => intro l _; rfl
  | cons x ts ih =>
    intro l hne
    have hx : ¬(n == x) = true := by
      simp only [beq_iff_eq]
      exact fun hh => hne x (List.mem_cons_self _ _) hh.symm
    simp only [List.foldl_cons, List.erase_cons_tail hx]
    exact ih _ (fun z hz => hne z (List.mem_cons_of_mem _ hz))

/-- `for node in nodes_to_remove: nodes.remove(node)` with the remove list
computed as `filter pred` of the same list deletes exactly the matching
occurrences. -/
theorem removeNodes_filter (pred : Arch.PNode → Bool) :
    ∀ l : List Arch.PNode,
      Arch.removeNodes l (l.filter pred) = l.filter (fun x => !pred x) := by
  intro l
  induction l with
  | nil => rfl
  | cons n rest ih =>
    by_cases hp : pred n = true
    · simp only [Arch.removeNodes, List.filter_cons, hp, if_true, List.foldl_cons,
        List.erase_cons_head]
      simpa [Arch.removeNodes, hp] using ih
    · have hp' : pred n = false := Bool.not_eq_true _ ▸ Bool.of_not_eq_true hp
      have hne : ∀ x ∈ rest.filter pred, x ≠ n := by
        intro x hx hh
        rw [hh] at hx
        rw [(List.mem_filter.mp hx).2] at hp'
        cases hp'
      simp only [Arch.removeNodes, List.filter_cons, hp', Bool.false_eq_true, if_false]
      rw [foldl_erase_cons n (rest.filter pred) rest hne]
      simpa [Arch.removeNodes, hp'] using ih

theorem demoteGroups_id (gs : List Arch.PGroup) :
    ∀ ns : List Arch.PNode, (∀ n ∈ ns, Arch.isContainer n = false) →
      Arch.demoteGroups gs ns = gs := by
  intro ns
  induction ns generalizing gs with
  | nil => intro _; rfl
  | cons n rest ih =>
    intro h
    rw [Arch.demoteGroups]
    rw [if_neg (by rw [h n (List.mem_cons_self _ _)]; exact Bool.false_ne_true)]
    exact ih gs (fun m hm => h m (List.mem_cons_of_mem _ hm))

theorem sw_append (kw : List Char) :
    ∀ (h r : List Char), Arch.startsWithL kw h = true →
      Arch.startsWithL kw (h ++ r) = true := by
  induction kw with
  | nil => intro h r _; rfl
  | cons k ks ih =>
    intro h r hs
    cases h with
    | nil => cases hs
    | cons c t =>
      rw [Arch.startsWithL] at hs
      obtain ⟨h1, h2⟩ := Bool.and_eq_true_iff.mp hs
      rw [List.cons_append, Arch.startsWithL, h1, ih t r h2]
      rfl

theorem sub_append (kw : List Char) :
    ∀ (a r : List Char), Arch.subStr kw a = true → Arch.subStr kw (a ++ r) = true := by
  intro a
  induction a with
  | nil =>
    intro r hs
    rw [Arch.subStr] at hs
    have hkw : kw = [] := by
      cases kw with
      | nil => rfl
      | cons k ks => cases hs
    rw [hkw]
    cases r with
    | nil => rfl
    | cons c t => rw [List.nil_append, Arch.subStr]; rfl
  | cons c t ih =>
    intro r hs
    rw [Arch.subStr] at hs
    rw [List.cons_append, Arch.subStr]
    rcases Bool.or_eq_true_iff.mp hs with h1 | h2
    · have h3 := sw_append kw (c :: t) r h1
      rw [List.cons_append] at h3
      rw [h3]
      rfl
    · rw [ih r h2]
      simp

theorem sw_dots (kw : List Char) (hkw : ∀ c ∈ kw, ¬ c = '.') :
    ∀ (h d : List Char), (∀ c ∈ d, c = '.') →
      Arch.startsWithL kw (h ++ d) = true → Arch.startsWithL kw h = true := by
  induction kw with
  | nil => intro h d _ _; rfl
  | cons k ks ih =>
    intro h d hd hs
    cases h with
    | nil =>
      rw [List.nil_append] at hs
      cases d with
      | nil => cases hs
      | cons c t =>
        rw [Arch.startsWithL] at hs
        obtain ⟨h1, _⟩ := Bool.and_eq_true_iff.mp hs
        have hc : c = '.' := hd c (List.mem_cons_self _ _)
        have hk : k = c := by simpa using h1
        exact absurd (hk.trans hc) (hkw k (List.mem_cons_self _ _))
    | cons c t =>
      rw [List.cons_append, Arch.startsWithL] at hs
      obtain ⟨h1, h2⟩ := Bool.and_eq_true_iff.mp hs
      rw [Arch.startsWithL, h1,
        ih (fun z hz => hkw z (List.mem_cons_of_mem _ hz)) t d hd h2]
      rfl

theorem sub_all_dots (kw : List Char) (hkw : ∀ c ∈ kw, ¬ c = '.') (hne : kw ≠ []) :
    ∀ d : List Char, (∀ c ∈ d, c = '.') → Arch.subStr kw d = false := by
  intro d
  induction d with
  | nil =>
    intro _
    rw [Arch.subStr]
    cases kw with
    | nil => exact absurd rfl hne
    | cons k ks => rfl
  | cons c t ih =>
    intro hd
    rw [Arch.subStr]
    have h1 : Arch.startsWithL kw (c :: t) = false := by
      cases kw with
      | nil => exact absurd rfl hne
      | cons k ks =>
        rw [Arch.startsWithL]
        have hc : c = '.' := hd c (List.mem_cons_self _ _)
        have hk : ¬(k == c) = true := by
          simp only [beq_iff_eq]
          intro hh
          exact hkw k (List.mem_cons_self _ _) (hh.trans hc)
        simp [Bool.of_not_eq_true hk]
    rw [h1, ih (fun z hz => hd z (List.mem_cons_of_mem _ hz))]
    rfl

theorem sub_dots (kw : List Char) (hkw : ∀ c ∈ kw, ¬ c = '.') :
    ∀ (a d : List Char), (∀ c ∈ d, c = '.') →
      Arch.subStr kw (a ++ d) = true → Arch.subStr kw a = true := by
  intro a
  induction a with
  | nil =>
    intro d hd hs
    rw [List.nil_append] at hs
    cases hkwe : kw with
    | nil => rfl
    | cons k ks =>
      rw [hkwe] at hs
      have := sub_all_dots (k :: ks) (hkwe ▸ hkw) (by simp) d hd
      rw [this] at hs
      cases hs
  | cons c t ih =>
    intro d hd hs
    rw [List.cons_append, Arch.subStr] at hs
    rw [Arch.subStr]
    rcases Bool.or_eq_true_iff.mp hs with h1 | h2
    · rw [sw_dots kw hkw (c :: t) d hd h1]
      rfl
    · rw [ih d hd h2]
      simp

theorem keywords_dotfree :
    ∀ kw ∈ Arch.CONTAINER_KEYWORDS, ∀ c ∈ kw.data, ¬ c = '.' := by decide

/-- Truncating a display name cannot create a container keyword: the
keywords contain no dot, so an occurrence in `name[:17] + "..."` lies inside
the 17-character prefix and hence inside the original name (or id). -/
theorem isContainer_trunc {n : Arch.PNode} (h : Arch.isContainer n = false) :
    Arch.isContainer (Arch.truncNodeName n) = false := by
  by_cases hlen : Arch.strLen (n.name.getD n.id) > 20
  · have htr : Arch.truncNodeName n =
        { n with name := some (Arch.strTake (n.name.getD n.id) 17 ++ "...") } := by
      simp only [Arch.truncNodeName]
      rw [if_pos hlen]
    rw [htr]
    rw [Arch.isContainer] at h ⊢
    rw [List.any_eq_false] at h ⊢
    intro kw hkwmem
    have hkw := h kw hkwmem
    simp only [Bool.or_eq_true, not_or] at hkw ⊢
    obtain ⟨hname, hid⟩ := hkw
    refine ⟨?_, hid⟩
    intro hsub
    have hdata : (Arch.strLower (Arch.strTake (n.name.getD n.id) 17 ++ "...")).data =
        List.take 17 (Arch.strLower (n.name.getD n.id)).data ++ ['.', '.', '.'] := by
      show (List.take 17 (n.name.getD n.id).data ++ "...".data).map Arch.charLower = _
      rw [List.map_append, List.map_take]
      rfl
    have hsub' : Arch.subStr kw.data
        (List.take 17 (Arch.strLower (n.name.getD n.id)).data ++ ['.', '.', '.']) = true := by
      rw [← hdata]
      exact hsub
    have hdf : ∀ c ∈ kw.data, ¬ c = '.' := keywords_dotfree kw hkwmem
    have h2 := sub_dots kw.data hdf _ ['.', '.', '.'] (by decide) hsub'
    have h3 := sub_append kw.data _ (List.drop 17 (Arch.strLower (n.name.getD n.id)).data) h2
    rw [List.take_append_drop] at h3
    cases hn : n.name with
    | some s =>
      apply hname
      have hng : n.name.getD "" = s := by rw [hn]; rfl
      have hng' : n.name.getD n.id = s := by rw [hn]; rfl
      rw [hng' ] at h3
      show Arch.subStr kw.data (Arch.strLower (n.name.getD "")).data = true
      rw [hng]
      exact h3
    | none =>
      apply hid
      have hng' : n.name.getD n.id = n.id := by rw [hn]; rfl
      rw [hng'] at h3
      exact h3
  · have htr : Arch.truncNodeName n = n := by
      simp only [Arch.truncNodeName]
      rw [if_neg hlen]
    rw [htr]
    exact h

/-- Name truncation is idempotent: a truncated name is exactly 20 characters
long and passes the length guard. -/
theorem truncNodeName_idem (n : Arch.PNode) :
    Arch.truncNodeName (Arch.truncNodeName n) = Arch.truncNodeName n := by
  by_cases hlen : Arch.strLen (n.name.getD n.id) > 20
  · have htr : Arch.truncNodeName n =
        { n with name := some (Arch.strTake (n.name.getD n.id) 17 ++ "...") } := by
      simp only [Arch.truncNodeName]
      rw [if_pos hlen]
    rw [htr]
    simp only [Arch.truncNodeName]
    rw [if_neg ?_]
    show ¬ Arch.strLen
      (({ n with name := some (Arch.strTake (n.name.getD n.id) 17 ++ "...") } : Arch.PNode).name.getD
        ({ n with name := some (Arch.strTake (n.name.getD n.id) 17 ++ "...") } : Arch.PNode).id) > 20
    show ¬ Arch.strLen (Arch.strTake (n.name.getD n.id) 17 ++ "...") > 20
    have hl : Arch.strLen (Arch.strTake (n.name.getD n.id) 17 ++ "...") =
        min 17 (n.name.getD n.id).data.length + 3 := by
      show ((n.name.getD n.id).data.take 17 ++ "...".data).length = _
      rw [List.length_append, List.length_take]
      rfl
    rw [hl]
    omega
  · have htr : Arch.truncNodeName n = n := by
      simp only [Arch.truncNodeName]
      rw [if_neg hlen]
    rw [htr]
    exact htr

/-- Label truncation is idempotent: a truncated label is exactly 15
characters long. -/
theorem truncEdgeLabel_idem (e : Arch.PEdge) :
    Arch.truncEdgeLabel (Arch.truncEdgeLabel e) = Arch.truncEdgeLabel e := by
  by_cases hlen : Arch.strLen (e.label.getD "") > 15
  · have htr : Arch.truncEdgeLabel e =
        { e with label := some (Arch.strTake (e.label.getD "") 12 ++ "...") } := by
      simp only [Arch.truncEdgeLabel]
      rw [if_pos hlen]
    rw [htr]
    simp only [Arch.truncEdgeLabel]
    rw [if_neg ?_]
    show ¬ Arch.strLen (Arch.strTake (e.label.getD "") 12 ++ "...") > 15
    have hl : Arch.strLen (Arch.strTake (e.label.getD "") 12 ++ "...") =
        min 12 (e.label.getD "").data.length + 3 := by
      show ((e.label.getD "").data.take 12 ++ "...".data).length = _
      rw [List.length_append, List.length_take]
      rfl
    rw [hl]
    omega
  · have htr : Arch.truncEdgeLabel e = e := by
      simp only [Arch.truncEdgeLabel]
      rw [if_neg hlen]
    rw [htr]
    exact htr

theorem dedupEdges_not_seen :
    ∀ (l : List Arch.PEdge) (seen : List (Option String × Option String))
      (e : Arch.PEdge), e ∈ Arch.dedupEdges l seen → (e.src, e.dst) ∉ seen := by
  intro l
  induction l with
  | nil => intro seen e h; simp [Arch.dedupEdges] at h
  | cons a t ih =>
    intro seen e h
    rw [Arch.dedupEdges] at h
    by_cases hc : seen.contains (a.src, a.dst) = true
    · rw [if_pos hc] at h
      exact ih seen e h
    · rw [if_neg hc] at h
      rcases List.mem_cons.mp h with h1 | h2
      · intro hmem
        rw [h1] at hmem
        exact hc (by simpa using hmem)
      · intro hmem
        exact ih _ e h2 (List.mem_cons_of_mem _ hmem)

theorem dedupEdges_pairwise :
    ∀ (l : List Arch.PEdge) (seen : List (Option String × Option String)),
      (Arch.dedupEdges l seen).Pairwise
        (fun a b => ¬((a.src, a.dst) = (b.src, b.dst))) := by
  intro l
  induction l with
  | nil => intro seen; simp [Arch.dedupEdges]
  | cons a t ih =>
    intro seen
    rw [Arch.dedupEdges]
    by_cases hc : seen.contains (a.src, a.dst) = true
    · rw [if_pos hc]
      exact ih seen
    · rw [if_neg hc]
      refine List.Pairwise.cons ?_ (ih _)
      intro b hb heq
      exact dedupEdges_not_seen t ((a.src, a.dst) :: seen) b hb
        (heq ▸ List.mem_cons_self _ _)

theorem dedupEdges_id :
    ∀ (l : List Arch.PEdge) (seen : List (Option String × Option String)),
      l.Pairwise (fun a b => ¬((a.src, a.dst) = (b.src, b.dst))) →
      (∀ e ∈ l, (e.src, e.dst) ∉ seen) →
      Arch.dedupEdges l seen = l := by
  intro l
  induction l with
  | nil => intro seen _ _; rfl
  | cons a t ih =>
    intro seen hp hs
    obtain ⟨ha, ht⟩ := List.pairwise_cons.mp hp
    rw [Arch.dedupEdges]
    rw [if_neg (fun hc => hs a (List.mem_cons_self _ _) (by simpa using hc))]
    have hseen' : ∀ e ∈ t, (e.src, e.dst) ∉ (a.src, a.dst) :: seen := by
      intro e he hmem
      rcases List.mem_cons.mp hmem with h1 | h2
      · exact ha e he h1.symm
      · exact hs e (List.mem_cons_of_mem _ he) h2
    rw [ih _ ht hseen']

theorem nodes1F_eq (p : Arch.Plan) :
    nodes1F p = p.nodes.filter (fun x => !Arch.isContainer x) :=
  removeNodes_filter _ _

theorem nodes2F_noContainer (p : Arch.Plan) :
    ∀ m ∈ nodes2F p, Arch.isContainer m = false := by
  intro m hm
  have hm1 : m ∈ nodes1F p := by
    rw [nodes2F] at hm
    split at hm
    · exact mem_stableSort.mp (List.mem_of_mem_take hm)
    · exact hm
  rw [nodes1F_eq] at hm1
  have := (List.mem_filter.mp hm1).2
  simpa using this

theorem nodes2F_short (p : Arch.Plan) : ¬ (nodes2F p).length > Arch.MAX_NODES := by
  rw [nodes2F]
  split
  · rw [List.length_take]
    omega
  · rename_i h
    exact h

theorem edges2F_mem (p : Arch.Plan) :
    ∀ e ∈ edges2F p,
      Arch.optMem e.src ((nodes2F p).map (fun n => n.id)) = true ∧
      Arch.optMem e.dst ((nodes2F p).map (fun n => n.id)) = true := by
  intro e he
  rw [edges2F] at he
  by_cases hcap : (nodes1F p).length > Arch.MAX_NODES
  · rw [if_pos hcap] at he
    exact pruneEdges_mem he
  · rw [if_neg hcap] at he
    have hn2 : nodes2F p = nodes1F p := by
      rw [nodes2F, if_neg hcap]
    rw [hn2]
    exact pruneEdges_mem he

/-- `normalize_plan` is the identity on a plan that is already fully
normalised: no containers, at most 8 nodes, self-pruning edges, no duplicate
edge keys, fixed under truncation, and a stable title. -/
theorem second_pass_id (g : String) (q : Arch.Plan)
    (hA : ∀ n ∈ q.nodes, Arch.isContainer n = false)
    (hlen2 : ¬ q.nodes.length > Arch.MAX_NODES)
    (hprune : Arch.pruneEdges q.nodes q.edges = q.edges)
    (hdd : Arch.dedupEdges q.edges [] = q.edges)
    (htn : q.nodes.map Arch.truncNodeName = q.nodes)
    (hte : q.edges.map Arch.truncEdgeLabel = q.edges)
    (htitle : (if Arch.truthyStr q.title then q.title
      else some (Arch.defaultTitle g)) = q.title) :
    Arch.normalize_plan g q = q := by
  have hfil2 : q.nodes.filter Arch.isContainer = [] :=
    List.filter_eq_nil_iff.mpr (fun n hn => by simp [hA n hn])
  have hdg := demoteGroups_id q.groups q.nodes hA
  have hgt : (q.nodes.length > Arch.MAX_NODES) = False := eq_false hlen2
  simp only [Arch.normalize_plan, hfil2, removeNodes_nil, hdg, hgt, if_false, hprune,
    hdd, htn, hte, htitle]

/-- `normalize_plan` is idempotent on every plan and goal: a second pass
finds nothing to demote (truncation cannot create container keywords), no
oversize names or labels, no duplicate or dangling edges, and a title that is
either truthy or replaced by the identical default. -/
theorem normalize_plan_stable (g : String) (p : Arch.Plan) :
    Arch.normalize_plan g (Arch.normalize_plan g p) = Arch.normalize_plan g p := by
  have hqn : (Arch.normalize_plan g p).nodes = (nodes2F p).map Arch.truncNodeName := rfl
  have hqe : (Arch.normalize_plan g p).edges =
      (Arch.dedupEdges (edges2F p) []).map Arch.truncEdgeLabel := rfl
  have hqt : (Arch.normalize_plan g p).title =
      (if Arch.truthyStr p.title then p.title else some (Arch.defaultTitle g)) := rfl
  have hA : ∀ n ∈ (Arch.normalize_plan g p).nodes, Arch.isContainer n = false := by
    rw [hqn]
    intro n hn
    obtain ⟨m, hm, hmn⟩ := List.mem_map.mp hn
    rw [← hmn]
    exact isContainer_trunc (nodes2F_noContainer p m hm)
  have hfil2 : (Arch.normalize_plan g p).nodes.filter Arch.isContainer = [] :=
    List.filter_eq_nil_iff.mpr (fun n hn => by simp [hA n hn])
  have hdg : Arch.demoteGroups (Arch.normalize_plan g p).groups
      (Arch.normalize_plan g p).nodes = (Arch.normalize_plan g p).groups :=
    demoteGroups_id _ _ hA
  have hlen2 : ¬ (Arch.normalize_plan g p).nodes.length > Arch.MAX_NODES := by
    rw [hqn, List.length_map]
    exact nodes2F_short p
  have hids : (Arch.normalize_plan g p).nodes.map (fun n => n.id) =
      (nodes2F p).map (fun n => n.id) := by
    rw [hqn, List.map_map]
    exact List.map_congr_left (fun m _ => truncNodeName_id m)
  have hprune : Arch.pruneEdges (Arch.normalize_plan g p).nodes
      (Arch.normalize_plan g p).edges = (Arch.normalize_plan g p).edges := by
    show List.filter _ (Arch.normalize_plan g p).edges = (Arch.normalize_plan g p).edges
    refine List.filter_eq_self.mpr ?_
    intro e he
    rw [hqe] at he
    obtain ⟨e1, he1, hee⟩ := List.mem_map.mp he
    have he2 := dedupEdges_mem _ _ _ he1
    have hp := edges2F_mem p e1 he2
    rw [← hee]
    rw [truncEdgeLabel_src, truncEdgeLabel_dst, hids]
    rw [hp.1, hp.2]
    rfl
  have hpair : (Arch.normalize_plan g p).edges.Pairwise
      (fun a b => ¬((a.src, a.dst) = (b.src, b.dst))) := by
    rw [hqe, List.pairwise_map]
    refine (dedupEdges_pairwise (edges2F p) []).imp ?_
    intro a b hne heq
    apply hne
    simp only [truncEdgeLabel_src, truncEdgeLabel_dst] at heq
    exact heq
  have hdd : Arch.dedupEdges (Arch.normalize_plan g p).edges [] =
      (Arch.normalize_plan g p).edges :=
    dedupEdges_id _ _ hpair (fun e _ => by simp)
  have htn : (Arch.normalize_plan g p).nodes.map Arch.truncNodeName =
      (Arch.normalize_plan g p).nodes := by
    rw [hqn, List.map_map]
    exact List.map_congr_left (fun m _ => truncNodeName_idem m)
  have hte : (Arch.normalize_plan g p).edges.map Arch.truncEdgeLabel =
      (Arch.normalize_plan g p).edges := by
    rw [hqe, List.map_map]
    exact List.map_congr_left (fun e _ => truncEdgeLabel_idem e)
  have htitle : (if Arch.truthyStr (Arch.normalize_plan g p).title
      then (Arch.normalize_plan g p).title else some (Arch.defaultTitle g)) =
      (Arch.normalize_plan g p).title := by
    by_cases ht : Arch.truthyStr (Arch.normalize_plan g p).title = true
    · rw [if_pos ht]
    · rw [if_neg ht]
      by_cases hp : Arch.truthyStr p.title = true
      · rw [hqt, if_pos hp] at ht
        rw [hqt, if_pos hp]
        exact absurd hp ht
      · rw [hqt, if_neg hp]
  exact second_pass_id g (Arch.normalize_plan g p) hA hlen2 hprune hdd htn hte htitle

/-! ## C9 -/

/-- C9 counterexample: the emitted group rectangle does not contain its
member node's rectangle expanded by GROUP_PADDING = 30 on all four sides.
For c9plan the group cell is (190, 675, 220, 120) and the member node cell
(parented into the group) is (220, 715, 160, 60); the node's bottom edge
expanded by 30 reaches 805, but the group's bottom edge is at 795. -/
theorem c9_counterexample :
    (Arch.groupCellsOf c9plan).map (fun c => c.geom) = [some (Arch.mkGeo 190 675 220 120)] ∧
    (Arch.nodeCellsOf c9plan).map (fun c => (c.parent, c.geom)) =
      [(some "g_g1", some (Arch.mkGeo 220 715 160 60))] ∧
    ¬ rectContainsPad 190 675 220 120 220 715 160 60 Arch.GROUP_PADDING :=
  ⟨rfl, rfl, by unfold rectContainsPad; decide⟩

/-- C9 amended: for every plan with unique node ids, every emitted group cell
contains each member node's rectangle expanded by GROUP_PADDING = 30
horizontally (left and right); vertically the padding fails — containment
holds only without padding (the member clears the group top by 40 and the
bottom by 20 units) and only when the member's effective lane equals the
group's effective lane. -/
theorem c9_amended (p : Arch.Plan) (gc : Arch.MxCell)
    (hgc : gc ∈ Arch.groupCellsOf p)
    (gid : String) (hid : gc.id = some ("g_" ++ gid))
    (n : Arch.PNode) (hn : n ∈ p.nodes) (hmem : n.group = some gid)
    (hnodup : (p.nodes.map (fun nd => nd.id)).Nodup)
    (x y : Arch.Q)
    (hpos : Arch.posLookup
      (Arch.layout_nodes_in_lanes p (Arch.lane_positions (Arch.lanesOf p))) n.id =
      some (x, y)) :
    ∃ gx gy gw gh, gc.geom = some (Arch.mkGeo gx gy gw gh) ∧
      gx ≤ x - Arch.GROUP_PADDING ∧
      x + Arch.NODE_WIDTH + Arch.GROUP_PADDING ≤ gx + gw ∧
      ∃ g, g ∈ p.groups ∧ g.id = some gid ∧
        (Arch.effLane n = g.lane.getD "Platform & Security" →
          gy ≤ y ∧ y + Arch.NODE_HEIGHT ≤ gy + gh) := by
  have hgc' : gc ∈ (Arch.groupCellsAux p
      (Arch.layout_nodes_in_lanes p (Arch.lane_positions (Arch.lanesOf p)))
      (Arch.lane_positions (Arch.lanesOf p)) p.groups []).1 := hgc
  obtain ⟨g, gid', hgmem, hgid, hne, hcell⟩ := groupCellsAux_mem p.groups [] gc hgc'
  have hid' : gc.id = some ("g_" ++ gid') := by rw [hcell]; rfl
  have hgid_eq : gid = gid' := by
    rw [hid] at hid'
    exact string_append_left_cancel (Option.some.inj hid')
  subst hgid_eq
  -- abbreviations
  set lane_y := Arch.lane_positions (Arch.lanesOf p) with hlaney
  set positions := Arch.layout_nodes_in_lanes p lane_y with hposs
  set group_nodes := p.nodes.filter (fun nd => nd.group == some gid) with hgn_def
  set xs := (group_nodes.filter (fun nd => (Arch.posLookup positions nd.id).isSome)).map
    (fun nd => ((Arch.posLookup positions nd.id).getD (0, 0)).1) with hxs_def
  have hgn : n ∈ group_nodes := List.mem_filter.mpr ⟨hn, by simp [hmem]⟩
  have hxxs : x ∈ xs := by
    rw [hxs_def]
    exact List.mem_map.mpr ⟨n, List.mem_filter.mpr ⟨hgn, by simp [hpos]⟩, by simp [hpos]⟩
  have hxd : x.d = 1 := by
    obtain ⟨lane, k, m, _, _, _, _, hd, _, _⟩ := posLookup_char hpos
    exact hd
  have hxsd : ∀ a ∈ xs, a.d = 1 := by
    intro a ha
    rw [hxs_def] at ha
    obtain ⟨m, hmf, hval⟩ := List.mem_map.mp ha
    have hsome := (List.mem_filter.mp hmf).2
    obtain ⟨xy', hx'⟩ := Option.isSome_iff_exists.mp (by simpa using hsome)
    obtain ⟨x', y'⟩ := xy'
    obtain ⟨lane, k, m', _, _, _, _, hd, _, _⟩ := posLookup_char hx'
    rw [← hval, hx']
    exact hd
  have hxs_ne : xs ≠ [] := List.ne_nil_of_mem hxxs
  have hgn_ne : group_nodes.isEmpty = false := by
    cases hgl : group_nodes with
    | nil => rw [hgl] at hgn; simp at hgn
    | cons a t => rfl
  have hxs_ne' : xs.isEmpty = false := by
    cases hgl : xs with
    | nil => exact absurd hgl hxs_ne
    | cons a t => rfl
  obtain ⟨hmind, hminle⟩ := listMinQ_den1 hxs_ne hxsd
  obtain ⟨hmaxd, hmaxle⟩ := listMaxQ_den1 hxs_ne hxsd
  have hgeo : Arch.groupGeom p positions lane_y g gid =
      (Arch.listMinQ xs - Arch.GROUP_PADDING,
       Arch.laneYLookup lane_y (g.lane.getD "Platform & Security") - 5,
       Arch.listMaxQ xs - Arch.listMinQ xs + Arch.NODE_WIDTH + Arch.GROUP_PADDING * 2,
       Arch.LANE_HEIGHT - 10) := by
    rw [Arch.groupGeom]
    simp only [← hgn_def, ← hxs_def, hgn_ne, hxs_ne', Bool.false_eq_true, if_false]
  refine ⟨Arch.listMinQ xs - Arch.GROUP_PADDING,
    Arch.laneYLookup lane_y (g.lane.getD "Platform & Security") - 5,
    Arch.listMaxQ xs - Arch.listMinQ xs + Arch.NODE_WIDTH + Arch.GROUP_PADDING * 2,
    Arch.LANE_HEIGHT - 10, by rw [hcell, hgeo]; rfl, ?_, ?_, g, hgmem, hgid, ?_⟩
  · -- left padding
    rw [Q.le_def]
    simp only [Q.sub_def, Arch.GROUP_PADDING, Q.ofNat_def, hmind, hxd]
    have := hminle x hxxs
    omega
  · -- right padding
    rw [Q.le_def]
    simp only [Q.add_def, Q.sub_def, Q.mul_def, Arch.GROUP_PADDING, Arch.NODE_WIDTH,
      Q.ofNat_def, hmind, hmaxd, hxd]
    have h1 := hmaxle x hxxs
    have h2 := hminle x hxxs
    ring_nf
    nlinarith [h1, h2]
  · -- vertical, same lane
    intro hlane
    obtain ⟨lane, k, m, hget, hmid, hmmem, hmlane, _, _, hy⟩ := posLookup_char hpos
    have hmn : m = n :=
      List.inj_on_of_nodup_map hnodup hmmem hn hmid
    rw [hmn] at hmlane
    have hLd : (Arch.laneYLookup lane_y (g.lane.getD "Platform & Security")).d = 1 := by
      rw [hlaney]
      exact laneYLookup_den1 _ _
    have hyeq : y = Arch.laneYLookup lane_y (g.lane.getD "Platform & Security") + 35 := by
      rw [hy, ← hmlane, hlane]
    constructor
    · rw [hyeq, Q.le_def]
      simp only [Q.sub_def, Q.add_def, Q.ofNat_def, hLd]
      omega
    · rw [hyeq, Q.le_def]
      simp only [Q.sub_def, Q.add_def, Q.ofNat_def, Arch.NODE_HEIGHT, Arch.LANE_HEIGHT, hLd]
      omega

set_option maxRecDepth 4096 in
/-- C9 witness: the amended theorem applied to c9plan, its group cell and its
member node. -/
theorem c9_witness :
    (c9cell ∈ Arch.groupCellsOf c9plan ∧ c9node ∈ c9plan.nodes ∧
      Arch.posLookup
        (Arch.layout_nodes_in_lanes c9plan (Arch.lane_positions (Arch.lanesOf c9plan)))
        c9node.id = some (220, 715)) ∧
    ∃ gx gy gw gh, c9cell.geom = some (Arch.mkGeo gx gy gw gh) ∧
      gx ≤ 220 - Arch.GROUP_PADDING ∧
      (220 : Arch.Q) + Arch.NODE_WIDTH + Arch.GROUP_PADDING ≤ gx + gw ∧
      ∃ g, g ∈ c9plan.groups ∧ g.id = some "g1" ∧
        (Arch.effLane c9node = g.lane.getD "Platform & Security" →
          gy ≤ 715 ∧ (715 : Arch.Q) + Arch.NODE_HEIGHT ≤ gy + gh) :=
  ⟨⟨by decide, by decide, by decide⟩,
    c9_amended c9plan c9cell (by decide) "g1" (by decide) c9node (by decide) rfl
      (by decide) 220 715 (by decide)⟩

/-! ## C2 -/

/-- C2 counterexample: a canonical plan (unique nonempty node ids, no edges,
so no dangling edges) with 2 nodes whose two emitted node shapes carry the
identical rectangle (220, 155, 160, 60) — the strict axis-aligned overlap
test is satisfied.  Both nodes sit in distinct lanes absent from the
configured lane list, so both lanes fall back to the default y of 120 and
each node is first in its own lane. -/
theorem c2_counterexample :
    (c2plan.nodes.map (fun nd => nd.id)).Nodup ∧
    (∀ n ∈ c2plan.nodes, ¬ n.id = "") ∧
    c2plan.edges = [] ∧
    2 ≤ c2plan.nodes.length ∧
    (Arch.nodeCellsOf c2plan).map (fun c => c.geom) =
      [some (Arch.mkGeo 220 155 160 60), some (Arch.mkGeo 220 155 160 60)] ∧
    Arch.bboxOf (Arch.mkGeo 220 155 160 60) = Except.ok ⟨220, 155, 380, 215⟩ ∧
    Arch.overlapB ⟨220, 155, 380, 215⟩ ⟨220, 155, 380, 215⟩ = true :=
  ⟨by decide, by decide, rfl, by decide, rfl, rfl, by decide⟩

/-- C2 amended: for every plan with unique nonempty node ids all of whose
effective lanes appear in the configured lane list, the document contains the
node-cell section as a contiguous segment, it has exactly one node shape per
plan node (in plan order, with id n_<node id>), and the node shapes'
rectangles are pairwise non-overlapping under the validator's strict
intersection test.  Without the lane condition the invariant fails
(c2_counterexample). -/
theorem c2_amended (p : Arch.Plan)
    (hnodup : (p.nodes.map (fun nd => nd.id)).Nodup)
    (hne : ∀ n ∈ p.nodes, ¬ n.id = "")
    (hlanes : ∀ n ∈ p.nodes, Arch.effLane n ∈ Arch.lanesOf p) :
    Arch.nodeCellsOf p <:+: (Arch.plan_to_mxgraph p).cells ∧
    (Arch.nodeCellsOf p).map (fun c => c.id) =
      p.nodes.map (fun n => some ("n_" ++ n.id)) ∧
    (Arch.nodeCellsOf p).Pairwise (fun a b => ∀ ga gb ba bb,
      a.geom = some ga → b.geom = some gb →
      Arch.bboxOf ga = Except.ok ba → Arch.bboxOf gb = Except.ok bb →
      Arch.overlapB ba bb = false) := by
  refine ⟨?_, ?_, ?_⟩
  · show Arch.nodeCellsOf p <:+:
      Arch.placeholderCells ++ [Arch.titleCell p] ++
        Arch.laneCellsAux (Arch.lane_positions (Arch.lanesOf p))
          ((Arch.calc_diagram_size
              (Arch.layout_nodes_in_lanes p (Arch.lane_positions (Arch.lanesOf p)))
              (Arch.lanesOf p).length).1 - Arch.DIAGRAM_MARGIN * 2) 101 (Arch.lanesOf p) ++
        (Arch.groupCellsAux p
          (Arch.layout_nodes_in_lanes p (Arch.lane_positions (Arch.lanesOf p)))
          (Arch.lane_positions (Arch.lanesOf p)) p.groups []).1 ++
        Arch.nodeCellsOf p ++
        Arch.edgeCellsAux
          (Arch.layout_nodes_in_lanes p (Arch.lane_positions (Arch.lanesOf p)))
          (Arch.emittedNodeIds p.nodes []) p.edges [] ++
        (if p.legend.getD true then
          Arch.legendCells (Arch.lanesOf p)
            (Arch.calc_diagram_size
              (Arch.layout_nodes_in_lanes p (Arch.lane_positions (Arch.lanesOf p)))
              (Arch.lanesOf p).length).1
         else [])
    exact infix_chain7 _ _ _ _ _ _ _
  · have hpos : ∀ n ∈ p.nodes,
        (Arch.posLookup
          (Arch.layout_nodes_in_lanes p (Arch.lane_positions (Arch.lanesOf p))) n.id).isSome := by
      intro n hn
      obtain ⟨xy, hxy⟩ :=
        @layout_covers p (Arch.lane_positions (Arch.lanesOf p)) n hn
      exact mem_dictLookupLast_isSome hxy
    exact nodeCellsAux_ids p.nodes [] hne hpos hnodup (by simp)
  · refine List.Pairwise.imp_of_mem ?_ (nodeCellsAux_pairwise_ne p.nodes [])
    intro a b ha hb hab ga gb ba bb hga hgb hba hbb
    obtain ⟨na, xa, ya, hna, hnaid, _, hpa, hacell⟩ := nodeCellsAux_mem p.nodes [] a ha
    obtain ⟨nb, xb, yb, hnb, hnbid, _, hpb, hbcell⟩ := nodeCellsAux_mem p.nodes [] b hb
    rw [hacell] at hga
    rw [hbcell] at hgb
    have hga2 : some (Arch.mkGeo xa ya Arch.NODE_WIDTH Arch.NODE_HEIGHT) = some ga := hga
    have hgb2 : some (Arch.mkGeo xb yb Arch.NODE_WIDTH Arch.NODE_HEIGHT) = some gb := hgb
    rw [← Option.some.inj hga2, bboxOf_mkGeo] at hba
    rw [← Option.some.inj hgb2, bboxOf_mkGeo] at hbb
    have hbaE : ba = ⟨xa, ya, xa + Arch.NODE_WIDTH, ya + Arch.NODE_HEIGHT⟩ :=
      (Except.ok.inj hba).symm
    have hbbE : bb = ⟨xb, yb, xb + Arch.NODE_WIDTH, yb + Arch.NODE_HEIGHT⟩ :=
      (Except.ok.inj hbb).symm
    have hidne : na.id ≠ nb.id := by
      intro hh
      refine hab ?_
      rw [hacell, hbcell, hh]
      rfl
    obtain ⟨la, ka, ma, hgeta, hmaid, hmamem, hmalane, hxad, hxan, hya⟩ := posLookup_char hpa
    obtain ⟨lb, kb, mb, hgetb, hmbid, hmbmem, hmblane, hxbd, hxbn, hyb⟩ := posLookup_char hpb
    have hmana : ma = na := List.inj_on_of_nodup_map hnodup hmamem hna hmaid
    have hmbnb : mb = nb := List.inj_on_of_nodup_map hnodup hmbmem hnb hmbid
    rw [hbaE, hbbE]
    by_cases hll : la = lb
    · have hkk : ka ≠ kb := by
        intro hh
        rw [hll, hh] at hgeta
        rw [hgetb] at hgeta
        exact hidne (by rw [← hmana, ← hmbnb, Option.some.inj hgeta])
      rcases Nat.lt_or_ge ka kb with hlt | hge
      · have hle : xa + Arch.NODE_WIDTH ≤ xb := by
          rw [Q.le_def]
          simp only [Q.add_def, Arch.NODE_WIDTH, Q.ofNat_def, hxad, hxbd, hxan, hxbn]
          omega
        have hd : decide (xa + Arch.NODE_WIDTH ≤ xb) = true := decide_eq_true hle
        simp [Arch.overlapB, hd]
      · have hlt : kb < ka := Nat.lt_of_le_of_ne hge (fun hh => hkk hh.symm)
        have hle : xb + Arch.NODE_WIDTH ≤ xa := by
          rw [Q.le_def]
          simp only [Q.add_def, Arch.NODE_WIDTH, Q.ofNat_def, hxad, hxbd, hxan, hxbn]
          omega
        have hd : decide (xb + Arch.NODE_WIDTH ≤ xa) = true := decide_eq_true hle
        simp [Arch.overlapB, hd]
    · have hlaL : la ∈ Arch.lanesOf p := by
        have h1 : Arch.effLane na = la := hmana ▸ hmalane
        exact h1 ▸ hlanes na hna
      have hlbL : lb ∈ Arch.lanesOf p := by
        have h1 : Arch.effLane nb = lb := hmbnb ▸ hmblane
        exact h1 ▸ hlanes nb hnb
      obtain ⟨va, hva⟩ :=
        @lanePosFrom_lookup_isSome la (Arch.lanesOf p) (Arch.DIAGRAM_MARGIN + 40) hlaL
      obtain ⟨vb, hvb⟩ :=
        @lanePosFrom_lookup_isSome lb (Arch.lanesOf p) (Arch.DIAGRAM_MARGIN + 40) hlbL
      have hva' : Arch.dictLookupLast la (Arch.lane_positions (Arch.lanesOf p)) = some va := hva
      have hvb' : Arch.dictLookupLast lb (Arch.lane_positions (Arch.lanesOf p)) = some vb := hvb
      obtain ⟨hvad, hvbd, hsep⟩ := laneY_separation hll hva' hvb'
      have hyav : ya = va + 35 := by
        rw [hya, Arch.laneYLookup, hva', Option.getD_some]
      have hybv : yb = vb + 35 := by
        rw [hyb, Arch.laneYLookup, hvb', Option.getD_some]
      rcases hsep with h150 | h150
      · have hle : ya + Arch.NODE_HEIGHT ≤ yb := by
          rw [hyav, hybv, Q.le_def]
          simp only [Q.add_def, Arch.NODE_HEIGHT, Q.ofNat_def, hvad, hvbd]
          omega
        have hd : decide (ya + Arch.NODE_HEIGHT ≤ yb) = true := decide_eq_true hle
        rw [hyav, hybv] at hd ⊢
        simp [Arch.overlapB, hd]
      · have hle : yb + Arch.NODE_HEIGHT ≤ ya := by
          rw [hyav, hybv, Q.le_def]
          simp only [Q.add_def, Arch.NODE_HEIGHT, Q.ofNat_def, hvad, hvbd]
          omega
        have hd : decide (yb + Arch.NODE_HEIGHT ≤ ya) = true := decide_eq_true hle
        rw [hyav, hybv] at hd ⊢
        simp [Arch.overlapB, hd]

set_option maxRecDepth 4096 in
/-- C2 witness: the amended theorem applied to a two-node plan in the default
configured lane. -/
theorem c2_witness :
    ((c2good.nodes.map (fun nd => nd.id)).Nodup ∧
      (∀ n ∈ c2good.nodes, ¬ n.id = "") ∧
      (∀ n ∈ c2good.nodes, Arch.effLane n ∈ Arch.lanesOf c2good)) ∧
    (Arch.nodeCellsOf c2good <:+: (Arch.plan_to_mxgraph c2good).cells ∧
      (Arch.nodeCellsOf c2good).map (fun c => c.id) =
        c2good.nodes.map (fun n => some ("n_" ++ n.id)) ∧
      (Arch.nodeCellsOf c2good).Pairwise (fun a b => ∀ ga gb ba bb,
        a.geom = some ga → b.geom = some gb →
        Arch.bboxOf ga = Except.ok ba → Arch.bboxOf gb = Except.ok bb →
        Arch.overlapB ba bb = false)) :=
  ⟨⟨by decide, by decide, by decide⟩,
    c2_amended c2good (by decide) (by decide) (by decide)⟩

/-! ## C3 -/

/-- C3 counterexample: a plan with 50 nodes for which normalize_plan returns
0 nodes, not 8.  Every node is named/id-ed with the container keyword vpc, so
the demotion pass (which runs before the cardinality cap) turns all 50 into
groups and removes them. -/
theorem c3_counterexample :
    c3plan.nodes.length = 50 ∧
    (Arch.normalize_plan "goal" c3plan).nodes.length = 0 ∧
    ¬ (Arch.normalize_plan "goal" c3plan).nodes.length = 8 :=
  ⟨by decide, by decide, by decide⟩

/-- C3 amended: for every 50-node plan none of whose nodes is an
infrastructure container, normalization keeps exactly 8 nodes: the 8 with
the highest incident-edge counts measured on the pruned edge list (input
edges whose endpoints both name input nodes), ties resolved in favour of
earlier original position (the spec-modelled specTop8 ranking), each
returned with its display name truncated; and every surviving edge's
endpoints are ids of the kept 8. -/
theorem c3_amended (goal : String) (p : Arch.Plan)
    (hlen : p.nodes.length = 50)
    (hnc : ∀ n ∈ p.nodes, Arch.isContainer n = false) :
    (Arch.normalize_plan goal p).nodes =
      (specTop8 (Arch.pruneEdges p.nodes p.edges) p.nodes).map Arch.truncNodeName ∧
    (Arch.normalize_plan goal p).nodes.length = 8 ∧
    (∀ e ∈ (Arch.normalize_plan goal p).edges,
      Arch.optMem e.src ((Arch.normalize_plan goal p).nodes.map (fun n => n.id)) = true ∧
      Arch.optMem e.dst ((Arch.normalize_plan goal p).nodes.map (fun n => n.id)) = true) := by
  have hfil : p.nodes.filter Arch.isContainer = [] :=
    List.filter_eq_nil_iff.mpr (fun n hn => by simp [hnc n hn])
  have hstep : (Arch.normalize_plan goal p).nodes =
      ((Arch.stableSort (fun a b =>
          decide (Arch.connCount (Arch.pruneEdges p.nodes p.edges) b.id ≤
            Arch.connCount (Arch.pruneEdges p.nodes p.edges) a.id)) p.nodes).take
        Arch.MAX_NODES).map Arch.truncNodeName := by
    simp only [Arch.normalize_plan, hfil, removeNodes_nil, hlen, Arch.MAX_NODES]
    norm_num
  have hedges : (Arch.normalize_plan goal p).edges =
      (Arch.dedupEdges (Arch.pruneEdges
          ((Arch.stableSort (fun a b =>
              decide (Arch.connCount (Arch.pruneEdges p.nodes p.edges) b.id ≤
                Arch.connCount (Arch.pruneEdges p.nodes p.edges) a.id)) p.nodes).take
            Arch.MAX_NODES)
          (Arch.pruneEdges p.nodes p.edges)) []).map Arch.truncEdgeLabel := by
    simp only [Arch.normalize_plan, hfil, removeNodes_nil, hlen, Arch.MAX_NODES]
    norm_num
  have hagree : (p.nodes.enum).Pairwise (fun a b =>
      decide (Arch.connCount (Arch.pruneEdges p.nodes p.edges) b.2.id ≤
        Arch.connCount (Arch.pruneEdges p.nodes p.edges) a.2.id) =
      specRankLE (Arch.pruneEdges p.nodes p.edges) a b) := by
    refine (pairwise_fst_lt_enumFrom p.nodes 0).imp ?_
    intro a b hab
    simp only [specRankLE]
    exact rank_agree _ _ _ _ (Nat.le_of_lt hab)
  have hsort : Arch.stableSort (fun a b =>
        decide (Arch.connCount (Arch.pruneEdges p.nodes p.edges) b.id ≤
          Arch.connCount (Arch.pruneEdges p.nodes p.edges) a.id)) p.nodes =
      (Arch.stableSort (specRankLE (Arch.pruneEdges p.nodes p.edges)) p.nodes.enum).map
        Prod.snd := by
    have h := stableSort_map_agree
      (fun x y : Arch.PNode =>
        decide (Arch.connCount (Arch.pruneEdges p.nodes p.edges) y.id ≤
          Arch.connCount (Arch.pruneEdges p.nodes p.edges) x.id))
      (specRankLE (Arch.pruneEdges p.nodes p.edges)) Prod.snd p.nodes.enum hagree
    rw [List.enum_map_snd] at h
    exact h
  have hnodes : (Arch.normalize_plan goal p).nodes =
      (specTop8 (Arch.pruneEdges p.nodes p.edges) p.nodes).map Arch.truncNodeName := by
    rw [hstep, hsort, specTop8]
    simp only [List.map_take]
  refine ⟨hnodes, ?_, ?_⟩
  · rw [hnodes]
    simp only [specTop8, List.length_map, List.length_take,
      (stableSort_perm (specRankLE (Arch.pruneEdges p.nodes p.edges)) p.nodes.enum).length_eq,
      List.enum_length, hlen, Arch.MAX_NODES]
    omega
  · intro e he
    rw [hedges] at he
    obtain ⟨e1, he1, heq⟩ := List.mem_map.mp he
    have he2 := dedupEdges_mem _ _ _ he1
    have hp := pruneEdges_mem he2
    have hids : (Arch.normalize_plan goal p).nodes.map (fun n => n.id) =
        ((Arch.stableSort (fun a b =>
            decide (Arch.connCount (Arch.pruneEdges p.nodes p.edges) b.id ≤
              Arch.connCount (Arch.pruneEdges p.nodes p.edges) a.id)) p.nodes).take
          Arch.MAX_NODES).map (fun n => n.id) := by
      rw [hstep, List.map_map]
      exact List.map_congr_left (fun n _ => truncNodeName_id n)
    rw [← heq, truncEdgeLabel_src, truncEdgeLabel_dst, hids]
    exact hp

/-- C3 witness: a container-free 50-node plan with one repeated-target edge
bundle exercises the amended theorem. -/
theorem c3_witness :
    (c3good.nodes.length = 50 ∧ (∀ n ∈ c3good.nodes, Arch.isContainer n = false)) ∧
    ((Arch.normalize_plan "g" c3good).nodes =
      (specTop8 (Arch.pruneEdges c3good.nodes c3good.edges) c3good.nodes).map
        Arch.truncNodeName ∧
    (Arch.normalize_plan "g" c3good).nodes.length = 8 ∧
    (∀ e ∈ (Arch.normalize_plan "g" c3good).edges,
      Arch.optMem e.src ((Arch.normalize_plan "g" c3good).nodes.map (fun n => n.id)) = true ∧
      Arch.optMem e.dst ((Arch.normalize_plan "g" c3good).nodes.map (fun n => n.id)) = true)) :=
  ⟨⟨by decide, by decide⟩, c3_amended "g" c3good (by decide) (by decide)⟩

/-! Colour agreement machinery. -/

theorem hex_not_ws {x : Char} (h : Arch.isHexCh x = true) : x.isWhitespace = false := by
  have h1 : ¬ x = ' ' := fun hh => absurd (hh ▸ h) (by decide)
  have h2 : ¬ x = '\t' := fun hh => absurd (hh ▸ h) (by decide)
  have h3 : ¬ x = '\x0d' := fun hh => absurd (hh ▸ h) (by decide)
  have h4 : ¬ x = '\n' := fun hh => absurd (hh ▸ h) (by decide)
  simp only [Char.isWhitespace]
  rw [decide_eq_false h1, decide_eq_false h2, decide_eq_false h3, decide_eq_false h4]
  rfl

theorem hexListVal_pair {a b : Char} {va vb : Nat}
    (hva : Arch.hexVal a = some va) (hvb : Arch.hexVal b = some vb) :
    Arch.hexListVal [a, b] = some (va * 16 + vb) := by
  have h1 : Arch.hexListVal [b] = some vb := by
    rw [show Arch.hexListVal [b] = Arch.hexVal b from rfl, hvb]
  show (match Arch.hexVal a, Arch.hexListVal [b] with
    | some d, some r => some (d * 16 ^ [b].length + r)
    | _, _ => none) = some (va * 16 + vb)
  rw [hva, h1]
  norm_num

/-- Python `int(s, 16)` on the two-character slices cut from a well-formed
hex colour. -/
theorem pyIntHex_pair {a b : Char} (ha : Arch.isHexCh a = true)
    (hb : Arch.isHexCh b = true) :
    Arch.pyIntHex [a, b] = some (Int.ofNat (Arch.hexByte a b)) := by
  obtain ⟨va, hva⟩ := Option.isSome_iff_exists.mp ha
  obtain ⟨vb, hvb⟩ := Option.isSome_iff_exists.mp hb
  have hwa : a.isWhitespace = false := hex_not_ws ha
  have hwb : b.isWhitespace = false := hex_not_ws hb
  have hw : ((([a, b].dropWhile Char.isWhitespace).reverse.dropWhile
      Char.isWhitespace).reverse) = [a, b] := by
    simp [List.dropWhile, hwa, hwb]
  have hbyte : Arch.hexByte a b = va * 16 + vb := by
    rw [Arch.hexByte, hva, hvb]
    rfl
  have hap : ¬ a = '+' := fun hh => absurd (hh ▸ ha) (by decide)
  have ham : ¬ a = '-' := fun hh => absurd (hh ▸ ha) (by decide)
  rw [Arch.pyIntHex]
  simp only [hw]
  split
  · rename_i rest heq
    injection heq with h1 _
    exact absurd h1 hap
  · rename_i rest heq
    injection heq with h1 _
    exact absurd h1 ham
  · rw [hexListVal_pair hva hvb, hbyte]
    rfl

/-- The two luminance computations coincide on byte channels. -/
theorem luminanceI_ofNat (r g b : Nat) :
    Arch.luminanceI (Int.ofNat r) (Int.ofNat g) (Int.ofNat b) =
      Arch.luminance r g b := rfl

/-! ## C7 -/

/-- C7: normalize_plan is idempotent for every canonical plan (unique node
ids, no dangling edges) and goal text: a second normalization changes
nothing.  (The proof in fact never uses the canonicity hypotheses — the
second pass is the identity on every first-pass output.) -/
theorem c7_idempotent (g : String) (p : Arch.Plan)
    (hnodup : (p.nodes.map (fun n => n.id)).Nodup)
    (hdang : ∀ e ∈ p.edges,
      Arch.optMem e.src (p.nodes.map (fun n => n.id)) = true ∧
      Arch.optMem e.dst (p.nodes.map (fun n => n.id)) = true) :
    Arch.normalize_plan g (Arch.normalize_plan g p) = Arch.normalize_plan g p :=
  normalize_plan_stable g p

/-- C7 witness: a canonical two-node plan with one edge. -/
theorem c7_witness :
    ((c7plan.nodes.map (fun n => n.id)).Nodup ∧
      (∀ e ∈ c7plan.edges,
        Arch.optMem e.src (c7plan.nodes.map (fun n => n.id)) = true ∧
        Arch.optMem e.dst (c7plan.nodes.map (fun n => n.id)) = true)) ∧
    Arch.normalize_plan "g" (Arch.normalize_plan "g" c7plan) =
      Arch.normalize_plan "g" c7plan :=
  ⟨⟨by decide, by decide⟩, c7_idempotent "g" c7plan (by decide) (by decide)⟩

/-! ## C8 -/

/-- C8: on every well-formed #RRGGBB colour (a `#` followed by six hex
digits) the synthesiser's and the standalone renderer's darkness
classifications agree, both classify dark exactly when
0.2126·r + 0.7152·g + 0.0722·b < 0.5 on 0-1-normalised channels, the two
font-colour choices coincide, and concretely #2C3E50 gets the light font
#ffffff from both while #F0F7FF gets the dark font #1a1a1a from both. -/
theorem c8_agreement (a b c1 d e f : Char)
    (ha : Arch.isHexCh a = true) (hb : Arch.isHexCh b = true)
    (hc : Arch.isHexCh c1 = true) (hd : Arch.isHexCh d = true)
    (he : Arch.isHexCh e = true) (hf : Arch.isHexCh f = true) :
    (Arch.is_dark_plan ⟨['#', a, b, c1, d, e, f]⟩ =
      Arch.is_dark_render ⟨['#', a, b, c1, d, e, f]⟩) ∧
    (Arch.is_dark_plan ⟨['#', a, b, c1, d, e, f]⟩ = true ↔
      Arch.luminance (Arch.hexByte a b) (Arch.hexByte c1 d) (Arch.hexByte e f) < 1 / 2) ∧
    (Arch.node_font_color ⟨['#', a, b, c1, d, e, f]⟩ =
      Arch.text_color_for_bg ⟨['#', a, b, c1, d, e, f]⟩) ∧
    (Arch.node_font_color "#2C3E50" = "#ffffff" ∧
      Arch.text_color_for_bg "#2C3E50" = "#ffffff" ∧
      Arch.node_font_color "#F0F7FF" = "#1a1a1a" ∧
      Arch.text_color_for_bg "#F0F7FF" = "#1a1a1a") := by
  have hplan : Arch.is_dark_plan ⟨['#', a, b, c1, d, e, f]⟩ =
      (if Arch.isHexCh a && Arch.isHexCh b && Arch.isHexCh c1 && Arch.isHexCh d &&
          Arch.isHexCh e && Arch.isHexCh f then
        decide (Arch.luminance (Arch.hexByte a b) (Arch.hexByte c1 d)
          (Arch.hexByte e f) < 1 / 2)
      else false) := rfl
  have hplan2 : Arch.is_dark_plan ⟨['#', a, b, c1, d, e, f]⟩ =
      decide (Arch.luminance (Arch.hexByte a b) (Arch.hexByte c1 d)
        (Arch.hexByte e f) < 1 / 2) := by
    rw [hplan, ha, hb, hc, hd, he, hf]
    simp
  have hrender : Arch.is_dark_render ⟨['#', a, b, c1, d, e, f]⟩ =
      (match Arch.pyIntHex [a, b], Arch.pyIntHex [c1, d], Arch.pyIntHex [e, f] with
       | some r, some g, some bl => decide (Arch.luminanceI r g bl < 1 / 2)
       | _, _, _ => false) := rfl
  have hrender2 : Arch.is_dark_render ⟨['#', a, b, c1, d, e, f]⟩ =
      decide (Arch.luminance (Arch.hexByte a b) (Arch.hexByte c1 d)
        (Arch.hexByte e f) < 1 / 2) := by
    rw [hrender, pyIntHex_pair ha hb, pyIntHex_pair hc hd, pyIntHex_pair he hf]
    rw [show (match some (Int.ofNat (Arch.hexByte a b)), some (Int.ofNat (Arch.hexByte c1 d)),
        some (Int.ofNat (Arch.hexByte e f)) with
       | some r, some g, some bl => decide (Arch.luminanceI r g bl < 1 / 2)
       | _, _, _ => false) =
      decide (Arch.luminanceI (Int.ofNat (Arch.hexByte a b)) (Int.ofNat (Arch.hexByte c1 d))
        (Int.ofNat (Arch.hexByte e f)) < 1 / 2) from rfl]
    rw [luminanceI_ofNat]
  have hagree : Arch.is_dark_plan ⟨['#', a, b, c1, d, e, f]⟩ =
      Arch.is_dark_render ⟨['#', a, b, c1, d, e, f]⟩ := by
    rw [hplan2, hrender2]
  refine ⟨hagree, ?_, ?_, by decide, by decide, by decide, by decide⟩
  · rw [hplan2]
    exact ⟨fun h => of_decide_eq_true h, fun h => decide_eq_true h⟩
  · rw [Arch.node_font_color, Arch.text_color_for_bg, hagree]

/-- C8 witness: the theorem applied at the hex digits of #2C3E50. -/
theorem c8_witness :
    (Arch.isHexCh '2' = true ∧ Arch.isHexCh 'C' = true ∧ Arch.isHexCh '3' = true ∧
      Arch.isHexCh 'E' = true ∧ Arch.isHexCh '5' = true ∧ Arch.isHexCh '0' = true) ∧
    ((Arch.is_dark_plan ⟨['#', '2', 'C', '3', 'E', '5', '0']⟩ =
      Arch.is_dark_render ⟨['#', '2', 'C', '3', 'E', '5', '0']⟩) ∧
    (Arch.is_dark_plan ⟨['#', '2', 'C', '3', 'E', '5', '0']⟩ = true ↔
      Arch.luminance (Arch.hexByte '2' 'C') (Arch.hexByte '3' 'E')
        (Arch.hexByte '5' '0') < 1 / 2) ∧
    (Arch.node_font_color ⟨['#', '2', 'C', '3', 'E', '5', '0']⟩ =
      Arch.text_color_for_bg ⟨['#', '2', 'C', '3', 'E', '5', '0']⟩) ∧
    (Arch.node_font_color "#2C3E50" = "#ffffff" ∧
      Arch.text_color_for_bg "#2C3E50" = "#ffffff" ∧
      Arch.node_font_color "#F0F7FF" = "#1a1a1a" ∧
      Arch.text_color_for_bg "#F0F7FF" = "#1a1a1a")) :=
  ⟨⟨by decide, by decide, by decide, by decide, by decide, by decide⟩,
    c8_agreement '2' 'C' '3' 'E' '5' '0' (by decide) (by decide) (by decide)
      (by decide) (by decide) (by decide)⟩

/-! ## C10 -/

/-- C10 counterexample: normalize_plan is not pure with respect to its input.
Called on a plan whose node record (heap address 0) has the 22-character name
"Authentication Service", it truncates that shared record's name field in
place: after the call the caller's node record reads "Authentication Se...",
so the input plan object — contrary to the claim — is changed. -/
theorem c10_counterexample :
    (PyH.normalize_plan_h "add login" 2 c10heapA).map (fun r => r.2.objs[0]?) =
      Except.ok (some (.hdict [("id", .wstr "n1"), ("name", .wstr "Authentication Se...")])) ∧
    c10heapA.objs[0]? =
      some (.hdict [("id", .wstr "n1"), ("name", .wstr "Authentication Service")]) :=
  ⟨rfl, rfl⟩

/-- C10 amended: normalize_plan mutates its input through the shallow copy:
it truncates long names inside the caller's shared node records, and removes
demoted container nodes from the caller's shared nodes list; the caller's
top-level dict object itself is left unwritten.  Two invocations sharing a
plan object can therefore interfere. -/
theorem c10_mutation :
    ((PyH.normalize_plan_h "add login" 2 c10heapA).map (fun r => r.2.objs[0]?) =
      Except.ok (some (.hdict [("id", .wstr "n1"), ("name", .wstr "Authentication Se...")]))) ∧
    ((PyH.normalize_plan_h "add login" 2 c10heapB).map (fun r => r.2.objs[1]?) =
      Except.ok (some (.hlist []))) ∧
    c10heapB.objs[1]? = some (.hlist [.wref 0]) ∧
    ((PyH.normalize_plan_h "add login" 2 c10heapA).map (fun r => r.2.objs[2]?) =
      Except.ok c10heapA.objs[2]?) ∧
    ((PyH.normalize_plan_h "add login" 2 c10heapB).map (fun r => r.2.objs[2]?) =
      Except.ok c10heapB.objs[2]?) :=
  ⟨rfl, rfl, rfl, rfl, rfl⟩

/-! ## C6 -/

/-- C6 counterexample: a dict-valued plan whose `nodes` field is the truthy
non-list `1` is not treated as empty; iterating it in the demotion loop
raises TypeError, so normalize_plan does raise for some dict-valued plans. -/
theorem c6_counterexample :
    PyV.normalize_plan_v "goal" (.pydict [("nodes", .pyint 1)]) =
      Except.error (.typeErr "object is not iterable") := rfl

/-- C6 amended: for every dict-valued plan whose nodes, edges and groups
fields are each missing or falsy, normalize_plan treats them as empty
sequences and returns normally (truthy non-list values instead raise, and
`lanes` is never read). -/
theorem c6_empty_coercion (goal : String) (kvs : List (String × PyV.PyVal))
    (hn : PyV.truthy ((Arch.assocFind "nodes" kvs).getD .pynone) = false)
    (he : PyV.truthy ((Arch.assocFind "edges" kvs).getD .pynone) = false)
    (hg : PyV.truthy ((Arch.assocFind "groups" kvs).getD .pynone) = false) :
    ∃ r : List (String × PyV.PyVal),
      PyV.normalize_plan_v goal (.pydict kvs) = Except.ok (.pydict r) ∧
      Arch.assocFind "nodes" r = some (.pylist []) ∧
      Arch.assocFind "edges" r = some (.pylist []) ∧
      Arch.assocFind "groups" r = some (.pylist []) := by
  refine ⟨PyV.dSet (PyV.dSet (PyV.dSet
      (if PyV.truthy ((Arch.assocFind "title" kvs).getD .pynone) then kvs
       else PyV.dSet kvs "title" (.pystr (Arch.defaultTitle goal)))
      "nodes" (.pylist [])) "edges" (.pylist [])) "groups" (.pylist []), ?_, ?_, ?_, ?_⟩
  · simp only [PyV.normalize_plan_v, Bind.bind, Except.bind, hn, he, hg,
      Bool.false_eq_true, if_false, PyV.pyIter, PyV.demoteLoop, List.foldl_nil,
      PyV.buildIds, PyV.pruneLoop, List.length_nil, PyV.dedupLoop,
      List.mapM_nil, Pure.pure, Except.pure, Nat.zero_lt_succ]
    rfl
  · rw [assocFind_dSet_ne _ _ _ _ (by decide), assocFind_dSet_ne _ _ _ _ (by decide),
      assocFind_dSet_self]
  · rw [assocFind_dSet_ne _ _ _ _ (by decide), assocFind_dSet_self]
  · rw [assocFind_dSet_self]

/-- C6 witness: the empty plan dict exercises the theorem. -/
theorem c6_witness :
    ∃ r : List (String × PyV.PyVal),
      PyV.normalize_plan_v "build a portal" (.pydict []) = Except.ok (.pydict r) ∧
      Arch.assocFind "nodes" r = some (.pylist []) ∧
      Arch.assocFind "edges" r = some (.pylist []) ∧
      Arch.assocFind "groups" r = some (.pylist []) :=
  c6_empty_coercion "build a portal" [] rfl rfl rfl

/-! ## C4 -/

/-- C4 counterexample: drawio_xml_to_svg does raise for some input strings.
The string "<svg></svg>" parses as XML with root tag "svg", which is neither
mxGraphModel nor mxfile, so the function raises
ValueError("Unsupported XML root tag") instead of returning an SVG. -/
theorem c4_counterexample :
    Arch.drawio_xml_to_svg (.parsed "svg" [] none) =
      Except.error (.valueErr "Unsupported XML root tag") := rfl

/-- C4 amended: for every input whose XML parsing fails, drawio_xml_to_svg
returns (does not raise) a minimal valid SVG — it starts with "<svg" — that
carries the parse error message; inputs that parse successfully but have an
unsupported root tag instead raise ValueError. -/
theorem c4_parse_failure_svg (msg : String) :
    Arch.drawio_xml_to_svg (.parseFail msg) =
      Except.ok ("<svg xmlns='http://www.w3.org/2000/svg' width='400' height='100'><text x='20' y='50' fill='red'>XML Parse Error: " ++
        Arch.htmlEscape msg ++ "</text></svg>") ∧
    ("<svg xmlns='http://www.w3.org/2000/svg' width='400' height='100'><text x='20' y='50' fill='red'>XML Parse Error: " ++
        Arch.htmlEscape msg ++ "</text></svg>").data.take 4 = "<svg".data := by
  refine ⟨rfl, ?_⟩
  rw [String.data_append, String.data_append,
    List.take_append_of_le_length (by simp),
    List.take_append_of_le_length (by simp)]
  rfl

/-! ## C5 -/

/-- C5 counterexample: validate_xml does raise for some document strings.  A
document that parses fine but carries a vertex geometry attribute x="abc"
makes `_bbox`'s `float()` raise ValueError, which validate_xml does not
catch. -/
theorem c5_counterexample :
    Arch.validate_xml (.parsed c5doc) "any goal" =
      Except.error (.valueErr "could not convert string to float: abc") := rfl

/-- `float(attr or 0)` succeeds on a good attribute. -/
theorem geoFloat_ok (v : Option Arch.GeoVal) (h : goodGeoVal v = true) :
    ∃ q, Arch.geoFloat v = Except.ok q := by
  cases v with
  | none => exact ⟨0, rfl⟩
  | some gv =>
    cases gv with
    | num q => exact ⟨q, rfl⟩
    | bad s => simp [goodGeoVal] at h

/-- `_bbox` succeeds on a cell with good geometry attributes. -/
theorem bboxOf_ok (g : Arch.MxGeo) (hx : goodGeoVal g.x = true) (hy : goodGeoVal g.y = true)
    (hw : goodGeoVal g.w = true) (hh : goodGeoVal g.h = true) :
    ∃ bb, Arch.bboxOf g = Except.ok bb := by
  obtain ⟨x, hx'⟩ := geoFloat_ok _ hx
  obtain ⟨y, hy'⟩ := geoFloat_ok _ hy
  obtain ⟨w, hw'⟩ := geoFloat_ok _ hw
  obtain ⟨h, hh'⟩ := geoFloat_ok _ hh
  refine ⟨⟨x, y, x + w, y + h⟩, ?_⟩
  simp [Arch.bboxOf, hx', hy', hw', hh', Bind.bind, Except.bind, Pure.pure, Except.pure]

/-- Cell collection succeeds when every cell's geometry is good. -/
theorem collectCells_ok (cells : List Arch.MxCell) (h : cells.all cellGoodGeom = true) :
    (Arch.collectCells cells).isOk = true := by
  induction cells with
  | nil => rfl
  | cons c cs ih =>
    rw [List.all_cons, Bool.and_eq_true] at h
    have ihok := ih h.2
    cases hr : Arch.collectCells cs with
    | error e => rw [hr] at ihok; simp [Except.isOk, Except.toBool] at ihok
    | ok r =>
      obtain ⟨ns, ts, es⟩ := r
      by_cases hv : c.vertexAttr == some "1"
      · cases hgeo : c.geom with
        | none =>
          simp only [Arch.collectCells, hv, hgeo, if_true, hr]
          rfl
        | some geo =>
          have hg := h.1
          rw [cellGoodGeom, if_pos hv, hgeo] at hg
          simp only [Bool.and_eq_true] at hg
          obtain ⟨bb, hbb⟩ := bboxOf_ok geo hg.1.1.1 hg.1.1.2 hg.1.2 hg.2
          simp only [Arch.collectCells, hv, hgeo, if_true, hbb, hr]
          split
          · rename_i heq
            split at heq <;> simp at heq
          · rfl
      · simp only [Arch.collectCells, hv, if_false, hr]
        rfl

/-- C5 amended: validate_xml never raises provided every vertex cell's
geometry attributes are absent or numeric (`float()`-parseable); in that
case it returns a {ok, issues} record, and when XML parsing of the document
fails the record is ok=false with exactly the one parse issue.  (A document
with a non-numeric geometry attribute instead raises, see the
counterexample.) -/
theorem c5_no_raise (inp : Arch.XmlParse) (goal : String) (h : goodParse inp = true) :
    (Arch.validate_xml inp goal).isOk = true ∧
    ∀ msg, Arch.validate_xml (.failed msg) goal =
      Except.ok ⟨false, ["XML parse error: " ++ msg]⟩ := by
  refine ⟨?_, fun msg => rfl⟩
  cases inp with
  | failed msg => rfl
  | parsed doc =>
    have hok := collectCells_ok doc.cells h
    cases hr : Arch.collectCells doc.cells with
    | error e => rw [hr] at hok; simp [Except.isOk, Except.toBool] at hok
    | ok r =>
      obtain ⟨ns, ts, es⟩ := r
      simp only [Arch.validate_xml, hr]
      rfl

/-! ## C1 -/

/-- C1 counterexample: on the claim's concrete plan the pipeline does not
validate clean — validate_xml does not return ok with an empty issue list. -/
theorem c1_counterexample :
    Arch.validate_xml (.parsed (Arch.plan_to_mxgraph (Arch.normalize_plan c1goal c1plan)))
        c1goal ≠ Except.ok ⟨true, []⟩ := by
  have e : Arch.validate_xml
      (.parsed (Arch.plan_to_mxgraph (Arch.normalize_plan c1goal c1plan))) c1goal =
      Except.ok ⟨false,
        ["Edge e_a_b missing endArrow",
         "Overlap: 101 with leg_Experience",
         "Overlap: 101 with leg_Application",
         "Overlap: 101 with leg_Integration",
         "Overlap: 101 with leg_Data",
         "Overlap: 103 with n_a",
         "Overlap: 103 with n_b",
         "Low contrast text on n_a (light fill + light font)",
         "Low contrast text on n_b (light fill + light font)"]⟩ := rfl
  rw [e]
  simp

/-- C1 amended: normalization leaves both nodes and the edge intact; the
document contains exactly 2 node cells at distinct, non-overlapping
rectangles, 1 edge cell and 1 edge-label cell; but validate_xml returns
ok=false with nine issues: the fixed edge style's blockThin arrowhead is not
a recognised terminator, the lane-background and legend-swatch rectangles
are classified as node shapes and overlap legend swatches and the node
rectangles, and the teal #1a9898 node fill (luminance ≈ 0.491) gets a white
font from the synthesiser (threshold 0.5) that the validator flags as low
contrast (threshold 0.45). -/
theorem c1_scenario :
    (Arch.normalize_plan c1goal c1plan).nodes = c1plan.nodes ∧
    (Arch.normalize_plan c1goal c1plan).edges = c1plan.edges ∧
    (Arch.nodeCellsOf (Arch.normalize_plan c1goal c1plan)).map (fun c => c.geom) =
      [some (Arch.mkGeo 220 265 160 60), some (Arch.mkGeo 420 265 160 60)] ∧
    Arch.overlapB ⟨220, 265, 220 + 160, 265 + 60⟩ ⟨420, 265, 420 + 160, 265 + 60⟩ = false ∧
    ((Arch.plan_to_mxgraph (Arch.normalize_plan c1goal c1plan)).cells.filter
      (fun c => c.edgeAttr == some "1")).length = 1 ∧
    ((Arch.plan_to_mxgraph (Arch.normalize_plan c1goal c1plan)).cells.filter
      (fun c => c.id == some "l_a_b")).length = 1 ∧
    Arch.validate_xml (.parsed (Arch.plan_to_mxgraph (Arch.normalize_plan c1goal c1plan)))
        c1goal =
      Except.ok ⟨false,
        ["Edge e_a_b missing endArrow",
         "Overlap: 101 with leg_Experience",
         "Overlap: 101 with leg_Application",
         "Overlap: 101 with leg_Integration",
         "Overlap: 101 with leg_Data",
         "Overlap: 103 with n_a",
         "Overlap: 103 with n_b",
         "Low contrast text on n_a (light fill + light font)",
         "Low contrast text on n_b (light fill + light font)"]⟩ :=
  ⟨rfl, rfl, rfl, rfl, rfl, rfl, rfl⟩

/-- C5 witness: a concrete well-geometried document exercises the theorem. -/
theorem c5_witness :
    (Arch.validate_xml (.parsed c5good) "g").isOk = true ∧
    ∀ msg, Arch.validate_xml (.failed msg) "g" =
      Except.ok ⟨false, ["XML parse error: " ++ msg]⟩ :=
  c5_no_raise (.parsed c5good) "g" rfl
